import Mathlib

/-!
Verification of uprintf: format security scanner, bounds-safe formatter,
escape emitter.

A shallow embedding of `include/uprintf.h` and of the RGB emitter of
`include/uprintf_color.h`.

Conventions of the embedding.

* A C string is the list of the characters stored from the pointer on; the
  terminator is implicit after the last element, and a `'\0'` stored inside
  the list ends the string exactly as it does in memory.  A pointer into the
  string is the remaining suffix, `*p` is `peek p`, and `p++` drops one
  element.
* A nullable pointer is an `Option`.
* A destination buffer is the map from cell index to stored character.
* The host's formatting primitives (`vprintf`, `vsnprintf`, ...) are not part
  of the library; the entry points take them as a `Host` record.
* `UPRINTF_DEBUG` is not defined (the default, and the configuration of the
  test-suite), so `UPRINTF_ASSERT(...)` expands to `((void)0)`.
-/

namespace Uprintf

/-! ## Characters and C strings -/

/-- The string terminator `'\0'`. -/
def NUL : Char := Char.ofNat 0

/-- The escape character `'\033'`. -/
def ESC : Char := Char.ofNat 27

/-- Dereference `*p` of a pointer into a terminated string. -/
def peek : List Char → Char
  | [] => NUL
  | c :: _ => c

/-! ## The `%n` scanner (`uprintf.h`, lines 72-116) -/

/-- Loop `while (*p == '-' || *p == '+' || *p == ' ' || *p == '0' || *p == '#') p++;`. -/
def skipFlags : List Char → List Char
  | [] => []
  | c :: p =>
    if c = '-' ∨ c = '+' ∨ c = ' ' ∨ c = '0' ∨ c = '#' then skipFlags p else c :: p

/-- Loop `while (*p >= '0' && *p <= '9') p++;`. -/
def skipDigits : List Char → List Char
  | [] => []
  | c :: p => if '0' ≤ c ∧ c ≤ '9' then skipDigits p else c :: p

/-- Statement `if (*p == '*') { p++; } else { while (*p >= '0' && *p <= '9') p++; }`. -/
def skipWidth : List Char → List Char
  | [] => []
  | c :: p => if c = '*' then p else skipDigits (c :: p)

/-- Statement `if (*p == '.') { p++; if (*p == '*') ... else ... }`. -/
def skipPrecision : List Char → List Char
  | [] => []
  | c :: p => if c = '.' then skipWidth p else c :: p

/-- Loop `while (*p == 'h' || *p == 'l' || *p == 'j' || *p == 'z' || *p == 't' || *p == 'L') p++;`. -/
def skipLength : List Char → List Char
  | [] => []
  | c :: p =>
    if c = 'h' ∨ c = 'l' ∨ c = 'j' ∨ c = 'z' ∨ c = 't' ∨ c = 'L' then skipLength p
    else c :: p

/-- The four skipping steps that follow the `%` of a directive, in source order. -/
def skipDirective (p : List Char) : List Char :=
  skipLength (skipPrecision (skipWidth (skipFlags p)))

/-- The `for (p = fmt; *p; p++)` loop of `uprintf_has_percent_n_narrow`, started
at `p`.  Every iteration advances `p` by at least one character, so the fuel
counts iterations and `p.length` of it is always enough. -/
def scanNarrow : Nat → List Char → Int
  | 0, _ => 0
  | _ + 1, [] => 0
  | fuel + 1, c :: p =>
    if c = NUL then 0
    else if c = '%' then
      -- `p++` : `p` now points behind the `%`
      if peek p = '%' then scanNarrow fuel p.tail
      else
        let q := skipDirective p
        if peek q = 'n' then 1
        else if peek q = NUL then 0
        else scanNarrow fuel q.tail
    else scanNarrow fuel p

/-- Function `uprintf_has_percent_n_narrow`; `none` is the null pointer. -/
def uprintf_has_percent_n_narrow : Option (List Char) → Int
  | none => 0
  | some fmt => scanNarrow fmt.length fmt

/-- Wide loop `while (*p == L'-' || *p == L'+' || *p == L' ' || *p == L'0' || *p == L'#') p++;`. -/
def wskipFlags : List Char → List Char
  | [] => []
  | c :: p =>
    if c = '-' ∨ c = '+' ∨ c = ' ' ∨ c = '0' ∨ c = '#' then wskipFlags p else c :: p

/-- Wide loop `while (*p >= L'0' && *p <= L'9') p++;`. -/
def wskipDigits : List Char → List Char
  | [] => []
  | c :: p => if '0' ≤ c ∧ c ≤ '9' then wskipDigits p else c :: p

/-- Wide statement `if (*p == L'*') { p++; } else { while (...) p++; }`. -/
def wskipWidth : List Char → List Char
  | [] => []
  | c :: p => if c = '*' then p else wskipDigits (c :: p)

/-- Wide statement `if (*p == L'.') { p++; ... }`. -/
def wskipPrecision : List Char → List Char
  | [] => []
  | c :: p => if c = '.' then wskipWidth p else c :: p

/-- Wide loop over the length modifiers `h l j z t L`. -/
def wskipLength : List Char → List Char
  | [] => []
  | c :: p =>
    if c = 'h' ∨ c = 'l' ∨ c = 'j' ∨ c = 'z' ∨ c = 't' ∨ c = 'L' then wskipLength p
    else c :: p

/-- The `for` loop of `uprintf_has_percent_n_wide`, with iteration fuel. -/
def scanWide : Nat → List Char → Int
  | 0, _ => 0
  | _ + 1, [] => 0
  | fuel + 1, c :: p =>
    if c = NUL then 0
    else if c = '%' then
      if peek p = '%' then scanWide fuel p.tail
      else
        let q := wskipLength (wskipPrecision (wskipWidth (wskipFlags p)))
        if peek q = 'n' then 1
        else if peek q = NUL then 0
        else scanWide fuel q.tail
    else scanWide fuel p

/-- Function `uprintf_has_percent_n_wide`; the list holds `wchar_t` units. -/
def uprintf_has_percent_n_wide : Option (List Char) → Int
  | none => 0
  | some fmt => scanWide fmt.length fmt

/-! ## The directive grammar the scanner skips -/

/-- Flag characters, the set `"-+ 0#"`. -/
abbrev isFlag (c : Char) : Prop := c = '-' ∨ c = '+' ∨ c = ' ' ∨ c = '0' ∨ c = '#'

/-- Decimal digits. -/
abbrev isDigit (c : Char) : Prop := '0' ≤ c ∧ c ≤ '9'

/-- Length modifiers, the set `"hljztL"`. -/
abbrev isLen (c : Char) : Prop :=
  c = 'h' ∨ c = 'l' ∨ c = 'j' ∨ c = 'z' ∨ c = 't' ∨ c = 'L'

/-- Characters a modifier run may consist of: flags, digits, `*`, `.`, length modifiers. -/
abbrev isModChar (c : Char) : Prop :=
  isFlag c ∨ isDigit c ∨ c = '*' ∨ c = '.' ∨ isLen c

/-- A width field: the single marker `*`, or a possibly empty run of digits. -/
def IsWidth (w : List Char) : Prop := w = ['*'] ∨ ∀ c ∈ w, isDigit c

/-- An optional precision field: nothing, or `.` followed by a width field. -/
def IsPrecision (pr : List Char) : Prop := pr = [] ∨ ∃ w, IsWidth w ∧ pr = '.' :: w

/-- A modifier run: flags, then a width, then an optional precision, then
length modifiers. -/
def IsMods (m : List Char) : Prop :=
  ∃ fl w pr ln, (∀ c ∈ fl, isFlag c) ∧ IsWidth w ∧ IsPrecision pr ∧
    (∀ c ∈ ln, isLen c) ∧ m = fl ++ w ++ pr ++ ln

/-- A well-formed literal prefix: no directive introducer and no terminator. -/
def IsLiteral (pre : List Char) : Prop := ∀ c ∈ pre, c ≠ '%' ∧ c ≠ NUL

/-- A character at which all four skipping steps stop. -/
abbrev Terminal (c : Char) : Prop := ¬ isModChar c

/-! ## Buffers, arguments and the host's formatting primitives -/

/-- A destination buffer: the character stored in each cell, indexed from the
pointer the caller passes. -/
abbrev Buf := Nat → Char

/-- Assignment `buf[i] = c`. -/
def Buf.set (b : Buf) (i : Nat) (c : Char) : Buf := fun j => if j = i then c else b j

/-- The first `k` cells of a buffer. -/
def Buf.read (b : Buf) (k : Nat) : List Char := (List.range k).map b

/-- One variadic argument. -/
inductive Arg where
  | int (v : Int)
  | str (s : List Char)
  | ptr (p : Option Nat)

/-- The variadic argument pack handed to the host primitive. -/
abbrev va_list := List Arg

/-- A `FILE *` stream handle. -/
abbrev FILE := Nat

/-- Build configuration: the preprocessor switches the entry points test, and
the two constants `UPRINTF_STACK_BUF_MAX` and `sizeof(wchar_t)`. -/
structure Config where
  UPRINTF_ENABLE_N : Bool
  UPRINTF_MSVC : Bool
  UPRINTF_STACK_BUF_MAX : Nat
  sizeof_wchar_t : Nat

/-- The host's formatting primitives.  A stream primitive maps the host's
output state `σ` to a new state and a return value; a buffer primitive maps
the destination buffer to its new contents and a return value. -/
structure Host (σ : Type) where
  vprintf : List Char → va_list → σ → σ × Int
  vfprintf : FILE → List Char → va_list → σ → σ × Int
  vsnprintf : Buf → Nat → List Char → va_list → Buf × Int
  vsprintf : Buf → List Char → va_list → Buf × Int
  _vsnprintf : Buf → Nat → List Char → va_list → Buf × Int
  vwprintf : List Char → va_list → σ → σ × Int
  vfwprintf : FILE → List Char → va_list → σ → σ × Int
  vswprintf : Buf → Nat → List Char → va_list → Buf × Int
  _vsnwprintf : Buf → Nat → List Char → va_list → Buf × Int

/-- Outcome of a stream entry point: the returned `int`, the host's output
state, and how many times a host primitive was invoked. -/
structure IoResult (σ : Type) where
  ret : Int
  world : σ
  hostCalls : Nat

/-- Outcome of a buffer entry point: the returned `int`, the destination
buffer after the call (`none` for a null pointer), and how many times a host
primitive was invoked. -/
structure BufResult where
  ret : Int
  buf : Option Buf
  hostCalls : Nat

/-- Conversion `(int)x` of a `size_t` value: reduction to 32-bit two's complement. -/
def int_of_size (x : Nat) : Int := Int.bmod (x : Int) (2 ^ 32)

/-- The test `if (uprintf_has_percent_n_narrow(fmt)) return -1;`, compiled only
when `UPRINTF_ENABLE_N` is not defined. -/
def rejects_narrow (cfg : Config) (fmt : List Char) : Bool :=
  !cfg.UPRINTF_ENABLE_N && decide (uprintf_has_percent_n_narrow (some fmt) ≠ 0)

/-- The test `if (uprintf_has_percent_n_wide(fmt)) return -1;`, compiled only
when `UPRINTF_ENABLE_N` is not defined. -/
def rejects_wide (cfg : Config) (fmt : List Char) : Bool :=
  !cfg.UPRINTF_ENABLE_N && decide (uprintf_has_percent_n_wide (some fmt) ≠ 0)

/-! ## MSVC wrappers (`uprintf.h`, lines 124-142) -/

/-- Function `uprintf_safe_vsnprintf`.  In `(size_t)ret >= n` the cast is
evaluated only for `ret >= 0`, where it is the identity. -/
def uprintf_safe_vsnprintf {σ : Type} (H : Host σ) (buf : Option Buf) (n : Nat)
    (fmt : List Char) (ap : va_list) : BufResult :=
  match buf with
  | none => ⟨-1, none, 0⟩
  | some b =>
    if n = 0 then ⟨-1, some b, 0⟩
    else
      let r := H._vsnprintf b n fmt ap
      let b1 := r.1.set (n - 1) NUL
      let ret := if r.2 < 0 ∨ (n : Int) ≤ r.2 then int_of_size (n - 1) else r.2
      ⟨ret, some b1, 1⟩

/-- Function `uprintf_safe_vsnwprintf`. -/
def uprintf_safe_vsnwprintf {σ : Type} (H : Host σ) (buf : Option Buf) (n : Nat)
    (fmt : List Char) (ap : va_list) : BufResult :=
  match buf with
  | none => ⟨-1, none, 0⟩
  | some b =>
    if n = 0 then ⟨-1, some b, 0⟩
    else
      let r := H._vsnwprintf b n fmt ap
      let b1 := r.1.set (n - 1) NUL
      let ret := if r.2 < 0 ∨ (n : Int) ≤ r.2 then int_of_size (n - 1) else r.2
      ⟨ret, some b1, 1⟩

/-! ## Core narrow functions (`uprintf.h`, lines 156-237) -/

/-- Function `uprintf_narrow`. -/
def uprintf_narrow {σ : Type} (cfg : Config) (H : Host σ) (fmt : Option (List Char))
    (ap : va_list) (w : σ) : IoResult σ :=
  match fmt with
  | none => ⟨-1, w, 0⟩
  | some f =>
    if rejects_narrow cfg f then ⟨-1, w, 0⟩
    else
      let r := H.vprintf f ap w
      ⟨r.2, r.1, 1⟩

/-- Function `ufprintf_narrow`. -/
def ufprintf_narrow {σ : Type} (cfg : Config) (H : Host σ) (stream : Option FILE)
    (fmt : Option (List Char)) (ap : va_list) (w : σ) : IoResult σ :=
  match fmt, stream with
  | none, _ => ⟨-1, w, 0⟩
  | some _, none => ⟨-1, w, 0⟩
  | some f, some st =>
    if rejects_narrow cfg f then ⟨-1, w, 0⟩
    else
      let r := H.vfprintf st f ap w
      ⟨r.2, r.1, 1⟩

/-- Function `usnprintf_narrow`. -/
def usnprintf_narrow {σ : Type} (cfg : Config) (H : Host σ) (buf : Option Buf) (n : Nat)
    (fmt : Option (List Char)) (ap : va_list) : BufResult :=
  match fmt with
  | none => ⟨-1, buf, 0⟩
  | some f =>
    match buf with
    | none => ⟨-1, none, 0⟩
    | some b =>
      if n = 0 then ⟨-1, some b, 0⟩
      else if rejects_narrow cfg f then ⟨-1, some b, 0⟩
      else
        let r : BufResult :=
          if cfg.UPRINTF_MSVC then uprintf_safe_vsnprintf H (some b) n f ap
          else ⟨(H.vsnprintf b n f ap).2, some (H.vsnprintf b n f ap).1, 1⟩
        -- Guarantee null-termination: `if (n > 0) buf[n - 1] = '\0';`
        let b2 := if 0 < n then r.buf.map (fun x => x.set (n - 1) NUL) else r.buf
        ⟨r.ret, b2, r.hostCalls⟩

/-- Function `usprintf_narrow`. -/
def usprintf_narrow {σ : Type} (cfg : Config) (H : Host σ) (buf : Option Buf)
    (fmt : Option (List Char)) (ap : va_list) : BufResult :=
  match fmt, buf with
  | none, _ => ⟨-1, buf, 0⟩
  | some _, none => ⟨-1, none, 0⟩
  | some f, some b =>
    if rejects_narrow cfg f then ⟨-1, some b, 0⟩
    else
      let r := H.vsprintf b f ap
      ⟨r.2, some r.1, 1⟩

/-! ## Core wide functions (`uprintf.h`, lines 243-310) -/

/-- Function `uprintf_wide`. -/
def uprintf_wide {σ : Type} (cfg : Config) (H : Host σ) (fmt : Option (List Char))
    (ap : va_list) (w : σ) : IoResult σ :=
  match fmt with
  | none => ⟨-1, w, 0⟩
  | some f =>
    if rejects_wide cfg f then ⟨-1, w, 0⟩
    else
      let r := H.vwprintf f ap w
      ⟨r.2, r.1, 1⟩

/-- Function `ufprintf_wide`. -/
def ufprintf_wide {σ : Type} (cfg : Config) (H : Host σ) (stream : Option FILE)
    (fmt : Option (List Char)) (ap : va_list) (w : σ) : IoResult σ :=
  match fmt, stream with
  | none, _ => ⟨-1, w, 0⟩
  | some _, none => ⟨-1, w, 0⟩
  | some f, some st =>
    if rejects_wide cfg f then ⟨-1, w, 0⟩
    else
      let r := H.vfwprintf st f ap w
      ⟨r.2, r.1, 1⟩

/-- Function `usnprintf_wide`. -/
def usnprintf_wide {σ : Type} (cfg : Config) (H : Host σ) (buf : Option Buf) (n : Nat)
    (fmt : Option (List Char)) (ap : va_list) : BufResult :=
  match fmt with
  | none => ⟨-1, buf, 0⟩
  | some f =>
    match buf with
    | none => ⟨-1, none, 0⟩
    | some b =>
      if n = 0 then ⟨-1, some b, 0⟩
      else if rejects_wide cfg f then ⟨-1, some b, 0⟩
      else
        let r : BufResult :=
          if cfg.UPRINTF_MSVC then uprintf_safe_vsnwprintf H (some b) n f ap
          else ⟨(H.vswprintf b n f ap).2, some (H.vswprintf b n f ap).1, 1⟩
        let b2 := if 0 < n then r.buf.map (fun x => x.set (n - 1) NUL) else r.buf
        ⟨r.ret, b2, r.hostCalls⟩

/-- Function `usprintf_wide`; the bound handed to the host is
`UPRINTF_STACK_BUF_MAX / sizeof(wchar_t)`. -/
def usprintf_wide {σ : Type} (cfg : Config) (H : Host σ) (buf : Option Buf)
    (fmt : Option (List Char)) (ap : va_list) : BufResult :=
  match fmt, buf with
  | none, _ => ⟨-1, buf, 0⟩
  | some _, none => ⟨-1, none, 0⟩
  | some f, some b =>
    if rejects_wide cfg f then ⟨-1, some b, 0⟩
    else if cfg.UPRINTF_MSVC then
      uprintf_safe_vsnwprintf H (some b) (cfg.UPRINTF_STACK_BUF_MAX / cfg.sizeof_wchar_t) f ap
    else
      let r := H.vswprintf b (cfg.UPRINTF_STACK_BUF_MAX / cfg.sizeof_wchar_t) f ap
      ⟨r.2, some r.1, 1⟩

/-! ## A C99 host

The library delegates all value formatting to the C library.  The following
is a model of the C99 behaviour of that primitive, restricted to literal text
and the directives `%%`, `%d` and `%s`; the emitter of `uprintf_color.h` and
the concrete examples use it. -/

/-- Rendering of `%d`: an optional sign and the decimal digits, most
significant first, without leading zeros. -/
def render_d (v : Int) : List Char :=
  if v < 0 then '-' :: Nat.toDigits 10 v.natAbs else Nat.toDigits 10 v.toNat

/-- Rendering of `%s`: the characters of the argument up to its terminator. -/
def render_s : List Char → List Char
  | [] => []
  | c :: s => if c = NUL then [] else c :: render_s s

/-- Directive step of `render`: the conversion character `d` with the pending arguments. -/
def renderConv (d : Char) (ap : va_list) : List Char × va_list :=
  if d = '%' then (['%'], ap)
  else match ap with
    | Arg.int v :: ap2 => if d = 'd' then (render_d v, ap2) else ([], ap2)
    | Arg.str s :: ap2 => if d = 's' then (render_s s, ap2) else ([], ap2)
    | _ :: ap2 => ([], ap2)
    | [] => ([], [])

/-- The full rendering of a format string with its arguments. -/
def render : List Char → va_list → List Char
  | [], _ => []
  | [c], _ => if c = NUL then [] else [c]
  | c :: d :: p, ap =>
    if c = NUL then []
    else if c = '%' then (renderConv d ap).1 ++ render p (renderConv d ap).2
    else c :: render (d :: p) ap

/-- The C99 storing convention of `vsnprintf`: with capacity `n > 0` the first
`min(len, n-1)` characters of the rendering are stored, followed by the
terminator; the return value is `len`. -/
def c99_store (b : Buf) (n : Nat) (out : List Char) : Buf × Int :=
  if n = 0 then (b, (out.length : Int))
  else
    (fun i =>
      if i < min out.length (n - 1) then out.getD i NUL
      else if i = min out.length (n - 1) then NUL
      else b i,
     (out.length : Int))

/-- C99 `vsnprintf` (and `snprintf`, which is `vsnprintf` on its own arguments). -/
def c99_vsnprintf (b : Buf) (n : Nat) (fmt : List Char) (ap : va_list) : Buf × Int :=
  c99_store b n (render fmt ap)

/-- C99 `vswprintf`: a negative value is returned when `n` or more units were
requested. -/
def c99_vswprintf (b : Buf) (n : Nat) (fmt : List Char) (ap : va_list) : Buf × Int :=
  ((c99_store b n (render fmt ap)).1,
    if (render fmt ap).length < n then ((render fmt ap).length : Int) else -1)

/-- The unbounded store of `vsprintf`: the whole rendering and a terminator. -/
def c99_vsprintf (b : Buf) (fmt : List Char) (ap : va_list) : Buf × Int :=
  c99_store b ((render fmt ap).length + 1) (render fmt ap)

/-- The storing convention of MSVC's `_vsnprintf`: at most `n` characters are
stored, the terminator only if it fits, and a negative value is returned when
the rendering is longer than `n`. -/
def msvc_vsnprintf (b : Buf) (n : Nat) (fmt : List Char) (ap : va_list) : Buf × Int :=
  (fun i =>
      if i < min (render fmt ap).length n then (render fmt ap).getD i NUL
      else if i = (render fmt ap).length ∧ i < n then NUL
      else b i,
   if (render fmt ap).length ≤ n then ((render fmt ap).length : Int) else -1)

/-- Output state of the reference host: the text written to each stream so far. -/
abbrev Streams := FILE → List Char

/-- The stream `stdout`. -/
def stdout : FILE := 1

/-- Appending text to one stream. -/
def Streams.write (w : Streams) (st : FILE) (out : List Char) : Streams × Int :=
  (fun s => if s = st then w s ++ out else w s, (out.length : Int))

/-- A host whose primitives follow the conventions above. -/
def refHost : Host Streams where
  vprintf := fun fmt ap w => w.write stdout (render fmt ap)
  vfprintf := fun st fmt ap w => w.write st (render fmt ap)
  vsnprintf := c99_vsnprintf
  vsprintf := c99_vsprintf
  _vsnprintf := msvc_vsnprintf
  vwprintf := fun fmt ap w => w.write stdout (render fmt ap)
  vfwprintf := fun st fmt ap w => w.write st (render fmt ap)
  vswprintf := c99_vswprintf
  _vsnwprintf := msvc_vsnprintf

/-- A non-MSVC build without `UPRINTF_ENABLE_N`: the default configuration. -/
def defaultConfig : Config where
  UPRINTF_ENABLE_N := false
  UPRINTF_MSVC := false
  UPRINTF_STACK_BUF_MAX := 4096
  sizeof_wchar_t := 4

/-- A buffer filled with the character `X`, as after `memset(buf, 'X', ...)`. -/
def xBuf : Buf := fun _ => 'X'

/-! ## RGB emitter (`uprintf_color.h`, lines 40, 95-119) -/

/-- Constant `UC_SEQ_MAX`. -/
def UC_SEQ_MAX : Nat := 28

/-- Function `uc__clamp`. -/
def uc__clamp (v : Int) : Int :=
  if v < 0 then 0
  else if v > 255 then 255
  else v

/-- Function `uc_fg_rgb`: `snprintf(buf, UC_SEQ_MAX, "\033[38;2;%d;%d;%dm", ...)`. -/
def uc_fg_rgb (buf : Buf) (r g b : Int) : Buf :=
  (c99_vsnprintf buf UC_SEQ_MAX (ESC :: "[38;2;%d;%d;%dm".toList)
    [Arg.int (uc__clamp r), Arg.int (uc__clamp g), Arg.int (uc__clamp b)]).1

/-- Function `uc_bg_rgb`: `snprintf(buf, UC_SEQ_MAX, "\033[48;2;%d;%d;%dm", ...)`. -/
def uc_bg_rgb (buf : Buf) (r g b : Int) : Buf :=
  (c99_vsnprintf buf UC_SEQ_MAX (ESC :: "[48;2;%d;%d;%dm".toList)
    [Arg.int (uc__clamp r), Arg.int (uc__clamp g), Arg.int (uc__clamp b)]).1

/-- The decimal rendering of a channel value, without leading zeros. -/
def dec (v : Int) : List Char := (toString v.toNat).toList

/-- The text `ESC [ <sel> ; 2 ; R ; G ; B m` for already clamped channels. -/
def escSeq (sel : String) (r g b : Int) : List Char :=
  [ESC] ++ "[".toList ++ sel.toList ++ ";2;".toList ++ dec r ++ ";".toList ++ dec g ++
    ";".toList ++ dec b ++ "m".toList

/-- The C string held by a buffer of capacity `cap`: the cells before the
first terminator. -/
def Buf.cstr (b : Buf) (cap : Nat) : List Char :=
  (b.read cap).takeWhile (fun c => decide (c ≠ NUL))

/-! ## Wide RGB emitter (`uprintf_color.h`, lines 125-133) -/

/-- Function `uc_wfg_rgb`: `swprintf(buf, UC_SEQ_MAX, L"\033[38;2;%d;%d;%dm", ...)`.
The units of the wide format literal are the characters of the narrow one. -/
def uc_wfg_rgb (buf : Buf) (r g b : Int) : Buf :=
  (c99_vswprintf buf UC_SEQ_MAX (ESC :: "[38;2;%d;%d;%dm".toList)
    [Arg.int (uc__clamp r), Arg.int (uc__clamp g), Arg.int (uc__clamp b)]).1

/-- Function `uc_wbg_rgb`: `swprintf(buf, UC_SEQ_MAX, L"\033[48;2;%d;%d;%dm", ...)`. -/
def uc_wbg_rgb (buf : Buf) (r g b : Int) : Buf :=
  (c99_vswprintf buf UC_SEQ_MAX (ESC :: "[48;2;%d;%d;%dm".toList)
    [Arg.int (uc__clamp r), Arg.int (uc__clamp g), Arg.int (uc__clamp b)]).1

/-- Conversion of a `char` unit to the `wchar_t` unit of the same value. -/
def widen (c : Char) : Char := Char.ofNat c.toNat

/-! ## Hex colours (`uprintf_color.h`, lines 139-160) -/

/-- Function `uc__hex_digit`. -/
def uc__hex_digit (c : Char) : Int :=
  if '0' ≤ c ∧ c ≤ '9' then (c.toNat : Int) - ('0'.toNat : Int)
  else if 'a' ≤ c ∧ c ≤ 'f' then 10 + (c.toNat : Int) - ('a'.toNat : Int)
  else if 'A' ≤ c ∧ c ≤ 'F' then 10 + (c.toNat : Int) - ('A'.toNat : Int)
  else 0

/-- Library function `strlen`: the number of characters before the terminator. -/
def strlen : List Char → Nat
  | [] => 0
  | c :: s => if c = NUL then 0 else strlen s + 1

/-- Function `uc__parse_hex`; the three out-parameters are returned as a triple.
`p[i]` is read only after `strlen(p) >= 6` has been established. -/
def uc__parse_hex (hex : Option (List Char)) : Int × Int × Int :=
  match hex with
  | none => (0, 0, 0)
  | some s =>
    let p := if peek s = '#' then s.tail else s
    if strlen p < 6 then (0, 0, 0)
    else
      (uc__hex_digit (p.getD 0 NUL) * 16 + uc__hex_digit (p.getD 1 NUL),
       uc__hex_digit (p.getD 2 NUL) * 16 + uc__hex_digit (p.getD 3 NUL),
       uc__hex_digit (p.getD 4 NUL) * 16 + uc__hex_digit (p.getD 5 NUL))

/-- Function `uc_fg_hex`. -/
def uc_fg_hex (buf : Buf) (hex : Option (List Char)) : Buf :=
  uc_fg_rgb buf (uc__parse_hex hex).1 (uc__parse_hex hex).2.1 (uc__parse_hex hex).2.2

/-- Function `uc_bg_hex`. -/
def uc_bg_hex (buf : Buf) (hex : Option (List Char)) : Buf :=
  uc_bg_rgb buf (uc__parse_hex hex).1 (uc__parse_hex hex).2.1 (uc__parse_hex hex).2.2

/-! ## CSS named colours (`uprintf_color.h`, lines 301-495)

Characters of a narrow string are bytes, with codes below 256.  Whether plain
`char` is signed is a property of the platform; the comparator takes it as the
parameter `sc`. -/

/-- The `int` value of a plain `char`: bytes from 128 on are negative where
`char` is signed. -/
def charVal (sc : Bool) (c : Char) : Int :=
  if sc ∧ 128 ≤ c.toNat ∧ c.toNat < 256 then (c.toNat : Int) - 256 else (c.toNat : Int)

/-- The `int` value of `(unsigned char)c`. -/
def ucharVal (c : Char) : Int := (c.toNat : Int)

/-- Statement `if (ca >= 'A' && ca <= 'Z') ca = (char)(ca + 32);`. -/
def foldChar (c : Char) : Char :=
  if 'A' ≤ c ∧ c ≤ 'Z' then Char.ofNat (c.toNat + 32) else c

/-- Function `uc__strcasecmp`. -/
def uc__strcasecmp (sc : Bool) : List Char → List Char → Int
  | ca :: a, cb :: b =>
    if ca ≠ NUL ∧ cb ≠ NUL then
      if foldChar ca ≠ foldChar cb then charVal sc (foldChar ca) - charVal sc (foldChar cb)
      else uc__strcasecmp sc a b
    else ucharVal ca - ucharVal cb
  | a, b => ucharVal (peek a) - ucharVal (peek b)

/-- Type `uc__css_color`. -/
structure uc__css_color where
  name : List Char
  r : Int
  g : Int
  b : Int

/-- Table `uc__css_colors`. -/
def uc__css_colors : List uc__css_color := [
  uc__css_color.mk "aliceblue".toList 240 248 255,
  uc__css_color.mk "antiquewhite".toList 250 235 215,
  uc__css_color.mk "aqua".toList 0 255 255,
  uc__css_color.mk "aquamarine".toList 127 255 212,
  uc__css_color.mk "azure".toList 240 255 255,
  uc__css_color.mk "beige".toList 245 245 220,
  uc__css_color.mk "bisque".toList 255 228 196,
  uc__css_color.mk "black".toList 0 0 0,
  uc__css_color.mk "blanchedalmond".toList 255 235 205,
  uc__css_color.mk "blue".toList 0 0 255,
  uc__css_color.mk "blueviolet".toList 138 43 226,
  uc__css_color.mk "brown".toList 165 42 42,
  uc__css_color.mk "burlywood".toList 222 184 135,
  uc__css_color.mk "cadetblue".toList 95 158 160,
  uc__css_color.mk "chartreuse".toList 127 255 0,
  uc__css_color.mk "chocolate".toList 210 105 30,
  uc__css_color.mk "coral".toList 255 127 80,
  uc__css_color.mk "cornflowerblue".toList 100 149 237,
  uc__css_color.mk "cornsilk".toList 255 248 220,
  uc__css_color.mk "crimson".toList 220 20 60,
  uc__css_color.mk "cyan".toList 0 255 255,
  uc__css_color.mk "darkblue".toList 0 0 139,
  uc__css_color.mk "darkcyan".toList 0 139 139,
  uc__css_color.mk "darkgoldenrod".toList 184 134 11,
  uc__css_color.mk "darkgray".toList 169 169 169,
  uc__css_color.mk "darkgreen".toList 0 100 0,
  uc__css_color.mk "darkgrey".toList 169 169 169,
  uc__css_color.mk "darkkhaki".toList 189 183 107,
  uc__css_color.mk "darkmagenta".toList 139 0 139,
  uc__css_color.mk "darkolivegreen".toList 85 107 47,
  uc__css_color.mk "darkorange".toList 255 140 0,
  uc__css_color.mk "darkorchid".toList 153 50 204,
  uc__css_color.mk "darkred".toList 139 0 0,
  uc__css_color.mk "darksalmon".toList 233 150 122,
  uc__css_color.mk "darkseagreen".toList 143 188 143,
  uc__css_color.mk "darkslateblue".toList 72 61 139,
  uc__css_color.mk "darkslategray".toList 47 79 79,
  uc__css_color.mk "darkslategrey".toList 47 79 79,
  uc__css_color.mk "darkturquoise".toList 0 206 209,
  uc__css_color.mk "darkviolet".toList 148 0 211,
  uc__css_color.mk "deeppink".toList 255 20 147,
  uc__css_color.mk "deepskyblue".toList 0 191 255,
  uc__css_color.mk "dimgray".toList 105 105 105,
  uc__css_color.mk "dimgrey".toList 105 105 105,
  uc__css_color.mk "dodgerblue".toList 30 144 255,
  uc__css_color.mk "firebrick".toList 178 34 34,
  uc__css_color.mk "floralwhite".toList 255 250 240,
  uc__css_color.mk "forestgreen".toList 34 139 34,
  uc__css_color.mk "fuchsia".toList 255 0 255,
  uc__css_color.mk "gainsboro".toList 220 220 220,
  uc__css_color.mk "ghostwhite".toList 248 248 255,
  uc__css_color.mk "gold".toList 255 215 0,
  uc__css_color.mk "goldenrod".toList 218 165 32,
  uc__css_color.mk "gray".toList 128 128 128,
  uc__css_color.mk "green".toList 0 128 0,
  uc__css_color.mk "greenyellow".toList 173 255 47,
  uc__css_color.mk "grey".toList 128 128 128,
  uc__css_color.mk "honeydew".toList 240 255 240,
  uc__css_color.mk "hotpink".toList 255 105 180,
  uc__css_color.mk "indianred".toList 205 92 92,
  uc__css_color.mk "indigo".toList 75 0 130,
  uc__css_color.mk "ivory".toList 255 255 240,
  uc__css_color.mk "khaki".toList 240 230 140,
  uc__css_color.mk "lavender".toList 230 230 250,
  uc__css_color.mk "lavenderblush".toList 255 240 245,
  uc__css_color.mk "lawngreen".toList 124 252 0,
  uc__css_color.mk "lemonchiffon".toList 255 250 205,
  uc__css_color.mk "lightblue".toList 173 216 230,
  uc__css_color.mk "lightcoral".toList 240 128 128,
  uc__css_color.mk "lightcyan".toList 224 255 255,
  uc__css_color.mk "lightgoldenrodyellow".toList 250 250 210,
  uc__css_color.mk "lightgray".toList 211 211 211,
  uc__css_color.mk "lightgreen".toList 144 238 144,
  uc__css_color.mk "lightgrey".toList 211 211 211,
  uc__css_color.mk "lightpink".toList 255 182 193,
  uc__css_color.mk "lightsalmon".toList 255 160 122,
  uc__css_color.mk "lightseagreen".toList 32 178 170,
  uc__css_color.mk "lightskyblue".toList 135 206 250,
  uc__css_color.mk "lightslategray".toList 119 136 153,
  uc__css_color.mk "lightslategrey".toList 119 136 153,
  uc__css_color.mk "lightsteelblue".toList 176 196 222,
  uc__css_color.mk "lightyellow".toList 255 255 224,
  uc__css_color.mk "lime".toList 0 255 0,
  uc__css_color.mk "limegreen".toList 50 205 50,
  uc__css_color.mk "linen".toList 250 240 230,
  uc__css_color.mk "magenta".toList 255 0 255,
  uc__css_color.mk "maroon".toList 128 0 0,
  uc__css_color.mk "mediumaquamarine".toList 102 205 170,
  uc__css_color.mk "mediumblue".toList 0 0 205,
  uc__css_color.mk "mediumorchid".toList 186 85 211,
  uc__css_color.mk "mediumpurple".toList 147 112 219,
  uc__css_color.mk "mediumseagreen".toList 60 179 113,
  uc__css_color.mk "mediumslateblue".toList 123 104 238,
  uc__css_color.mk "mediumspringgreen".toList 0 250 154,
  uc__css_color.mk "mediumturquoise".toList 72 209 204,
  uc__css_color.mk "mediumvioletred".toList 199 21 133,
  uc__css_color.mk "midnightblue".toList 25 25 112,
  uc__css_color.mk "mintcream".toList 245 255 250,
  uc__css_color.mk "mistyrose".toList 255 228 225,
  uc__css_color.mk "moccasin".toList 255 228 181,
  uc__css_color.mk "navajowhite".toList 255 222 173,
  uc__css_color.mk "navy".toList 0 0 128,
  uc__css_color.mk "oldlace".toList 253 245 230,
  uc__css_color.mk "olive".toList 128 128 0,
  uc__css_color.mk "olivedrab".toList 107 142 35,
  uc__css_color.mk "orange".toList 255 165 0,
  uc__css_color.mk "orangered".toList 255 69 0,
  uc__css_color.mk "orchid".toList 218 112 214,
  uc__css_color.mk "palegoldenrod".toList 238 232 170,
  uc__css_color.mk "palegreen".toList 152 251 152,
  uc__css_color.mk "paleturquoise".toList 175 238 238,
  uc__css_color.mk "palevioletred".toList 219 112 147,
  uc__css_color.mk "papayawhip".toList 255 239 213,
  uc__css_color.mk "peachpuff".toList 255 218 185,
  uc__css_color.mk "peru".toList 205 133 63,
  uc__css_color.mk "pink".toList 255 192 203,
  uc__css_color.mk "plum".toList 221 160 221,
  uc__css_color.mk "powderblue".toList 176 224 230,
  uc__css_color.mk "purple".toList 128 0 128,
  uc__css_color.mk "rebeccapurple".toList 102 51 153,
  uc__css_color.mk "red".toList 255 0 0,
  uc__css_color.mk "rosybrown".toList 188 143 143,
  uc__css_color.mk "royalblue".toList 65 105 225,
  uc__css_color.mk "saddlebrown".toList 139 69 19,
  uc__css_color.mk "salmon".toList 250 128 114,
  uc__css_color.mk "sandybrown".toList 244 164 96,
  uc__css_color.mk "seagreen".toList 46 139 87,
  uc__css_color.mk "seashell".toList 255 245 238,
  uc__css_color.mk "sienna".toList 160 82 45,
  uc__css_color.mk "silver".toList 192 192 192,
  uc__css_color.mk "skyblue".toList 135 206 235,
  uc__css_color.mk "slateblue".toList 106 90 205,
  uc__css_color.mk "slategray".toList 112 128 144,
  uc__css_color.mk "slategrey".toList 112 128 144,
  uc__css_color.mk "snow".toList 255 250 250,
  uc__css_color.mk "springgreen".toList 0 255 127,
  uc__css_color.mk "steelblue".toList 70 130 180,
  uc__css_color.mk "tan".toList 210 180 140,
  uc__css_color.mk "teal".toList 0 128 128,
  uc__css_color.mk "thistle".toList 216 191 216,
  uc__css_color.mk "tomato".toList 255 99 71,
  uc__css_color.mk "turquoise".toList 64 224 208,
  uc__css_color.mk "violet".toList 238 130 238,
  uc__css_color.mk "wheat".toList 245 222 179,
  uc__css_color.mk "white".toList 255 255 255,
  uc__css_color.mk "whitesmoke".toList 245 245 245,
  uc__css_color.mk "yellow".toList 255 255 0,
  uc__css_color.mk "yellowgreen".toList 154 205 50
]

/-- Constant `UC__CSS_COLOR_COUNT`: `sizeof(uc__css_colors) / sizeof(uc__css_colors[0])`. -/
def UC__CSS_COLOR_COUNT : Nat := uc__css_colors.length

/-- Element `uc__css_colors[i]`. -/
def css_entry (i : Int) : uc__css_color :=
  uc__css_colors.getD i.toNat ⟨[], 0, 0, 0⟩

/-- The `while (lo <= hi)` loop of `uc__css_lookup`; the result is the returned
`int` followed by `*r`, `*g`, `*b`.  Every iteration shrinks the interval, so
the fuel counts iterations and the width of the interval is always enough. -/
def css_search (sc : Bool) (name : List Char) : Nat → Int → Int → Int × Int × Int × Int
  | 0, _, _ => (-1, 0, 0, 0)
  | fuel + 1, lo, hi =>
    if lo ≤ hi then
      let mid := lo + (hi - lo) / 2
      let cmp := uc__strcasecmp sc name (css_entry mid).name
      if cmp = 0 then (0, (css_entry mid).r, (css_entry mid).g, (css_entry mid).b)
      else if cmp < 0 then css_search sc name fuel lo (mid - 1)
      else css_search sc name fuel (mid + 1) hi
    else (-1, 0, 0, 0)

/-- Function `uc__css_lookup` for a non-null `name` (the function dereferences
it without a test). -/
def uc__css_lookup (sc : Bool) (name : List Char) : Int × Int × Int × Int :=
  css_search sc name UC__CSS_COLOR_COUNT 0 ((UC__CSS_COLOR_COUNT : Int) - 1)

/-- Function `uc_fg_css` for a non-null `name`. -/
def uc_fg_css (sc : Bool) (buf : Buf) (name : List Char) : Buf :=
  uc_fg_rgb buf (uc__css_lookup sc name).2.1 (uc__css_lookup sc name).2.2.1
    (uc__css_lookup sc name).2.2.2

/-- Function `uc_bg_css` for a non-null `name`. -/
def uc_bg_css (sc : Bool) (buf : Buf) (name : List Char) : Buf :=
  uc_bg_rgb buf (uc__css_lookup sc name).2.1 (uc__css_lookup sc name).2.2.1
    (uc__css_lookup sc name).2.2.2

/-! ## Notions used by the statements on colours -/

/-- The hexadecimal digit of the value `d < 16`, in upper or lower case. -/
def hexChar (upper : Bool) (d : Nat) : Char :=
  (if upper then "0123456789ABCDEF".toList else "0123456789abcdef".toList).getD d '0'

/-- The six-digit hexadecimal rendering of `(r,g,b)`, two digits per channel;
`up i` chooses the case of digit `i` and `hash` a leading `#`. -/
def hexRender (up : Nat → Bool) (hash : Bool) (r g b : Nat) : List Char :=
  (if hash then ['#'] else []) ++
    [hexChar (up 0) (r / 16), hexChar (up 1) (r % 16),
     hexChar (up 2) (g / 16), hexChar (up 3) (g % 16),
     hexChar (up 4) (b / 16), hexChar (up 5) (b % 16)]

/-- A hexadecimal digit character. -/
abbrev isHexDigit (c : Char) : Prop :=
  ('0' ≤ c ∧ c ≤ '9') ∨ ('a' ≤ c ∧ c ≤ 'f') ∨ ('A' ≤ c ∧ c ≤ 'F')

/-- What `uc__parse_hex` looks at: the string behind the optional leading `#`. -/
def hexBody (s : List Char) : List Char := if peek s = '#' then s.tail else s

/-- The characters of a C string, up to its terminator. -/
def cstrOf (s : List Char) : List Char := s.takeWhile (fun c => decide (c ≠ NUL))

/-- ASCII case folding of a string: `A`-`Z` to `a`-`z`. -/
def asciiLower (s : List Char) : List Char := s.map Char.toLower

/-- The format literal of `uc_fg_rgb` and `uc_wfg_rgb`. -/
def fgFormat : List Char := ESC :: "[38;2;%d;%d;%dm".toList

/-- The format literal of `uc_bg_rgb` and `uc_wbg_rgb`. -/
def bgFormat : List Char := ESC :: "[48;2;%d;%d;%dm".toList

/-- The arguments the four RGB emitters pass to the host primitive. -/
def rgbArgs (r g b : Int) : va_list :=
  [Arg.int (uc__clamp r), Arg.int (uc__clamp g), Arg.int (uc__clamp b)]

/-! ## Colour space conversion (`uprintf_color.h`, lines 101-105, 184-271)

A `double` is modelled by an element of an ordered field with a floor
function (the rationals, of which every finite `double` is one, or the reals)
and the arithmetic operators are exact.  `fabs` and `fmod` are exact in the C
library and are defined here; `cos`, `sin` and `pow` are taken from the host's
math library as the record `Libm`.  Overflow and NaN are outside this model:
the inputs on which an intermediate leaves the finite range are treated in the
model `Dbl` further down. -/

/-- Conversion `(int)x` of a `double`: truncation toward zero. -/
def to_int {α : Type} [LinearOrderedField α] [FloorRing α] (x : α) : Int :=
  if 0 ≤ x then Int.floor x else Int.ceil x

/-- Library function `fabs`. -/
def fabs {α : Type} [LinearOrderedField α] (x : α) : α := if x < 0 then -x else x

/-- Library function `fmod`: `x - y * trunc(x / y)`, with the sign of `x`. -/
def fmod {α : Type} [LinearOrderedField α] [FloorRing α] (x y : α) : α :=
  x - y * ((to_int (x / y) : Int) : α)

/-- The functions of the host's math library whose results are not exact. -/
structure Libm (α : Type) where
  cos : α → α
  sin : α → α
  pow : α → α → α

/-- Function `uc__clampf`. -/
def uc__clampf {α : Type} [LinearOrderedField α] (v lo hi : α) : α :=
  if v < lo then lo
  else if v > hi then hi
  else v

/-- Hue normalisation of `uc__hsl_to_rgb`: `h = fmod(h, 360.0); if (h < 0.0) h += 360.0;`. -/
def hsl_hue {α : Type} [LinearOrderedField α] [FloorRing α] (h : α) : α :=
  if fmod h 360 < 0 then fmod h 360 + 360 else fmod h 360

/-- Local `c` of `uc__hsl_to_rgb`, from the clamped `s` and `l`. -/
def hsl_chroma {α : Type} [LinearOrderedField α] (s l : α) : α :=
  (1 - fabs (2 * uc__clampf l 0 1 - 1)) * uc__clampf s 0 1

/-- Local `x` of `uc__hsl_to_rgb`, from the normalised hue. -/
def hsl_second {α : Type} [LinearOrderedField α] [FloorRing α] (h s l : α) : α :=
  hsl_chroma s l * (1 - fabs (fmod (hsl_hue h / 60) 2 - 1))

/-- Local `m` of `uc__hsl_to_rgb`. -/
def hsl_match {α : Type} [LinearOrderedField α] (s l : α) : α :=
  uc__clampf l 0 1 - hsl_chroma s l / 2

/-- The sector chain `if (h < 60.0) ... else if (h < 120.0) ... else ...` of
`uc__hsl_to_rgb`, giving `(rf, gf, bf)`. -/
def hsl_primaries {α : Type} [LinearOrderedField α] (h c x : α) : α × α × α :=
  if h < 60 then (c, x, 0)
  else if h < 120 then (x, c, 0)
  else if h < 180 then (0, c, x)
  else if h < 240 then (0, x, c)
  else if h < 300 then (x, 0, c)
  else (c, 0, x)

/-- Function `uc__hsl_to_rgb`; the three out-parameters are returned as a triple. -/
def uc__hsl_to_rgb {α : Type} [LinearOrderedField α] [FloorRing α] (h s l : α) :
    Int × Int × Int :=
  let p := hsl_primaries (hsl_hue h) (hsl_chroma s l) (hsl_second h s l)
  (to_int ((p.1 + hsl_match s l) * 255 + 0.5),
   to_int ((p.2.1 + hsl_match s l) * 255 + 0.5),
   to_int ((p.2.2 + hsl_match s l) * 255 + 0.5))

/-- Constant `UC_PI`. -/
def UC_PI {α : Type} [LinearOrderedField α] : α := 3.14159265358979323846

/-- Function `uc__srgb_transfer`. -/
def uc__srgb_transfer {α : Type} [LinearOrderedField α] (M : Libm α) (c : α) : α :=
  if c ≤ 0.0031308 then 12.92 * c
  else 1.055 * M.pow c (1.0 / 2.4) - 0.055

/-- Locals `(lr, lg, lb)` of `uc__oklch_to_rgb`: OKLCH to OKLab, to LMS, cube,
to linear sRGB. -/
def oklch_linear {α : Type} [LinearOrderedField α] (M : Libm α) (L C H : α) : α × α × α :=
  let h_rad := H * UC_PI / 180.0
  let a := C * M.cos h_rad
  let ob := C * M.sin h_rad
  let l_ := L + 0.3963377774 * a + 0.2158037573 * ob
  let m_ := L - 0.1055613458 * a - 0.0638541728 * ob
  let s_ := L - 0.0894841775 * a - 1.2914855480 * ob
  let l3 := l_ * l_ * l_
  let m3 := m_ * m_ * m_
  let s3 := s_ * s_ * s_
  (4.0767416621 * l3 - 3.3077115913 * m3 + 0.2309699292 * s3,
   -1.2684380046 * l3 + 2.6097574011 * m3 - 0.3413193965 * s3,
   -0.0041960863 * l3 + 0.7341731176 * m3 + 0.2676544482 * s3)

/-- Gamma correction, clamp and scaling of one channel:
`(int)(uc__clampf(uc__srgb_transfer(v), 0.0, 1.0) * 255.0 + 0.5)`. -/
def oklch_channel {α : Type} [LinearOrderedField α] [FloorRing α] (M : Libm α) (v : α) : Int :=
  to_int (uc__clampf (uc__srgb_transfer M v) 0.0 1.0 * 255.0 + 0.5)

/-- Function `uc__oklch_to_rgb`; the three out-parameters are returned as a triple. -/
def uc__oklch_to_rgb {α : Type} [LinearOrderedField α] [FloorRing α] (M : Libm α)
    (L C H : α) : Int × Int × Int :=
  (oklch_channel M (oklch_linear M L C H).1,
   oklch_channel M (oklch_linear M L C H).2.1,
   oklch_channel M (oklch_linear M L C H).2.2)

/-- Accuracy of the host's `pow` at the base `x` and the exponent `1.0 / 2.4`
(which is `5/12`): the result is positive and its 12th power is within
`10^-6` of the 5th power of `x`. -/
def PowAccurate {α : Type} [LinearOrderedField α] (M : Libm α) (x : α) : Prop :=
  0 < M.pow x (1.0 / 2.4) ∧ |M.pow x (1.0 / 2.4) ^ 12 - x ^ 5| ≤ 1 / 1000000

/-- A stand-in math library over the rationals: `cos` and `sin` are right at
the angle 0, and `pow` is the second-order expansion of `x^y` at `x = 1`. -/
def refLibm : Libm ℚ where
  cos := fun _ => 1
  sin := fun _ => 0
  pow := fun x y => 1 + y * (x - 1) + y * (y - 1) / 2 * (x - 1) ^ 2

/-! ## Notions used by the statements on the comparator -/

/-- A string of ASCII bytes. -/
def IsAscii (s : List Char) : Prop := ∀ c ∈ s, c.toNat < 128

/-- Sign of the lexicographic comparison of two strings by character code, a
proper prefix ordering first. -/
def lexSign : List Char → List Char → Int
  | [], [] => 0
  | [], _ :: _ => -1
  | _ :: _, [] => 1
  | x :: xs, y :: ys =>
    if x.toNat < y.toNat then -1
    else if y.toNat < x.toNat then 1
    else lexSign xs ys

/-! ## The scanner with every pointer step checked against the terminator

The same statements as `uprintf_has_percent_n_narrow`, with each `p++`
replaced by a step that fails (`none`) when `p` already stands on the
terminator.  A result `some v` therefore says that the loop ended with value
`v` and that the scan position never moved past the terminator. -/

/-- The step `p++`, refused when `*p` is the terminator. -/
def advance : List Char → Option (List Char)
  | [] => none
  | c :: p => if c = NUL then none else some p

/-- Checked loop `while (*p == '-' || *p == '+' || *p == ' ' || *p == '0' || *p == '#') p++;`. -/
def skipFlagsC : List Char → Option (List Char)
  | [] => some []
  | c :: p =>
    if c = '-' ∨ c = '+' ∨ c = ' ' ∨ c = '0' ∨ c = '#' then
      (if c = NUL then none else skipFlagsC p)
    else some (c :: p)

/-- Checked loop `while (*p >= '0' && *p <= '9') p++;`. -/
def skipDigitsC : List Char → Option (List Char)
  | [] => some []
  | c :: p =>
    if '0' ≤ c ∧ c ≤ '9' then (if c = NUL then none else skipDigitsC p)
    else some (c :: p)

/-- Checked statement `if (*p == '*') { p++; } else { while (...) p++; }`. -/
def skipWidthC (p : List Char) : Option (List Char) :=
  if peek p = '*' then advance p else skipDigitsC p

/-- Checked statement `if (*p == '.') { p++; if (*p == '*') ... else ... }`. -/
def skipPrecisionC (p : List Char) : Option (List Char) :=
  if peek p = '.' then (advance p).bind skipWidthC else some p

/-- Checked loop over the length modifiers `h l j z t L`. -/
def skipLengthC : List Char → Option (List Char)
  | [] => some []
  | c :: p =>
    if c = 'h' ∨ c = 'l' ∨ c = 'j' ∨ c = 'z' ∨ c = 't' ∨ c = 'L' then
      (if c = NUL then none else skipLengthC p)
    else some (c :: p)

/-- The four checked skipping steps, in source order. -/
def skipDirectiveC (p : List Char) : Option (List Char) :=
  (((skipFlagsC p).bind skipWidthC).bind skipPrecisionC).bind skipLengthC

/-- The checked `for (p = fmt; *p; p++)` loop.  `none` is returned when a step
would move past the terminator, or when the iteration fuel runs out before the
loop condition fails. -/
def scanNarrowC : Nat → List Char → Option Int
  | 0, p => if peek p = NUL then some 0 else none
  | fuel + 1, p =>
    if peek p = NUL then some 0
    else if peek p = '%' then
      (advance p).bind fun p1 =>
        if peek p1 = '%' then (advance p1).bind (scanNarrowC fuel)
        else
          (skipDirectiveC p1).bind fun q =>
            if peek q = 'n' then some 1
            else if peek q = NUL then some 0
            else (advance q).bind (scanNarrowC fuel)
    else (advance p).bind (scanNarrowC fuel)

/-- Function `uprintf_has_percent_n_narrow` with checked pointer steps. -/
def uprintf_has_percent_n_narrow_checked : Option (List Char) → Option Int
  | none => some 0
  | some fmt => scanNarrowC fmt.length fmt

/-! ## The binary search with its comparisons counted, and on a nullable name -/

/-- The `while (lo <= hi)` loop of `uc__css_lookup` with the calls of
`uc__strcasecmp` counted: the result of the loop and the number of
comparisons made, or `none` when the fuel runs out before the loop ends. -/
def css_search_steps (sc : Bool) (name : List Char) :
    Nat → Int → Int → Option ((Int × Int × Int × Int) × Nat)
  | 0, lo, hi => if lo ≤ hi then none else some ((-1, 0, 0, 0), 0)
  | fuel + 1, lo, hi =>
    if lo ≤ hi then
      let mid := lo + (hi - lo) / 2
      let cmp := uc__strcasecmp sc name (css_entry mid).name
      if cmp = 0 then some ((0, (css_entry mid).r, (css_entry mid).g, (css_entry mid).b), 1)
      else if cmp < 0 then
        (css_search_steps sc name fuel lo (mid - 1)).map fun v => (v.1, v.2 + 1)
      else (css_search_steps sc name fuel (mid + 1) hi).map fun v => (v.1, v.2 + 1)
    else some ((-1, 0, 0, 0), 0)

/-- Function `uc__strcasecmp` on nullable pointers.  Both `*a` and `*b` are
read on every path (by the loop condition or by the final `return`), so a null
argument is a null dereference, rendered as `none`. -/
def uc__strcasecmp_ptr (sc : Bool) (a b : Option (List Char)) : Option Int :=
  match a, b with
  | some a, some b => some (uc__strcasecmp sc a b)
  | _, _ => none

/-- The `while (lo <= hi)` loop of `uc__css_lookup` on a nullable `name`;
`none` is a null dereference. -/
def css_search_ptr (sc : Bool) (name : Option (List Char)) :
    Nat → Int → Int → Option (Int × Int × Int × Int)
  | 0, _, _ => some (-1, 0, 0, 0)
  | fuel + 1, lo, hi =>
    if lo ≤ hi then
      let mid := lo + (hi - lo) / 2
      (uc__strcasecmp_ptr sc name (some (css_entry mid).name)).bind fun cmp =>
        if cmp = 0 then some (0, (css_entry mid).r, (css_entry mid).g, (css_entry mid).b)
        else if cmp < 0 then css_search_ptr sc name fuel lo (mid - 1)
        else css_search_ptr sc name fuel (mid + 1) hi
    else some (-1, 0, 0, 0)

/-- Function `uc__css_lookup` on a nullable `name`: the function has no test
of `name` before the loop. -/
def uc__css_lookup_ptr (sc : Bool) (name : Option (List Char)) :
    Option (Int × Int × Int × Int) :=
  css_search_ptr sc name UC__CSS_COLOR_COUNT 0 ((UC__CSS_COLOR_COUNT : Int) - 1)

/-- Function `uc_fg_css` on a nullable `name`. -/
def uc_fg_css_ptr (sc : Bool) (buf : Buf) (name : Option (List Char)) : Option Buf :=
  (uc__css_lookup_ptr sc name).map fun v => uc_fg_rgb buf v.2.1 v.2.2.1 v.2.2.2

/-- The alias pairs of the named-colour table with the colour of each pair:
`aqua`/`cyan`, `fuchsia`/`magenta` and the seven `gray`/`grey` spellings. -/
def css_aliases : List (List Char × List Char × Int × Int × Int) := [
  ("aqua".toList, "cyan".toList, 0, 255, 255),
  ("fuchsia".toList, "magenta".toList, 255, 0, 255),
  ("darkgray".toList, "darkgrey".toList, 169, 169, 169),
  ("darkslategray".toList, "darkslategrey".toList, 47, 79, 79),
  ("dimgray".toList, "dimgrey".toList, 105, 105, 105),
  ("gray".toList, "grey".toList, 128, 128, 128),
  ("lightgray".toList, "lightgrey".toList, 211, 211, 211),
  ("lightslategray".toList, "lightslategrey".toList, 119, 136, 153),
  ("slategray".toList, "slategrey".toList, 112, 128, 144)]

/-! ## Notions used by the statements on the escape sequence and the MSVC wrapper -/

/-- Reading of a decimal field: the value of the leading run of digits, on top
of `acc`, and the rest of the string. -/
def takeNum : Nat → List Char → Nat × List Char
  | acc, [] => (acc, [])
  | acc, c :: s =>
    if '0' ≤ c ∧ c ≤ '9' then takeNum (acc * 10 + (c.toNat - '0'.toNat)) s
    else (acc, c :: s)

/-- The three decimal fields of a sequence `ESC [ x 8 ; 2 ; R ; G ; B m`: the
text behind the seven characters of the head, each field read up to its
separator. -/
def parseFields (s : List Char) : Int × Int × Int :=
  let f1 := takeNum 0 (s.drop 7)
  let f2 := takeNum 0 (f1.2.drop 1)
  let f3 := takeNum 0 (f2.2.drop 1)
  ((f1.1 : Int), (f2.1 : Int), (f3.1 : Int))

/-- A `double`: finite, `+inf`, `-inf` or NaN. -/
inductive Dbl where
  | fin (q : ℚ)
  | pinf
  | ninf
  | nan

/-- The `double` of an exact finite result: an infinity from `2^1024` on. -/
def Dbl.ofExact (q : ℚ) : Dbl :=
  if (2 : ℚ) ^ 1024 ≤ q then Dbl.pinf
  else if q ≤ -(2 : ℚ) ^ 1024 then Dbl.ninf
  else Dbl.fin q

/-- Unary minus. -/
def Dbl.neg : Dbl → Dbl
  | Dbl.fin q => Dbl.fin (-q)
  | Dbl.pinf => Dbl.ninf
  | Dbl.ninf => Dbl.pinf
  | Dbl.nan => Dbl.nan

/-- Addition: `inf + (-inf)` is NaN. -/
def Dbl.add : Dbl → Dbl → Dbl
  | Dbl.fin a, Dbl.fin b => Dbl.ofExact (a + b)
  | Dbl.fin _, Dbl.pinf => Dbl.pinf
  | Dbl.fin _, Dbl.ninf => Dbl.ninf
  | Dbl.pinf, Dbl.fin _ => Dbl.pinf
  | Dbl.pinf, Dbl.pinf => Dbl.pinf
  | Dbl.pinf, Dbl.ninf => Dbl.nan
  | Dbl.ninf, Dbl.fin _ => Dbl.ninf
  | Dbl.ninf, Dbl.pinf => Dbl.nan
  | Dbl.ninf, Dbl.ninf => Dbl.ninf
  | Dbl.nan, _ => Dbl.nan
  | _, Dbl.nan => Dbl.nan

/-- Subtraction. -/
def Dbl.sub (x y : Dbl) : Dbl := x.add y.neg

/-- The product of `+inf` and the finite value `q`: NaN for `q = 0`. -/
def Dbl.infTimes (q : ℚ) : Dbl :=
  if q = 0 then Dbl.nan else if 0 < q then Dbl.pinf else Dbl.ninf

/-- Multiplication: `0 * inf` is NaN. -/
def Dbl.mul : Dbl → Dbl → Dbl
  | Dbl.fin a, Dbl.fin b => Dbl.ofExact (a * b)
  | Dbl.fin a, Dbl.pinf => Dbl.infTimes a
  | Dbl.fin a, Dbl.ninf => (Dbl.infTimes a).neg
  | Dbl.pinf, Dbl.fin b => Dbl.infTimes b
  | Dbl.pinf, Dbl.pinf => Dbl.pinf
  | Dbl.pinf, Dbl.ninf => Dbl.ninf
  | Dbl.ninf, Dbl.fin b => (Dbl.infTimes b).neg
  | Dbl.ninf, Dbl.pinf => Dbl.ninf
  | Dbl.ninf, Dbl.ninf => Dbl.pinf
  | Dbl.nan, _ => Dbl.nan
  | _, Dbl.nan => Dbl.nan

/-- Division: `0 / 0` and `inf / inf` are NaN. -/
def Dbl.div : Dbl → Dbl → Dbl
  | Dbl.fin a, Dbl.fin b =>
    if b = 0 then Dbl.infTimes a else Dbl.ofExact (a / b)
  | Dbl.fin _, Dbl.pinf => Dbl.fin 0
  | Dbl.fin _, Dbl.ninf => Dbl.fin 0
  | Dbl.pinf, Dbl.fin b => if 0 ≤ b then Dbl.pinf else Dbl.ninf
  | Dbl.ninf, Dbl.fin b => if 0 ≤ b then Dbl.ninf else Dbl.pinf
  | Dbl.pinf, Dbl.pinf => Dbl.nan
  | Dbl.pinf, Dbl.ninf => Dbl.nan
  | Dbl.ninf, Dbl.pinf => Dbl.nan
  | Dbl.ninf, Dbl.ninf => Dbl.nan
  | Dbl.nan, _ => Dbl.nan
  | _, Dbl.nan => Dbl.nan

/-- Comparison `x < y`: false when an operand is NaN. -/
def Dbl.lt : Dbl → Dbl → Bool
  | Dbl.fin a, Dbl.fin b => decide (a < b)
  | Dbl.fin _, Dbl.pinf => true
  | Dbl.ninf, Dbl.fin _ => true
  | Dbl.ninf, Dbl.pinf => true
  | _, _ => false

/-- Comparison `x <= y`: false when an operand is NaN. -/
def Dbl.le : Dbl → Dbl → Bool
  | Dbl.fin a, Dbl.fin b => decide (a ≤ b)
  | Dbl.fin _, Dbl.pinf => true
  | Dbl.pinf, Dbl.pinf => true
  | Dbl.ninf, Dbl.fin _ => true
  | Dbl.ninf, Dbl.pinf => true
  | Dbl.ninf, Dbl.ninf => true
  | _, _ => false

/-- Conversion `(int)x`: the truncation of a finite value when it is an `int`;
`none` where the C standard leaves the conversion undefined (NaN, an infinity,
a value whose truncation is not an `int`). -/
def Dbl.to_int : Dbl → Option Int
  | Dbl.fin q =>
    if -(2 : ℚ) ^ 31 - 1 < q ∧ q < (2 : ℚ) ^ 31 then some (Uprintf.to_int q) else none
  | _ => none

/-- Function `uc__clampf` on `Dbl`: the two tests `v < lo` and `v > hi`. -/
def uc__clampf_ieee (v lo hi : Dbl) : Dbl :=
  if v.lt lo then lo
  else if hi.lt v then hi
  else v

/-- Function `uc__srgb_transfer` on `Dbl`. -/
def uc__srgb_transfer_ieee (M : Libm Dbl) (c : Dbl) : Dbl :=
  if c.le (Dbl.fin 0.0031308) then (Dbl.fin 12.92).mul c
  else ((Dbl.fin 1.055).mul (M.pow c ((Dbl.fin 1.0).div (Dbl.fin 2.4)))).sub (Dbl.fin 0.055)

/-- Locals `(lr, lg, lb)` of `uc__oklch_to_rgb` on `Dbl`, the operations in
source order. -/
def oklch_linear_ieee (M : Libm Dbl) (L C H : Dbl) : Dbl × Dbl × Dbl :=
  let h_rad := (H.mul (Dbl.fin UC_PI)).div (Dbl.fin 180.0)
  let a := C.mul (M.cos h_rad)
  let ob := C.mul (M.sin h_rad)
  let l_ := (L.add ((Dbl.fin 0.3963377774).mul a)).add ((Dbl.fin 0.2158037573).mul ob)
  let m_ := (L.sub ((Dbl.fin 0.1055613458).mul a)).sub ((Dbl.fin 0.0638541728).mul ob)
  let s_ := (L.sub ((Dbl.fin 0.0894841775).mul a)).sub ((Dbl.fin 1.2914855480).mul ob)
  let l3 := (l_.mul l_).mul l_
  let m3 := (m_.mul m_).mul m_
  let s3 := (s_.mul s_).mul s_
  ((((Dbl.fin 4.0767416621).mul l3).sub ((Dbl.fin 3.3077115913).mul m3)).add
      ((Dbl.fin 0.2309699292).mul s3),
   (((Dbl.fin (-1.2684380046)).mul l3).add ((Dbl.fin 2.6097574011).mul m3)).sub
      ((Dbl.fin 0.3413193965).mul s3),
   (((Dbl.fin (-0.0041960863)).mul l3).add ((Dbl.fin 0.7341731176).mul m3)).add
      ((Dbl.fin 0.2676544482).mul s3))

/-- One channel on `Dbl`:
`(int)(uc__clampf(uc__srgb_transfer(v), 0.0, 1.0) * 255.0 + 0.5)`. -/
def oklch_channel_ieee (M : Libm Dbl) (v : Dbl) : Option Int :=
  (((uc__clampf_ieee (uc__srgb_transfer_ieee M v) (Dbl.fin 0.0) (Dbl.fin 1.0)).mul
    (Dbl.fin 255.0)).add (Dbl.fin 0.5)).to_int

/-- Function `uc__oklch_to_rgb` on `Dbl`; a channel is `none` when its
conversion to `int` is undefined. -/
def uc__oklch_to_rgb_ieee (M : Libm Dbl) (L C H : Dbl) :
    Option Int × Option Int × Option Int :=
  (oklch_channel_ieee M (oklch_linear_ieee M L C H).1,
   oklch_channel_ieee M (oklch_linear_ieee M L C H).2.1,
   oklch_channel_ieee M (oklch_linear_ieee M L C H).2.2)

/-- A stand-in math library on `Dbl`: `refLibm` on finite arguments, NaN
otherwise. -/
def refLibmIeee : Libm Dbl where
  cos := fun x => match x with
    | Dbl.fin q => Dbl.fin (refLibm.cos q)
    | _ => Dbl.nan
  sin := fun x => match x with
    | Dbl.fin q => Dbl.fin (refLibm.sin q)
    | _ => Dbl.nan
  pow := fun x y => match x, y with
    | Dbl.fin a, Dbl.fin b => Dbl.fin (refLibm.pow a b)
    | _, _ => Dbl.nan

/-! ## Outcome predicates used by the statements -/

/-- A stream entry point failed without any effect: sentinel `-1`, no host
primitive invoked, output state as before. -/
def IoResult.rejected {σ : Type} (r : IoResult σ) (w : σ) : Prop :=
  r.ret = -1 ∧ r.hostCalls = 0 ∧ r.world = w

/-- A buffer entry point failed without any effect: sentinel `-1`, no host
primitive invoked, destination exactly as passed in. -/
def BufResult.rejected (r : BufResult) (buf : Option Buf) : Prop :=
  r.ret = -1 ∧ r.hostCalls = 0 ∧ r.buf = buf

/-- Cell `i` of the destination holds the terminator after the call. -/
def BufResult.terminatedAt (r : BufResult) (i : Nat) : Prop :=
  ∃ b, r.buf = some b ∧ b i = NUL

/-- The conversion characters of ordinary directives, `"diuoxXfFeEgGaAcsp"`. -/
def conversions : List Char :=
  ['d', 'i', 'u', 'o', 'x', 'X', 'f', 'F', 'e', 'E', 'g', 'G', 'a', 'A', 'c', 's', 'p']

/-- The list `q` is what remains of `p` after a run of modifier characters. -/
def ModPrefix (p q : List Char) : Prop := ∃ run, p = run ++ q ∧ ∀ c ∈ run, isModChar c

/-- A format string with a write-back directive: a `%`, a run of modifier
characters, then `n`. -/
def HasDirectiveN (p : List Char) : Prop :=
  ∃ a run b, p = a ++ ['%'] ++ run ++ ['n'] ++ b ∧ ∀ c ∈ run, isModChar c

/-! ## Lemmas on the skipping loops -/

theorem peek_cons (c : Char) (p : List Char) : peek (c :: p) = c := rfl

theorem peek_append_of (P : Char → Prop) (a b : List Char)
    (ha : ∀ c ∈ a, P c) (hb : P (peek b)) : P (peek (a ++ b)) := by
  cases a with
  | nil => simpa using hb
  | cons c a => exact ha c (List.mem_cons_self _ _)

theorem skipFlags_stop (r : List Char) (h : ¬ isFlag (peek r)) : skipFlags r = r := by
  cases r with
  | nil => rfl
  | cons c r => simp only [skipFlags]; exact if_neg h

theorem skipDigits_stop (r : List Char) (h : ¬ isDigit (peek r)) : skipDigits r = r := by
  cases r with
  | nil => rfl
  | cons c r => simp only [skipDigits]; exact if_neg h

theorem skipLength_stop (r : List Char) (h : ¬ isLen (peek r)) : skipLength r = r := by
  cases r with
  | nil => rfl
  | cons c r => simp only [skipLength]; exact if_neg h

theorem skipFlags_append (fl r : List Char) (h : ∀ c ∈ fl, isFlag c) :
    skipFlags (fl ++ r) = skipFlags r := by
  induction fl with
  | nil => rfl
  | cons c fl ih =>
    have hc : isFlag c := h c (List.mem_cons_self _ _)
    simp only [List.cons_append, skipFlags]
    rw [if_pos hc]
    exact ih (fun d hd => h d (List.mem_cons_of_mem _ hd))

theorem skipDigits_append (w r : List Char) (h : ∀ c ∈ w, isDigit c) :
    skipDigits (w ++ r) = skipDigits r := by
  induction w with
  | nil => rfl
  | cons c w ih =>
    have hc : isDigit c := h c (List.mem_cons_self _ _)
    simp only [List.cons_append, skipDigits]
    rw [if_pos hc]
    exact ih (fun d hd => h d (List.mem_cons_of_mem _ hd))

theorem skipLength_append (ln r : List Char) (h : ∀ c ∈ ln, isLen c) :
    skipLength (ln ++ r) = skipLength r := by
  induction ln with
  | nil => rfl
  | cons c ln ih =>
    have hc : isLen c := h c (List.mem_cons_self _ _)
    simp only [List.cons_append, skipLength]
    rw [if_pos hc]
    exact ih (fun d hd => h d (List.mem_cons_of_mem _ hd))

theorem isDigit_ne_star {c : Char} (h : isDigit c) : c ≠ '*' := by
  rintro rfl; revert h; decide

theorem skipWidth_stop (r : List Char) (h1 : peek r ≠ '*') (h2 : ¬ isDigit (peek r)) :
    skipWidth r = r := by
  cases r with
  | nil => rfl
  | cons c r =>
    simp only [skipWidth]
    rw [if_neg (show c ≠ '*' from h1)]
    exact skipDigits_stop _ h2

theorem skipWidth_append (w r : List Char) (hw : IsWidth w)
    (h1 : peek r ≠ '*') (h2 : ¬ isDigit (peek r)) : skipWidth (w ++ r) = r := by
  rcases hw with rfl | hw
  · simp [skipWidth]
  · cases w with
    | nil => exact skipWidth_stop r h1 h2
    | cons c w =>
      have hc : isDigit c := hw c (List.mem_cons_self _ _)
      simp only [List.cons_append, skipWidth]
      rw [if_neg (isDigit_ne_star hc), ← List.cons_append, skipDigits_append _ _ hw]
      exact skipDigits_stop _ h2

/-- Flags followed by a width field: the flag loop may take leading zeros of
the width, the width step takes the rest. -/
theorem skipWidth_skipFlags_append (w r : List Char) (hw : IsWidth w)
    (h0 : ¬ isFlag (peek r)) (h1 : peek r ≠ '*') (h2 : ¬ isDigit (peek r)) :
    skipWidth (skipFlags (w ++ r)) = r := by
  rcases hw with rfl | hw
  · have : skipFlags (['*'] ++ r) = '*' :: r := by
      simp only [List.singleton_append, skipFlags]
      exact if_neg (by decide)
    rw [this]; simp [skipWidth]
  · induction w with
    | nil => simp only [List.nil_append]; rw [skipFlags_stop r h0]; exact skipWidth_stop r h1 h2
    | cons c w ih =>
      have hw2 : ∀ d ∈ w, isDigit d := fun d hd => hw d (List.mem_cons_of_mem _ hd)
      by_cases hc : isFlag c
      · simp only [List.cons_append, skipFlags]
        rw [if_pos hc]
        exact ih hw2
      · have : skipFlags (c :: w ++ r) = c :: w ++ r := by
          simp only [List.cons_append, skipFlags]; exact if_neg hc
        rw [this]
        exact skipWidth_append (c :: w) r (Or.inr hw) h1 h2

theorem skipPrecision_append (pr r : List Char) (hp : IsPrecision pr)
    (h0 : peek r ≠ '.') (h1 : peek r ≠ '*') (h2 : ¬ isDigit (peek r)) :
    skipPrecision (pr ++ r) = r := by
  rcases hp with rfl | ⟨w, hw, rfl⟩
  · cases r with
    | nil => rfl
    | cons c r => simp only [List.nil_append, skipPrecision]; exact if_neg h0
  · simp only [List.cons_append, skipPrecision, if_true]
    exact skipWidth_append w r hw h1 h2

theorem isLen_props {c : Char} (h : isLen c) :
    ¬ isFlag c ∧ c ≠ '*' ∧ ¬ isDigit c ∧ c ≠ '.' ∧ c ≠ '%' := by
  rcases h with rfl | rfl | rfl | rfl | rfl | rfl <;> decide

theorem isFlag_ne_percent {c : Char} (h : isFlag c) : c ≠ '%' := by
  rcases h with rfl | rfl | rfl | rfl | rfl <;> decide

theorem isDigit_ne_percent {c : Char} (h : isDigit c) : c ≠ '%' := by
  rintro rfl; revert h; decide

theorem isDigit_ne_dot {c : Char} (h : isDigit c) : c ≠ '.' := by
  rintro rfl; revert h; decide

theorem isModChar_ne_percent {c : Char} (h : isModChar c) : c ≠ '%' := by
  rcases h with h | h | rfl | rfl | h
  · exact isFlag_ne_percent h
  · exact isDigit_ne_percent h
  · decide
  · decide
  · exact (isLen_props h).2.2.2.2

theorem isWidth_modChars {w : List Char} (h : IsWidth w) : ∀ c ∈ w, isModChar c := by
  rcases h with rfl | h
  · intro c hc
    rw [List.mem_singleton] at hc
    exact Or.inr (Or.inr (Or.inl hc))
  · exact fun c hc => Or.inr (Or.inl (h c hc))

theorem isPrecision_modChars {pr : List Char} (h : IsPrecision pr) :
    ∀ c ∈ pr, isModChar c := by
  rcases h with rfl | ⟨w, hw, rfl⟩
  · intro c hc; cases hc
  · intro c hc
    rcases List.mem_cons.mp hc with rfl | hc
    · exact Or.inr (Or.inr (Or.inr (Or.inl rfl)))
    · exact isWidth_modChars hw c hc

theorem isMods_modChars {m : List Char} (h : IsMods m) : ∀ c ∈ m, isModChar c := by
  obtain ⟨fl, w, pr, ln, hfl, hw, hpr, hln, rfl⟩ := h
  intro c hc
  simp only [List.mem_append] at hc
  rcases hc with ((hc | hc) | hc) | hc
  · exact Or.inl (hfl c hc)
  · exact isWidth_modChars hw c hc
  · exact isPrecision_modChars hpr c hc
  · exact Or.inr (Or.inr (Or.inr (Or.inr (hln c hc))))

/-- On a modifier run followed by a character outside the modifier alphabet,
the four skipping steps consume exactly the run. -/
theorem skipDirective_mods (m r : List Char) (hm : IsMods m) (hr : Terminal (peek r)) :
    skipDirective (m ++ r) = r := by
  obtain ⟨fl, w, pr, ln, hfl, hw, hpr, hln, rfl⟩ := hm
  have hr0 : ¬ isFlag (peek r) := fun h => hr (Or.inl h)
  have hr1 : ¬ isDigit (peek r) := fun h => hr (Or.inr (Or.inl h))
  have hr2 : peek r ≠ '*' := fun h => hr (Or.inr (Or.inr (Or.inl h)))
  have hr3 : peek r ≠ '.' := fun h => hr (Or.inr (Or.inr (Or.inr (Or.inl h))))
  have hr4 : ¬ isLen (peek r) := fun h => hr (Or.inr (Or.inr (Or.inr (Or.inr h))))
  -- the character that follows the precision field
  have hz : ¬ isFlag (peek (ln ++ r)) ∧ peek (ln ++ r) ≠ '*' ∧ ¬ isDigit (peek (ln ++ r)) ∧
      peek (ln ++ r) ≠ '.' :=
    peek_append_of (fun c => ¬ isFlag c ∧ c ≠ '*' ∧ ¬ isDigit c ∧ c ≠ '.') ln r
      (fun c hc => ⟨(isLen_props (hln c hc)).1, (isLen_props (hln c hc)).2.1,
        (isLen_props (hln c hc)).2.2.1, (isLen_props (hln c hc)).2.2.2.1⟩)
      ⟨hr0, hr2, hr1, hr3⟩
  -- the character that follows the width field
  have hy : ¬ isFlag (peek (pr ++ (ln ++ r))) ∧ peek (pr ++ (ln ++ r)) ≠ '*' ∧
      ¬ isDigit (peek (pr ++ (ln ++ r))) := by
    rcases hpr with rfl | ⟨w2, _, rfl⟩
    · exact ⟨hz.1, hz.2.1, hz.2.2.1⟩
    · simp only [List.cons_append, peek_cons]; decide
  unfold skipDirective
  rw [List.append_assoc, List.append_assoc, List.append_assoc, skipFlags_append _ _ hfl,
    skipWidth_skipFlags_append w _ hw hy.1 hy.2.1 hy.2.2,
    skipPrecision_append pr _ hpr hz.2.2.2 hz.2.1 hz.2.2.1,
    skipLength_append _ _ hln, skipLength_stop _ hr4]

/-! ## Fuel adequacy and the unfolding equations of the scan loop -/

theorem skipFlags_length (p : List Char) : (skipFlags p).length ≤ p.length := by
  induction p with
  | nil => exact Nat.le_refl _
  | cons c p ih =>
    simp only [skipFlags]
    split
    · exact Nat.le_trans ih (Nat.le_succ _)
    · exact Nat.le_refl _

theorem skipDigits_length (p : List Char) : (skipDigits p).length ≤ p.length := by
  induction p with
  | nil => exact Nat.le_refl _
  | cons c p ih =>
    simp only [skipDigits]
    split
    · exact Nat.le_trans ih (Nat.le_succ _)
    · exact Nat.le_refl _

theorem skipLength_length (p : List Char) : (skipLength p).length ≤ p.length := by
  induction p with
  | nil => exact Nat.le_refl _
  | cons c p ih =>
    simp only [skipLength]
    split
    · exact Nat.le_trans ih (Nat.le_succ _)
    · exact Nat.le_refl _

theorem skipWidth_length (p : List Char) : (skipWidth p).length ≤ p.length := by
  cases p with
  | nil => exact Nat.le_refl _
  | cons c p =>
    simp only [skipWidth]
    split
    · exact Nat.le_succ _
    · exact skipDigits_length _

theorem skipPrecision_length (p : List Char) : (skipPrecision p).length ≤ p.length := by
  cases p with
  | nil => exact Nat.le_refl _
  | cons c p =>
    simp only [skipPrecision]
    split
    · exact Nat.le_trans (skipWidth_length p) (Nat.le_succ _)
    · exact Nat.le_refl _

theorem skipDirective_length (p : List Char) : (skipDirective p).length ≤ p.length :=
  Nat.le_trans (skipLength_length _) (Nat.le_trans (skipPrecision_length _)
    (Nat.le_trans (skipWidth_length _) (skipFlags_length _)))

theorem tail_length_le (p : List Char) : p.tail.length ≤ p.length := by
  cases p <;> simp

/-- Any two amounts of fuel that cover the length of the string give the same
result: the loop never runs out of fuel before it reaches the terminator. -/
theorem scanNarrow_fuel : ∀ (f g : Nat) (p : List Char),
    p.length ≤ f → p.length ≤ g → scanNarrow f p = scanNarrow g p := by
  intro f
  induction f with
  | zero =>
    intro g p hf _
    have : p = [] := List.length_eq_zero.mp (Nat.le_zero.mp hf)
    subst this
    cases g <;> rfl
  | succ f ih =>
    intro g p hf hg
    cases p with
    | nil => cases g <;> rfl
    | cons c p =>
      cases g with
      | zero => simp at hg
      | succ g =>
        have hf2 : p.length ≤ f := Nat.le_of_succ_le_succ hf
        have hg2 : p.length ≤ g := Nat.le_of_succ_le_succ hg
        have hq := skipDirective_length p
        simp only [scanNarrow]
        split
        · rfl
        · split
          · split
            · exact ih g _ (Nat.le_trans (tail_length_le _) hf2)
                (Nat.le_trans (tail_length_le _) hg2)
            · split
              · rfl
              · split
                · rfl
                · exact ih g _
                    (Nat.le_trans (tail_length_le _) (Nat.le_trans hq hf2))
                    (Nat.le_trans (tail_length_le _) (Nat.le_trans hq hg2))
          · exact ih g _ hf2 hg2

theorem scan_nil : uprintf_has_percent_n_narrow (some []) = 0 := rfl

theorem scan_literal (c : Char) (p : List Char) (h1 : c ≠ '%') (h2 : c ≠ NUL) :
    uprintf_has_percent_n_narrow (some (c :: p)) = uprintf_has_percent_n_narrow (some p) := by
  simp only [uprintf_has_percent_n_narrow, List.length_cons, scanNarrow]
  rw [if_neg h2, if_neg h1]

theorem scan_percent (p : List Char) :
    uprintf_has_percent_n_narrow (some ('%' :: p)) =
      if peek p = '%' then uprintf_has_percent_n_narrow (some p.tail)
      else if peek (skipDirective p) = 'n' then 1
      else if peek (skipDirective p) = NUL then 0
      else uprintf_has_percent_n_narrow (some (skipDirective p).tail) := by
  simp only [uprintf_has_percent_n_narrow, List.length_cons, scanNarrow]
  rw [if_neg (by decide : ¬ ('%' = NUL)), if_pos trivial]
  rw [scanNarrow_fuel p.length p.tail.length p.tail (tail_length_le _) (Nat.le_refl _),
    scanNarrow_fuel p.length (skipDirective p).tail.length (skipDirective p).tail
      (Nat.le_trans (tail_length_le _) (skipDirective_length p)) (Nat.le_refl _)]

/-- A literal prefix is skipped by the outer loop. -/
theorem scan_prefix (pre s : List Char) (h : IsLiteral pre) :
    uprintf_has_percent_n_narrow (some (pre ++ s)) = uprintf_has_percent_n_narrow (some s) := by
  induction pre with
  | nil => rfl
  | cons c pre ih =>
    rw [List.cons_append, scan_literal c _ (h c (List.mem_cons_self _ _)).1
      (h c (List.mem_cons_self _ _)).2]
    exact ih (fun d hd => h d (List.mem_cons_of_mem _ hd))

/-- A directive made of a modifier run and a conversion character other than
`n`, `%` and the terminator: the scan resumes right behind it. -/
theorem scan_directive (m t : List Char) (c : Char) (hm : IsMods m)
    (hc : Terminal c) (h1 : c ≠ '%') (h2 : c ≠ 'n') (h3 : c ≠ NUL) :
    uprintf_has_percent_n_narrow (some ('%' :: (m ++ c :: t))) =
      uprintf_has_percent_n_narrow (some t) := by
  have hp : peek (m ++ c :: t) ≠ '%' :=
    peek_append_of (fun d => d ≠ '%') m (c :: t)
      (fun d hd => isModChar_ne_percent (isMods_modChars hm d hd)) h1
  rw [scan_percent, if_neg hp, skipDirective_mods m (c :: t) hm hc, peek_cons,
    if_neg h2, if_neg h3, List.tail_cons]

/-! ## Decomposition of what the skipping steps consume -/

theorem modPrefix_refl (p : List Char) : ModPrefix p p :=
  ⟨[], rfl, fun _ h => by cases h⟩

theorem modPrefix_cons {c : Char} {p q : List Char} (hc : isModChar c) (h : ModPrefix p q) :
    ModPrefix (c :: p) q := by
  obtain ⟨run, rfl, hrun⟩ := h
  refine ⟨c :: run, rfl, ?_⟩
  intro d hd
  rcases List.mem_cons.mp hd with rfl | hd
  · exact hc
  · exact hrun d hd

theorem modPrefix_trans {p q r : List Char} (h1 : ModPrefix p q) (h2 : ModPrefix q r) :
    ModPrefix p r := by
  obtain ⟨run1, rfl, hrun1⟩ := h1
  obtain ⟨run2, rfl, hrun2⟩ := h2
  refine ⟨run1 ++ run2, (List.append_assoc _ _ _).symm, ?_⟩
  intro d hd
  rcases List.mem_append.mp hd with hd | hd
  · exact hrun1 d hd
  · exact hrun2 d hd

theorem skipFlags_modPrefix (p : List Char) : ModPrefix p (skipFlags p) := by
  induction p with
  | nil => exact modPrefix_refl _
  | cons c p ih =>
    simp only [skipFlags]
    split
    · rename_i h; exact modPrefix_cons (Or.inl h) ih
    · exact modPrefix_refl _

theorem skipDigits_modPrefix (p : List Char) : ModPrefix p (skipDigits p) := by
  induction p with
  | nil => exact modPrefix_refl _
  | cons c p ih =>
    simp only [skipDigits]
    split
    · rename_i h; exact modPrefix_cons (Or.inr (Or.inl h)) ih
    · exact modPrefix_refl _

theorem skipLength_modPrefix (p : List Char) : ModPrefix p (skipLength p) := by
  induction p with
  | nil => exact modPrefix_refl _
  | cons c p ih =>
    simp only [skipLength]
    split
    · rename_i h; exact modPrefix_cons (Or.inr (Or.inr (Or.inr (Or.inr h)))) ih
    · exact modPrefix_refl _

theorem skipWidth_modPrefix (p : List Char) : ModPrefix p (skipWidth p) := by
  cases p with
  | nil => exact modPrefix_refl _
  | cons c p =>
    simp only [skipWidth]
    split
    · rename_i h; exact modPrefix_cons (Or.inr (Or.inr (Or.inl h))) (modPrefix_refl _)
    · exact skipDigits_modPrefix _

theorem skipPrecision_modPrefix (p : List Char) : ModPrefix p (skipPrecision p) := by
  cases p with
  | nil => exact modPrefix_refl _
  | cons c p =>
    simp only [skipPrecision]
    split
    · rename_i h
      exact modPrefix_cons (Or.inr (Or.inr (Or.inr (Or.inl h)))) (skipWidth_modPrefix _)
    · exact modPrefix_refl _

theorem skipDirective_modPrefix (p : List Char) : ModPrefix p (skipDirective p) :=
  modPrefix_trans (modPrefix_trans (skipFlags_modPrefix p) (skipWidth_modPrefix _))
    (modPrefix_trans (skipPrecision_modPrefix _) (skipLength_modPrefix _))

theorem hasDirectiveN_cons {p : List Char} (c : Char) (h : HasDirectiveN p) :
    HasDirectiveN (c :: p) := by
  obtain ⟨a, run, b, rfl, hrun⟩ := h
  exact ⟨c :: a, run, b, by simp, hrun⟩

theorem hasDirectiveN_append {p : List Char} (l : List Char) (h : HasDirectiveN p) :
    HasDirectiveN (l ++ p) := by
  induction l with
  | nil => exact h
  | cons c l ih => exact hasDirectiveN_cons c ih

theorem peek_eq_cons {p : List Char} {c : Char} (h : peek p = c) (hc : c ≠ NUL) :
    ∃ q, p = c :: q := by
  cases p with
  | nil => exact absurd h.symm hc
  | cons d q => exact ⟨q, by rw [peek_cons] at h; rw [h]⟩

theorem peek_ne_nul {p : List Char} (h : peek p ≠ NUL) : ∃ d q, p = d :: q := by
  cases p with
  | nil => exact absurd rfl h
  | cons d q => exact ⟨d, q, rfl⟩

theorem scanNarrow_range (f : Nat) : ∀ p : List Char,
    scanNarrow f p = 0 ∨ scanNarrow f p = 1 := by
  induction f with
  | zero => intro p; exact Or.inl rfl
  | succ f ih =>
    intro p
    cases p with
    | nil => exact Or.inl rfl
    | cons c p =>
      simp only [scanNarrow]
      split
      · exact Or.inl rfl
      · split
        · split
          · exact ih _
          · split
            · exact Or.inr rfl
            · split
              · exact Or.inl rfl
              · exact ih _
        · exact ih _

theorem scanNarrow_sound (f : Nat) : ∀ p : List Char,
    scanNarrow f p = 1 → HasDirectiveN p := by
  induction f with
  | zero => intro p h; simp [scanNarrow] at h
  | succ f ih =>
    intro p h
    cases p with
    | nil => simp [scanNarrow] at h
    | cons c p =>
      simp only [scanNarrow] at h
      split at h
      · simp at h
      · rename_i hnul
        split at h
        · rename_i hpct
          subst hpct
          split at h
          · rename_i hpp
            obtain ⟨q, rfl⟩ := peek_eq_cons hpp (by decide)
            exact hasDirectiveN_cons _ (hasDirectiveN_cons _ (ih _ h))
          · split at h
            · rename_i hn
              obtain ⟨b, hb⟩ := peek_eq_cons hn (by decide)
              obtain ⟨run, hp, hrun⟩ := skipDirective_modPrefix p
              refine ⟨[], run, b, ?_, hrun⟩
              rw [hp, hb]; simp
            · split at h
              · simp at h
              · rename_i hq
                obtain ⟨d, q, hdq⟩ := peek_ne_nul hq
                obtain ⟨run, hp, _⟩ := skipDirective_modPrefix p
                rw [hdq] at hp
                rw [hdq, List.tail_cons] at h
                rw [hp]
                have := hasDirectiveN_cons d (ih _ h)
                exact hasDirectiveN_cons _ (hasDirectiveN_append run this)
        · exact hasDirectiveN_cons _ (ih _ h)

theorem conversions_terminal : ∀ c ∈ conversions,
    Terminal c ∧ c ≠ '%' ∧ c ≠ 'n' ∧ c ≠ NUL := by
  decide

/-! ## Claims on the scanner -/

/-- C4 (scanner completeness): a literal prefix without `%`, then `%`, a
modifier run (flags, width, optional precision, length modifiers), then `n`,
then any suffix, is reported unsafe; so are the six quoted format strings. -/
theorem C4_scanner_complete (pre mods post : List Char)
    (hpre : IsLiteral pre) (hm : IsMods mods) :
    uprintf_has_percent_n_narrow (some (pre ++ ['%'] ++ mods ++ ['n'] ++ post)) = 1 ∧
    uprintf_has_percent_n_narrow (some "hello%n".toList) = 1 ∧
    uprintf_has_percent_n_narrow (some "%+010n".toList) = 1 ∧
    uprintf_has_percent_n_narrow (some "%.5n".toList) = 1 ∧
    uprintf_has_percent_n_narrow (some "%lln".toList) = 1 ∧
    uprintf_has_percent_n_narrow (some "%10n".toList) = 1 ∧
    uprintf_has_percent_n_narrow (some "%-n".toList) = 1 := by
  refine ⟨?_, by decide, by decide, by decide, by decide, by decide, by decide⟩
  have hp : peek (mods ++ 'n' :: post) ≠ '%' :=
    peek_append_of (fun d => d ≠ '%') mods ('n' :: post)
      (fun d hd => isModChar_ne_percent (isMods_modChars hm d hd)) (show 'n' ≠ '%' by decide)
  have hshape : pre ++ ['%'] ++ mods ++ ['n'] ++ post = pre ++ '%' :: (mods ++ 'n' :: post) := by
    simp
  rw [hshape, scan_prefix _ _ hpre, scan_percent, if_neg hp,
    skipDirective_mods mods ('n' :: post) hm (show Terminal 'n' by decide), peek_cons,
    if_pos rfl]

/-- Witness of C4: the prefix `hello`, the modifier run `+010.*ll` (flags `+0`,
width `10`, precision `.*`, length `ll`) and the suffix ` tail`. -/
theorem C4_scanner_complete_witness :
    IsLiteral "hello".toList ∧ IsMods "+010.*ll".toList ∧
    uprintf_has_percent_n_narrow
      (some ("hello".toList ++ ['%'] ++ "+010.*ll".toList ++ ['n'] ++ " tail".toList)) = 1 :=
  have h1 : IsLiteral "hello".toList := by unfold IsLiteral; decide
  have h2 : IsMods "+010.*ll".toList :=
    ⟨"+0".toList, "10".toList, ".*".toList, "ll".toList, by decide, Or.inr (by decide),
      Or.inr ⟨['*'], Or.inl rfl, by decide⟩, by decide, by decide⟩
  ⟨h1, h2, (C4_scanner_complete _ _ _ h1 h2).1⟩

/-- C5 (scanner soundness): when the narrow scanner returns 1, the format
contains a `%` followed by a possibly empty run of flags, digits, `*`, `.` and
length modifiers, immediately followed by `n`; a format without any `%`, or
without any `n`, is reported safe. -/
theorem C5_scanner_sound (fmt : List Char) :
    (uprintf_has_percent_n_narrow (some fmt) = 1 →
      ∃ a run b, fmt = a ++ ['%'] ++ run ++ ['n'] ++ b ∧ ∀ c ∈ run, isModChar c) ∧
    ('%' ∉ fmt → uprintf_has_percent_n_narrow (some fmt) = 0) ∧
    ('n' ∉ fmt → uprintf_has_percent_n_narrow (some fmt) = 0) := by
  have hs : uprintf_has_percent_n_narrow (some fmt) = 1 → HasDirectiveN fmt :=
    scanNarrow_sound fmt.length fmt
  have hr : uprintf_has_percent_n_narrow (some fmt) = 0 ∨
      uprintf_has_percent_n_narrow (some fmt) = 1 := scanNarrow_range fmt.length fmt
  refine ⟨hs, ?_, ?_⟩
  · intro hno
    rcases hr with h | h
    · exact h
    · obtain ⟨a, run, b, rfl, _⟩ := hs h
      exact absurd (by simp) hno
  · intro hno
    rcases hr with h | h
    · exact h
    · obtain ⟨a, run, b, rfl, _⟩ := hs h
      exact absurd (by simp) hno

/-- Witness of C5: `a%-5ln` is flagged, and the directive found is `%-5ln`;
`100% done` has no `n` after its directive and `none` has no `%`. -/
theorem C5_scanner_sound_witness :
    (∃ a run b, "a%-5ln".toList = a ++ ['%'] ++ run ++ ['n'] ++ b ∧
      ∀ c ∈ run, isModChar c) ∧
    uprintf_has_percent_n_narrow (some "none".toList) = 0 ∧
    uprintf_has_percent_n_narrow (some "100% exact".toList) = 0 :=
  ⟨(C5_scanner_sound "a%-5ln".toList).1 (by decide),
   (C5_scanner_sound "none".toList).2.1 (by decide),
   (C5_scanner_sound "100% exact".toList).2.2 (by decide)⟩

/-- C6 (escaped percent): behind a literal prefix, `%%` is skipped as a
literal and the scan of the whole string equals the scan of what follows; so
`%%n` and `100%%` are safe and `%%%n` is unsafe. -/
theorem C6_escaped_percent (pre s : List Char) (hpre : IsLiteral pre) :
    uprintf_has_percent_n_narrow (some (pre ++ ['%', '%'] ++ s)) =
      uprintf_has_percent_n_narrow (some s) ∧
    uprintf_has_percent_n_narrow (some "%%n".toList) = 0 ∧
    uprintf_has_percent_n_narrow (some "100%%".toList) = 0 ∧
    uprintf_has_percent_n_narrow (some "%%%n".toList) = 1 := by
  refine ⟨?_, by decide, by decide, by decide⟩
  have hshape : pre ++ ['%', '%'] ++ s = pre ++ '%' :: '%' :: s := by simp
  rw [hshape, scan_prefix _ _ hpre, scan_percent, peek_cons, if_pos rfl, List.tail_cons]

/-- Witness of C6: prefix `100`, then `%%`, then the unsafe rest `%n`. -/
theorem C6_escaped_percent_witness :
    IsLiteral "100".toList ∧
    uprintf_has_percent_n_narrow (some ("100".toList ++ ['%', '%'] ++ "%n".toList)) =
      uprintf_has_percent_n_narrow (some "%n".toList) ∧
    uprintf_has_percent_n_narrow (some "%n".toList) = 1 :=
  have h1 : IsLiteral "100".toList := by unfold IsLiteral; decide
  ⟨h1, (C6_escaped_percent _ _ h1).1, by decide⟩

/-- C7 (resumption after an ordinary directive): behind a literal prefix, a
directive made of a modifier run and one of the conversion characters
`diuoxXfFeEgGaAcsp` is stepped over, and the scan of the whole string equals
the scan of the text behind the conversion character. -/
theorem C7_scan_resumes (pre mods t : List Char) (c : Char)
    (hpre : IsLiteral pre) (hm : IsMods mods) (hc : c ∈ conversions) :
    uprintf_has_percent_n_narrow (some (pre ++ ['%'] ++ mods ++ [c] ++ t)) =
      uprintf_has_percent_n_narrow (some t) := by
  obtain ⟨h0, h1, h2, h3⟩ := conversions_terminal c hc
  have hshape : pre ++ ['%'] ++ mods ++ [c] ++ t = pre ++ '%' :: (mods ++ c :: t) := by simp
  rw [hshape, scan_prefix _ _ hpre, scan_directive mods t c hm h0 h1 h2 h3]

/-- Witness of C7: `x=%-08.3lf` followed by the unsafe `%n` and by the safe ` %s`. -/
theorem C7_scan_resumes_witness :
    IsLiteral "x=".toList ∧ IsMods "-08.3l".toList ∧ 'f' ∈ conversions ∧
    uprintf_has_percent_n_narrow
      (some ("x=".toList ++ ['%'] ++ "-08.3l".toList ++ ['f'] ++ "%n".toList)) = 1 ∧
    uprintf_has_percent_n_narrow
      (some ("x=".toList ++ ['%'] ++ "-08.3l".toList ++ ['f'] ++ " %s".toList)) = 0 :=
  have h1 : IsLiteral "x=".toList := by unfold IsLiteral; decide
  have h2 : IsMods "-08.3l".toList :=
    ⟨"-0".toList, "8".toList, ".3".toList, "l".toList, by decide, Or.inr (by decide),
      Or.inr ⟨['3'], Or.inr (by decide), by decide⟩, by decide, by decide⟩
  have h3 : 'f' ∈ conversions := by decide
  ⟨h1, h2, h3, (C7_scan_resumes _ _ "%n".toList 'f' h1 h2 h3).trans (by decide),
    (C7_scan_resumes _ _ " %s".toList 'f' h1 h2 h3).trans (by decide)⟩

/-- C8 (null and empty format): both scanners return 0 on the null pointer and
on the empty string. -/
theorem C8_null_and_empty_safe :
    uprintf_has_percent_n_narrow none = 0 ∧
    uprintf_has_percent_n_narrow (some []) = 0 ∧
    uprintf_has_percent_n_wide none = 0 ∧
    uprintf_has_percent_n_wide (some []) = 0 :=
  ⟨rfl, rfl, rfl, rfl⟩

/-! ## Lemmas on buffers -/

theorem buf_set_same (b : Buf) (i : Nat) (c : Char) : (b.set i c) i = c := by
  simp [Buf.set]

theorem buf_set_other (b : Buf) (i j : Nat) (c : Char) (h : j ≠ i) : (b.set i c) j = b j := by
  simp [Buf.set, h]

theorem buf_read_length (b : Buf) (k : Nat) : (b.read k).length = k := by
  simp [Buf.read]

theorem buf_read_eq_of (b : Buf) (l : List Char)
    (h : ∀ i, i < l.length → b i = l.getD i NUL) : b.read l.length = l := by
  apply List.ext_getElem
  · exact buf_read_length b _
  · intro i h1 h2
    have := h i h2
    simp only [Buf.read, List.getElem_map, List.getElem_range]
    rw [this, List.getD_eq_getElem _ _ h2]

/-- What the C99 store leaves in the buffer: the truncated rendering and the
terminator right behind it. -/
theorem c99_store_read (b : Buf) (n : Nat) (out : List Char) (hn : 0 < n) :
    (c99_store b n out).1.read (min out.length (n - 1) + 1) = out.take (n - 1) ++ [NUL] := by
  have hlen : (out.take (n - 1) ++ [NUL]).length = min out.length (n - 1) + 1 := by
    simp [Nat.min_comm]
  rw [← hlen]
  apply buf_read_eq_of
  intro i hi
  rw [hlen] at hi
  have hn0 : n ≠ 0 := Nat.pos_iff_ne_zero.mp hn
  simp only [c99_store, if_neg hn0]
  by_cases h1 : i < min out.length (n - 1)
  · rw [if_pos h1]
    have h2 : i < (out.take (n - 1)).length := by simpa [Nat.min_comm] using h1
    have h3 : i < out.length := Nat.lt_of_lt_of_le h1 (Nat.min_le_left _ _)
    rw [List.getD_eq_getElem _ _ h3, List.getD_eq_getElem _ _ (by rw [hlen]; omega),
      List.getElem_append_left h2, List.getElem_take]
  · have h2 : i = min out.length (n - 1) := by omega
    rw [if_neg h1, if_pos h2]
    have h3 : (out.take (n - 1)).length = i := by simp [h2, Nat.min_comm]
    rw [List.getD_eq_getElem _ _ (by rw [hlen]; omega),
      List.getElem_append_right (by omega)]
    simp [h3]

/-- Forcing the last cell to the terminator does not disturb a terminated
prefix that ends at or before that cell. -/
theorem buf_read_set_last (b : Buf) (m k : Nat) (hm : m ≤ k) (hnul : b m = NUL) :
    (b.set k NUL).read (m + 1) = b.read (m + 1) := by
  apply List.map_congr_left
  intro i hi
  have hi2 : i < m + 1 := List.mem_range.mp hi
  by_cases h : i = k
  · have : i = m := by omega
    subst h
    rw [buf_set_same, this, hnul]
  · exact buf_set_other b k i NUL h

theorem c99_store_nul (b : Buf) (n : Nat) (out : List Char) (hn : 0 < n) :
    (c99_store b n out).1 (min out.length (n - 1)) = NUL := by
  have hn0 : n ≠ 0 := Nat.pos_iff_ne_zero.mp hn
  simp only [c99_store, if_neg hn0]
  rw [if_neg (Nat.lt_irrefl _), if_pos trivial]

/-! ## Claims on the entry points -/

/-- C1 (forced termination): for a non-null format the scanner accepts, a
non-null buffer and a capacity `n >= 1`, cell `n-1` of the buffer holds the
terminator after `usnprintf_narrow` and after `usnprintf_wide`, for every host
and on both the MSVC and the non-MSVC path; with `n = 1` the buffer holds the
empty string. -/
theorem C1_last_cell_terminated {σ : Type} (cfg : Config) (H : Host σ) (b : Buf) (n : Nat)
    (fmt : List Char) (ap : va_list) (hn : 1 ≤ n) :
    (rejects_narrow cfg fmt = false →
      (usnprintf_narrow cfg H (some b) n (some fmt) ap).terminatedAt (n - 1) ∧
      (n = 1 → ∃ b2, (usnprintf_narrow cfg H (some b) n (some fmt) ap).buf = some b2 ∧
        b2.cstr n = [])) ∧
    (rejects_wide cfg fmt = false →
      (usnprintf_wide cfg H (some b) n (some fmt) ap).terminatedAt (n - 1) ∧
      (n = 1 → ∃ b2, (usnprintf_wide cfg H (some b) n (some fmt) ap).buf = some b2 ∧
        b2.cstr n = [])) := by
  have hn0 : n ≠ 0 := by omega
  have hpos : 0 < n := hn
  have hempty : ∀ b2 : Buf, b2 0 = NUL → b2.cstr 1 = [] := by
    intro b2 h
    simp [Buf.cstr, Buf.read, List.range_succ, h]
  constructor
  · intro hacc
    have key : ∃ b1 : Buf, (usnprintf_narrow cfg H (some b) n (some fmt) ap).buf =
        some (b1.set (n - 1) NUL) := by
      cases hm : cfg.UPRINTF_MSVC
      · exact ⟨(H.vsnprintf b n fmt ap).1, by simp [usnprintf_narrow, hn0, hacc, hm, hpos]⟩
      · exact ⟨(H._vsnprintf b n fmt ap).1.set (n - 1) NUL,
          by simp [usnprintf_narrow, uprintf_safe_vsnprintf, hn0, hacc, hm, hpos]⟩
    obtain ⟨b1, hb1⟩ := key
    refine ⟨⟨_, hb1, buf_set_same _ _ _⟩, ?_⟩
    intro h1
    subst h1
    exact ⟨_, hb1, hempty _ (buf_set_same _ _ _)⟩
  · intro hacc
    have key : ∃ b1 : Buf, (usnprintf_wide cfg H (some b) n (some fmt) ap).buf =
        some (b1.set (n - 1) NUL) := by
      cases hm : cfg.UPRINTF_MSVC
      · exact ⟨(H.vswprintf b n fmt ap).1, by simp [usnprintf_wide, hn0, hacc, hm, hpos]⟩
      · exact ⟨(H._vsnwprintf b n fmt ap).1.set (n - 1) NUL,
          by simp [usnprintf_wide, uprintf_safe_vsnwprintf, hn0, hacc, hm, hpos]⟩
    obtain ⟨b1, hb1⟩ := key
    refine ⟨⟨_, hb1, buf_set_same _ _ _⟩, ?_⟩
    intro h1
    subst h1
    exact ⟨_, hb1, hempty _ (buf_set_same _ _ _)⟩

/-- Witness of C1: capacity 1, format `%s` with the argument `hello`, on the
reference host in the default configuration. -/
theorem C1_last_cell_terminated_witness :
    1 ≤ 1 ∧ rejects_narrow defaultConfig "%s".toList = false ∧
    (usnprintf_narrow defaultConfig refHost (some xBuf) 1 (some "%s".toList)
      [Arg.str "hello".toList]).terminatedAt (1 - 1) :=
  ⟨Nat.le_refl 1, by decide,
    ((C1_last_cell_terminated defaultConfig refHost xBuf 1 "%s".toList
      [Arg.str "hello".toList] (Nat.le_refl 1)).1 (by decide)).1⟩

/-- C2 (missing argument): every entry point returns `-1`, invokes no host
primitive and leaves the output state or the destination untouched when a
required argument is missing: `uprintf` with a null format; `ufprintf` with a
null format or a null stream; `usnprintf` with a null format, a null buffer or
capacity 0; `usprintf` with a null format or a null buffer. -/
theorem C2_missing_argument_rejected {σ : Type} (cfg : Config) (H : Host σ)
    (stream : Option FILE) (buf : Option Buf) (n : Nat) (fmt : Option (List Char))
    (ap : va_list) (w : σ) :
    (uprintf_narrow cfg H none ap w).rejected w ∧
    (uprintf_wide cfg H none ap w).rejected w ∧
    (fmt = none ∨ stream = none →
      (ufprintf_narrow cfg H stream fmt ap w).rejected w ∧
      (ufprintf_wide cfg H stream fmt ap w).rejected w) ∧
    (fmt = none ∨ buf = none ∨ n = 0 →
      (usnprintf_narrow cfg H buf n fmt ap).rejected buf ∧
      (usnprintf_wide cfg H buf n fmt ap).rejected buf) ∧
    (fmt = none ∨ buf = none →
      (usprintf_narrow cfg H buf fmt ap).rejected buf ∧
      (usprintf_wide cfg H buf fmt ap).rejected buf) := by
  refine ⟨⟨rfl, rfl, rfl⟩, ⟨rfl, rfl, rfl⟩, ?_, ?_, ?_⟩
  · intro h
    cases fmt with
    | none => exact ⟨⟨rfl, rfl, rfl⟩, ⟨rfl, rfl, rfl⟩⟩
    | some f =>
      cases stream with
      | none => exact ⟨⟨rfl, rfl, rfl⟩, ⟨rfl, rfl, rfl⟩⟩
      | some st => simp at h
  · intro h
    cases fmt with
    | none => exact ⟨⟨rfl, rfl, rfl⟩, ⟨rfl, rfl, rfl⟩⟩
    | some f =>
      cases buf with
      | none => exact ⟨⟨rfl, rfl, rfl⟩, ⟨rfl, rfl, rfl⟩⟩
      | some b =>
        have hn : n = 0 := by simpa using h
        subst hn
        exact ⟨⟨rfl, rfl, rfl⟩, ⟨rfl, rfl, rfl⟩⟩
  · intro h
    cases fmt with
    | none => exact ⟨⟨rfl, rfl, rfl⟩, ⟨rfl, rfl, rfl⟩⟩
    | some f =>
      cases buf with
      | none => exact ⟨⟨rfl, rfl, rfl⟩, ⟨rfl, rfl, rfl⟩⟩
      | some b => simp at h

/-- Witness of C2: `usnprintf_narrow(nbuf, 0, "hello")` and
`ufprintf_narrow(NULL, "hello")` on the reference host. -/
theorem C2_missing_argument_rejected_witness :
    (usnprintf_narrow defaultConfig refHost (some xBuf) 0 (some "hello".toList) []).rejected
      (some xBuf) ∧
    (ufprintf_narrow defaultConfig refHost none (some "hello".toList) []
      (fun _ => [])).rejected (fun _ => []) :=
  ⟨((C2_missing_argument_rejected defaultConfig refHost none (some xBuf) 0
      (some "hello".toList) [] (fun _ => [])).2.2.2.1 (Or.inr (Or.inr rfl))).1,
   ((C2_missing_argument_rejected defaultConfig refHost none (some xBuf) 0
      (some "hello".toList) [] (fun _ => [])).2.2.1 (Or.inr rfl)).1⟩

theorem rejects_narrow_of {cfg : Config} {fmt : List Char}
    (hcfg : cfg.UPRINTF_ENABLE_N = false)
    (h : uprintf_has_percent_n_narrow (some fmt) = 1) : rejects_narrow cfg fmt = true := by
  simp [rejects_narrow, hcfg, h]

theorem rejects_wide_of {cfg : Config} {fmt : List Char}
    (hcfg : cfg.UPRINTF_ENABLE_N = false)
    (h : uprintf_has_percent_n_wide (some fmt) = 1) : rejects_wide cfg fmt = true := by
  simp [rejects_wide, hcfg, h]

/-- C3 (unsafe directive rejected): with `UPRINTF_ENABLE_N` not defined, on a
format for which the scanner reports an unsafe directive, each of the eight
entry points returns `-1`, invokes no host primitive, and leaves the output
state and the destination buffer exactly as they were. -/
theorem C3_percent_n_rejected {σ : Type} (cfg : Config) (H : Host σ)
    (stream : Option FILE) (buf : Option Buf) (n : Nat) (fmt : List Char)
    (ap : va_list) (w : σ) (hcfg : cfg.UPRINTF_ENABLE_N = false) :
    (uprintf_has_percent_n_narrow (some fmt) = 1 →
      (uprintf_narrow cfg H (some fmt) ap w).rejected w ∧
      (ufprintf_narrow cfg H stream (some fmt) ap w).rejected w ∧
      (usnprintf_narrow cfg H buf n (some fmt) ap).rejected buf ∧
      (usprintf_narrow cfg H buf (some fmt) ap).rejected buf) ∧
    (uprintf_has_percent_n_wide (some fmt) = 1 →
      (uprintf_wide cfg H (some fmt) ap w).rejected w ∧
      (ufprintf_wide cfg H stream (some fmt) ap w).rejected w ∧
      (usnprintf_wide cfg H buf n (some fmt) ap).rejected buf ∧
      (usprintf_wide cfg H buf (some fmt) ap).rejected buf) := by
  constructor
  · intro h
    have hr := rejects_narrow_of hcfg h
    refine ⟨?_, ?_, ?_, ?_⟩
    · simp [uprintf_narrow, hr, IoResult.rejected]
    · cases stream <;> simp [ufprintf_narrow, hr, IoResult.rejected]
    · cases buf with
      | none => exact ⟨rfl, rfl, rfl⟩
      | some b =>
        by_cases hn : n = 0
        · simp [usnprintf_narrow, hn, BufResult.rejected]
        · simp [usnprintf_narrow, hn, hr, BufResult.rejected]
    · cases buf <;> simp [usprintf_narrow, hr, BufResult.rejected]
  · intro h
    have hr := rejects_wide_of hcfg h
    refine ⟨?_, ?_, ?_, ?_⟩
    · simp [uprintf_wide, hr, IoResult.rejected]
    · cases stream <;> simp [ufprintf_wide, hr, IoResult.rejected]
    · cases buf with
      | none => exact ⟨rfl, rfl, rfl⟩
      | some b =>
        by_cases hn : n = 0
        · simp [usnprintf_wide, hn, BufResult.rejected]
        · simp [usnprintf_wide, hn, hr, BufResult.rejected]
    · cases buf <;> simp [usprintf_wide, hr, BufResult.rejected]

/-- Witness of C3: `usnprintf_narrow(buf, 256, "hello%n", ...)` and
`usnprintf_wide(buf, 256, L"hello%n", ...)` in the default configuration. -/
theorem C3_percent_n_rejected_witness :
    defaultConfig.UPRINTF_ENABLE_N = false ∧
    uprintf_has_percent_n_narrow (some "hello%n".toList) = 1 ∧
    uprintf_has_percent_n_wide (some "hello%n".toList) = 1 ∧
    (usnprintf_narrow defaultConfig refHost (some xBuf) 256 (some "hello%n".toList)
      [Arg.ptr none]).rejected (some xBuf) ∧
    (usnprintf_wide defaultConfig refHost (some xBuf) 256 (some "hello%n".toList)
      [Arg.ptr none]).rejected (some xBuf) :=
  ⟨rfl, by decide, by decide,
   ((C3_percent_n_rejected defaultConfig refHost (some stdout) (some xBuf) 256
      "hello%n".toList [Arg.ptr none] (fun _ => []) rfl).1 (by decide)).2.2.1,
   ((C3_percent_n_rejected defaultConfig refHost (some stdout) (some xBuf) 256
      "hello%n".toList [Arg.ptr none] (fun _ => []) rfl).2 (by decide)).2.2.1⟩

/-- C9 (C99 host): on the non-MSVC path, with a host `vsnprintf` that stores
the first `min(len, n-1)` characters of the rendering followed by a terminator
and returns `len`, an accepted call of `usnprintf_narrow` leaves exactly that
truncated, terminated prefix in the buffer and returns `len`; the return value
is `>= n` exactly when fewer characters were stored than the rendering has. -/
theorem C9_c99_truncation {σ : Type} (cfg : Config) (H : Host σ)
    (rendering : List Char → va_list → List Char) (b : Buf) (n : Nat)
    (fmt : List Char) (ap : va_list)
    (hmsvc : cfg.UPRINTF_MSVC = false)
    (hhost : ∀ b n f ap, H.vsnprintf b n f ap = c99_store b n (rendering f ap))
    (hn : 1 ≤ n) (hacc : rejects_narrow cfg fmt = false) :
    ∃ b2, (usnprintf_narrow cfg H (some b) n (some fmt) ap).buf = some b2 ∧
      b2.read (min (rendering fmt ap).length (n - 1) + 1) =
        (rendering fmt ap).take (n - 1) ++ [NUL] ∧
      (usnprintf_narrow cfg H (some b) n (some fmt) ap).ret = (rendering fmt ap).length ∧
      ((n : Int) ≤ (usnprintf_narrow cfg H (some b) n (some fmt) ap).ret ↔
        ((rendering fmt ap).take (n - 1)).length < (rendering fmt ap).length) := by
  have hn0 : n ≠ 0 := by omega
  have hpos : 0 < n := hn
  have hbuf : (usnprintf_narrow cfg H (some b) n (some fmt) ap).buf =
      some ((c99_store b n (rendering fmt ap)).1.set (n - 1) NUL) := by
    simp [usnprintf_narrow, hn0, hacc, hmsvc, hpos, hhost]
  have hret : (usnprintf_narrow cfg H (some b) n (some fmt) ap).ret =
      (rendering fmt ap).length := by
    simp [usnprintf_narrow, hn0, hacc, hmsvc, hhost, c99_store]
  refine ⟨_, hbuf, ?_, hret, ?_⟩
  · rw [buf_read_set_last _ _ _ (Nat.min_le_right _ _) (c99_store_nul b n _ hpos)]
    exact c99_store_read b n _ hpos
  · rw [hret, List.length_take]
    omega

/-- Witness of C9: capacity 5 with `%s` and `hello world` on the reference
host leaves `hell` and returns 11; `%d` with 12345 and capacity 256 returns 5. -/
theorem C9_c99_truncation_witness :
    (∃ b2, (usnprintf_narrow defaultConfig refHost (some xBuf) 5 (some "%s".toList)
        [Arg.str "hello world".toList]).buf = some b2 ∧
      b2.read (min (render "%s".toList [Arg.str "hello world".toList]).length (5 - 1) + 1) =
        (render "%s".toList [Arg.str "hello world".toList]).take (5 - 1) ++ [NUL] ∧
      (usnprintf_narrow defaultConfig refHost (some xBuf) 5 (some "%s".toList)
        [Arg.str "hello world".toList]).ret =
        (render "%s".toList [Arg.str "hello world".toList]).length ∧
      (((5 : Nat) : Int) ≤ (usnprintf_narrow defaultConfig refHost (some xBuf) 5
          (some "%s".toList) [Arg.str "hello world".toList]).ret ↔
        ((render "%s".toList [Arg.str "hello world".toList]).take (5 - 1)).length <
          (render "%s".toList [Arg.str "hello world".toList]).length)) ∧
    (render "%s".toList [Arg.str "hello world".toList]).take (5 - 1) = "hell".toList ∧
    (render "%s".toList [Arg.str "hello world".toList]).length = 11 ∧
    (usnprintf_narrow defaultConfig refHost (some xBuf) 256 (some "%d".toList)
      [Arg.int 12345]).ret = 5 :=
  ⟨C9_c99_truncation defaultConfig refHost render xBuf 5 "%s".toList
      [Arg.str "hello world".toList] rfl (fun _ _ _ _ => rfl) (by decide) (by decide),
    by decide, by decide, by decide⟩

/-! ## Claims on the RGB emitter -/

theorem uc__clamp_range (v : Int) : 0 ≤ uc__clamp v ∧ uc__clamp v ≤ 255 := by
  unfold uc__clamp
  split
  · omega
  · split <;> omega

set_option maxRecDepth 100000 in
theorem toDigits_length_le : ∀ n, n < 256 → (Nat.toDigits 10 n).length ≤ 3 := by
  decide

theorem render_d_length (v : Int) (h0 : 0 ≤ v) (h1 : v ≤ 255) : (render_d v).length ≤ 3 := by
  unfold render_d
  rw [if_neg (by omega)]
  exact toDigits_length_le v.toNat (by omega)

theorem dec_eq_render_d (v : Int) (hv : 0 ≤ v) : dec v = render_d v := by
  unfold dec render_d
  rw [if_neg (by omega)]
  rfl

theorem render_fg (x y z : Int) :
    render (ESC :: "[38;2;%d;%d;%dm".toList) [Arg.int x, Arg.int y, Arg.int z] =
      ESC :: '[' :: '3' :: '8' :: ';' :: '2' :: ';' ::
        (render_d x ++ ';' :: (render_d y ++ ';' :: (render_d z ++ ['m']))) := by
  rfl

theorem render_bg (x y z : Int) :
    render (ESC :: "[48;2;%d;%d;%dm".toList) [Arg.int x, Arg.int y, Arg.int z] =
      ESC :: '[' :: '4' :: '8' :: ';' :: '2' :: ';' ::
        (render_d x ++ ';' :: (render_d y ++ ';' :: (render_d z ++ ['m']))) := by
  rfl

theorem escSeq_fg (x y z : Int) (hx : 0 ≤ x) (hy : 0 ≤ y) (hz : 0 ≤ z) :
    escSeq "38" x y z =
      ESC :: '[' :: '3' :: '8' :: ';' :: '2' :: ';' ::
        (render_d x ++ ';' :: (render_d y ++ ';' :: (render_d z ++ ['m']))) := by
  unfold escSeq
  rw [dec_eq_render_d x hx, dec_eq_render_d y hy, dec_eq_render_d z hz]
  simp

theorem escSeq_bg (x y z : Int) (hx : 0 ≤ x) (hy : 0 ≤ y) (hz : 0 ≤ z) :
    escSeq "48" x y z =
      ESC :: '[' :: '4' :: '8' :: ';' :: '2' :: ';' ::
        (render_d x ++ ';' :: (render_d y ++ ';' :: (render_d z ++ ['m']))) := by
  unfold escSeq
  rw [dec_eq_render_d x hx, dec_eq_render_d y hy, dec_eq_render_d z hz]
  simp

theorem seq_length_lt (sel1 sel2 : Char) (x y z : Int)
    (hx : 0 ≤ x ∧ x ≤ 255) (hy : 0 ≤ y ∧ y ≤ 255) (hz : 0 ≤ z ∧ z ≤ 255) :
    (ESC :: '[' :: sel1 :: sel2 :: ';' :: '2' :: ';' ::
      (render_d x ++ ';' :: (render_d y ++ ';' :: (render_d z ++ ['m'])))).length
        < UC_SEQ_MAX := by
  have h1 := render_d_length x hx.1 hx.2
  have h2 := render_d_length y hy.1 hy.2
  have h3 := render_d_length z hz.1 hz.2
  simp only [List.length_cons, List.length_append, List.length_nil, UC_SEQ_MAX]
  omega

/-- A rendering shorter than the capacity is stored whole, terminated, and
nothing behind the terminator is touched. -/
theorem c99_store_fits (buf : Buf) (n : Nat) (out : List Char) (h : out.length < n) :
    (c99_store buf n out).1.read (out.length + 1) = out ++ [NUL] ∧
    ∀ i, out.length < i → (c99_store buf n out).1 i = buf i := by
  have hpos : 0 < n := by omega
  have hmin : min out.length (n - 1) = out.length := Nat.min_eq_left (by omega)
  constructor
  · have := c99_store_read buf n out hpos
    rw [hmin, List.take_of_length_le (by omega)] at this
    exact this
  · intro i hi
    have hn0 : n ≠ 0 := by omega
    simp only [c99_store, if_neg hn0, hmin]
    rw [if_neg (by omega), if_neg (by omega)]

theorem takeWhile_terminated (S rest : List Char) (hS : ∀ c ∈ S, c ≠ NUL) :
    (S ++ [NUL] ++ rest).takeWhile (fun c => decide (c ≠ NUL)) = S := by
  induction S with
  | nil => simp [List.takeWhile]
  | cons c S ih =>
    have hc : c ≠ NUL := hS c (List.mem_cons_self _ _)
    have ih2 := ih (fun d hd => hS d (List.mem_cons_of_mem _ hd))
    rw [List.cons_append, List.cons_append, List.takeWhile_cons, ih2]
    simp [hc]

/-- A buffer whose first cells are a terminator-free text followed by the
terminator holds that text as its C string. -/
theorem cstr_of_read (b : Buf) (S : List Char) (cap : Nat) (hS : ∀ c ∈ S, c ≠ NUL)
    (hcap : S.length < cap) (hread : b.read (S.length + 1) = S ++ [NUL]) :
    b.cstr cap = S := by
  obtain ⟨k, rfl⟩ := Nat.exists_eq_add_of_le (Nat.succ_le_of_lt hcap)
  have hsplit : b.read (S.length + 1 + k) =
      b.read (S.length + 1) ++ ((List.range k).map (fun i => S.length + 1 + i)).map b := by
    unfold Buf.read
    rw [List.range_add, List.map_append]
  unfold Buf.cstr
  rw [hsplit, hread]
  exact takeWhile_terminated S _ hS

set_option maxRecDepth 100000 in
theorem toDigits_no_nul : ∀ n, n < 256 → ∀ c ∈ Nat.toDigits 10 n, c ≠ NUL := by
  decide

theorem render_d_no_nul (v : Int) (h0 : 0 ≤ v) (h1 : v ≤ 255) :
    ∀ c ∈ render_d v, c ≠ NUL := by
  unfold render_d
  rw [if_neg (by omega)]
  exact toDigits_no_nul v.toNat (by omega)

theorem seq_no_nul (sel1 sel2 : Char) (x y z : Int) (h1 : sel1 ≠ NUL) (h2 : sel2 ≠ NUL)
    (hx : 0 ≤ x ∧ x ≤ 255) (hy : 0 ≤ y ∧ y ≤ 255) (hz : 0 ≤ z ∧ z ≤ 255) :
    ∀ c ∈ (ESC :: '[' :: sel1 :: sel2 :: ';' :: '2' :: ';' ::
      (render_d x ++ ';' :: (render_d y ++ ';' :: (render_d z ++ ['m'])))), c ≠ NUL := by
  intro c hc
  simp only [List.mem_cons, List.mem_append, List.mem_singleton, List.mem_nil_iff,
    or_false] at hc
  have e1 : ESC ≠ NUL := by decide
  have e2 : '[' ≠ NUL := by decide
  have e3 : ';' ≠ NUL := by decide
  have e4 : '2' ≠ NUL := by decide
  have e5 : 'm' ≠ NUL := by decide
  rcases hc with rfl | rfl | rfl | rfl | rfl | rfl | rfl | h | rfl | h | rfl | h | rfl
  · exact e1
  · exact e2
  · exact h1
  · exact h2
  · exact e3
  · exact e4
  · exact e3
  · exact render_d_no_nul x hx.1 hx.2 c h
  · exact e3
  · exact render_d_no_nul y hy.1 hy.2 c h
  · exact e3
  · exact render_d_no_nul z hz.1 hz.2 c h
  · exact e5

/-- C10 (RGB escape sequence): for all integers `r`, `g`, `b` the buffer
written by `uc_fg_rgb` holds exactly `ESC [38;2; R ; G ; B m` and a
terminator, where `R`, `G`, `B` are the decimal renderings of the channels
saturated to `[0,255]`, and no cell behind the terminator is touched;
`uc_bg_rgb` does the same with `48` for `38`; `(300,-10,128)` gives
`ESC[38;2;255;0;128m`. -/
theorem C10_rgb_escape (buf : Buf) (r g b : Int) :
    ((uc_fg_rgb buf r g b).cstr UC_SEQ_MAX =
        escSeq "38" (uc__clamp r) (uc__clamp g) (uc__clamp b) ∧
     (uc_fg_rgb buf r g b).read
        ((escSeq "38" (uc__clamp r) (uc__clamp g) (uc__clamp b)).length + 1) =
      escSeq "38" (uc__clamp r) (uc__clamp g) (uc__clamp b) ++ [NUL] ∧
     ∀ i, (escSeq "38" (uc__clamp r) (uc__clamp g) (uc__clamp b)).length < i →
       uc_fg_rgb buf r g b i = buf i) ∧
    ((uc_bg_rgb buf r g b).cstr UC_SEQ_MAX =
        escSeq "48" (uc__clamp r) (uc__clamp g) (uc__clamp b) ∧
     (uc_bg_rgb buf r g b).read
        ((escSeq "48" (uc__clamp r) (uc__clamp g) (uc__clamp b)).length + 1) =
      escSeq "48" (uc__clamp r) (uc__clamp g) (uc__clamp b) ++ [NUL] ∧
     ∀ i, (escSeq "48" (uc__clamp r) (uc__clamp g) (uc__clamp b)).length < i →
       uc_bg_rgb buf r g b i = buf i) ∧
    escSeq "38" (uc__clamp 300) (uc__clamp (-10)) (uc__clamp 128) =
      ESC :: "[38;2;255;0;128m".toList := by
  have hr := uc__clamp_range r
  have hg := uc__clamp_range g
  have hb := uc__clamp_range b
  have hfg : uc_fg_rgb buf r g b =
      (c99_store buf UC_SEQ_MAX (escSeq "38" (uc__clamp r) (uc__clamp g) (uc__clamp b))).1 := by
    unfold uc_fg_rgb c99_vsnprintf
    rw [render_fg, escSeq_fg _ _ _ hr.1 hg.1 hb.1]
  have hbg : uc_bg_rgb buf r g b =
      (c99_store buf UC_SEQ_MAX (escSeq "48" (uc__clamp r) (uc__clamp g) (uc__clamp b))).1 := by
    unfold uc_bg_rgb c99_vsnprintf
    rw [render_bg, escSeq_bg _ _ _ hr.1 hg.1 hb.1]
  have lfg : (escSeq "38" (uc__clamp r) (uc__clamp g) (uc__clamp b)).length < UC_SEQ_MAX := by
    rw [escSeq_fg _ _ _ hr.1 hg.1 hb.1]
    exact seq_length_lt '3' '8' _ _ _ hr hg hb
  have lbg : (escSeq "48" (uc__clamp r) (uc__clamp g) (uc__clamp b)).length < UC_SEQ_MAX := by
    rw [escSeq_bg _ _ _ hr.1 hg.1 hb.1]
    exact seq_length_lt '4' '8' _ _ _ hr hg hb
  have nfg : ∀ c ∈ escSeq "38" (uc__clamp r) (uc__clamp g) (uc__clamp b), c ≠ NUL := by
    rw [escSeq_fg _ _ _ hr.1 hg.1 hb.1]
    exact seq_no_nul '3' '8' _ _ _ (by decide) (by decide) hr hg hb
  have nbg : ∀ c ∈ escSeq "48" (uc__clamp r) (uc__clamp g) (uc__clamp b), c ≠ NUL := by
    rw [escSeq_bg _ _ _ hr.1 hg.1 hb.1]
    exact seq_no_nul '4' '8' _ _ _ (by decide) (by decide) hr hg hb
  have sfg := c99_store_fits buf _ _ lfg
  have sbg := c99_store_fits buf _ _ lbg
  rw [← hfg] at sfg
  rw [← hbg] at sbg
  exact ⟨⟨cstr_of_read _ _ _ nfg lfg sfg.1, sfg.1, sfg.2⟩,
    ⟨cstr_of_read _ _ _ nbg lbg sbg.1, sbg.1, sbg.2⟩, by decide⟩

/-- Witness of C10: the clamped triple `(300,-10,128)` written into a buffer
of `X` characters, read back as a C string. -/
theorem C10_rgb_escape_witness :
    (uc_fg_rgb xBuf 300 (-10) 128).cstr UC_SEQ_MAX = ESC :: "[38;2;255;0;128m".toList ∧
    (uc_bg_rgb xBuf 255 255 255).cstr UC_SEQ_MAX = ESC :: "[48;2;255;255;255m".toList :=
  ⟨(C10_rgb_escape xBuf 300 (-10) 128).1.1.trans (C10_rgb_escape xBuf 300 (-10) 128).2.2,
   (C10_rgb_escape xBuf 255 255 255).2.1.1.trans (by decide)⟩

/-! ## Claims on the length of the emitted sequence and on the wide emitters -/

theorem render_fg_escSeq (r g b : Int) :
    render fgFormat (rgbArgs r g b) = escSeq "38" (uc__clamp r) (uc__clamp g) (uc__clamp b) := by
  unfold fgFormat rgbArgs
  rw [render_fg, escSeq_fg _ _ _ (uc__clamp_range r).1 (uc__clamp_range g).1
    (uc__clamp_range b).1]

theorem render_bg_escSeq (r g b : Int) :
    render bgFormat (rgbArgs r g b) = escSeq "48" (uc__clamp r) (uc__clamp g) (uc__clamp b) := by
  unfold bgFormat rgbArgs
  rw [render_bg, escSeq_bg _ _ _ (uc__clamp_range r).1 (uc__clamp_range g).1
    (uc__clamp_range b).1]

theorem render_fg_props (r g b : Int) :
    (render fgFormat (rgbArgs r g b)).length < UC_SEQ_MAX ∧
    ∀ c ∈ render fgFormat (rgbArgs r g b), c ≠ NUL := by
  unfold fgFormat rgbArgs
  rw [render_fg]
  exact ⟨seq_length_lt '3' '8' _ _ _ (uc__clamp_range r) (uc__clamp_range g) (uc__clamp_range b),
    seq_no_nul '3' '8' _ _ _ (by decide) (by decide) (uc__clamp_range r) (uc__clamp_range g)
      (uc__clamp_range b)⟩

theorem render_bg_props (r g b : Int) :
    (render bgFormat (rgbArgs r g b)).length < UC_SEQ_MAX ∧
    ∀ c ∈ render bgFormat (rgbArgs r g b), c ≠ NUL := by
  unfold bgFormat rgbArgs
  rw [render_bg]
  exact ⟨seq_length_lt '4' '8' _ _ _ (uc__clamp_range r) (uc__clamp_range g) (uc__clamp_range b),
    seq_no_nul '4' '8' _ _ _ (by decide) (by decide) (uc__clamp_range r) (uc__clamp_range g)
      (uc__clamp_range b)⟩

theorem uc_fg_rgb_store (buf : Buf) (r g b : Int) :
    uc_fg_rgb buf r g b = (c99_store buf UC_SEQ_MAX (render fgFormat (rgbArgs r g b))).1 := rfl

theorem uc_bg_rgb_store (buf : Buf) (r g b : Int) :
    uc_bg_rgb buf r g b = (c99_store buf UC_SEQ_MAX (render bgFormat (rgbArgs r g b))).1 := rfl

theorem uc_wfg_rgb_store (buf : Buf) (r g b : Int) :
    uc_wfg_rgb buf r g b = (c99_store buf UC_SEQ_MAX (render fgFormat (rgbArgs r g b))).1 := rfl

theorem uc_wbg_rgb_store (buf : Buf) (r g b : Int) :
    uc_wbg_rgb buf r g b = (c99_store buf UC_SEQ_MAX (render bgFormat (rgbArgs r g b))).1 := rfl

/-- A terminator-free rendering shorter than the capacity: the buffer holds it
as its C string and the terminator sits right behind it. -/
theorem c99_store_cstr (buf : Buf) (n : Nat) (out : List Char) (h : out.length < n)
    (hnul : ∀ c ∈ out, c ≠ NUL) :
    (c99_store buf n out).1.cstr n = out ∧ (c99_store buf n out).1 out.length = NUL := by
  have hfit := c99_store_fits buf n out h
  refine ⟨cstr_of_read _ _ _ hnul h hfit.1, ?_⟩
  have := c99_store_nul buf n out (by omega)
  rwa [Nat.min_eq_left (by omega)] at this

/-- C11 (the sequence fits): for all integers `r`, `g`, `b` the text each of the
four RGB emitters asks the host to render is strictly shorter than
`UC_SEQ_MAX = 28`; the buffer then holds the whole text as its C string (no
truncation) and the terminator at the index of its length, inside the buffer. -/
theorem C11_sequence_fits (buf : Buf) (r g b : Int) :
    UC_SEQ_MAX = 28 ∧
    (render fgFormat (rgbArgs r g b)).length < UC_SEQ_MAX ∧
    (render bgFormat (rgbArgs r g b)).length < UC_SEQ_MAX ∧
    ((uc_fg_rgb buf r g b).cstr UC_SEQ_MAX = render fgFormat (rgbArgs r g b) ∧
      uc_fg_rgb buf r g b (render fgFormat (rgbArgs r g b)).length = NUL) ∧
    ((uc_bg_rgb buf r g b).cstr UC_SEQ_MAX = render bgFormat (rgbArgs r g b) ∧
      uc_bg_rgb buf r g b (render bgFormat (rgbArgs r g b)).length = NUL) ∧
    ((uc_wfg_rgb buf r g b).cstr UC_SEQ_MAX = render fgFormat (rgbArgs r g b) ∧
      uc_wfg_rgb buf r g b (render fgFormat (rgbArgs r g b)).length = NUL) ∧
    ((uc_wbg_rgb buf r g b).cstr UC_SEQ_MAX = render bgFormat (rgbArgs r g b) ∧
      uc_wbg_rgb buf r g b (render bgFormat (rgbArgs r g b)).length = NUL) := by
  have hf := render_fg_props r g b
  have hb := render_bg_props r g b
  refine ⟨rfl, hf.1, hb.1, ?_, ?_, ?_, ?_⟩
  · rw [uc_fg_rgb_store]; exact c99_store_cstr buf _ _ hf.1 hf.2
  · rw [uc_bg_rgb_store]; exact c99_store_cstr buf _ _ hb.1 hb.2
  · rw [uc_wfg_rgb_store]; exact c99_store_cstr buf _ _ hf.1 hf.2
  · rw [uc_wbg_rgb_store]; exact c99_store_cstr buf _ _ hb.1 hb.2

theorem render_d_length_255 : (render_d 255).length = 3 := by decide

theorem render_fg_length (r g b : Int) :
    (render fgFormat (rgbArgs r g b)).length =
      10 + (render_d (uc__clamp r)).length + (render_d (uc__clamp g)).length +
        (render_d (uc__clamp b)).length := by
  unfold fgFormat rgbArgs
  rw [render_fg]
  simp only [List.length_cons, List.length_append, List.length_nil]
  omega

theorem render_bg_length (r g b : Int) :
    (render bgFormat (rgbArgs r g b)).length =
      10 + (render_d (uc__clamp r)).length + (render_d (uc__clamp g)).length +
        (render_d (uc__clamp b)).length := by
  unfold bgFormat rgbArgs
  rw [render_bg]
  simp only [List.length_cons, List.length_append, List.length_nil]
  omega

theorem render_length_le_19 (r g b : Int) :
    (render fgFormat (rgbArgs r g b)).length ≤ 19 ∧
    (render bgFormat (rgbArgs r g b)).length ≤ 19 := by
  have h1 := render_d_length _ (uc__clamp_range r).1 (uc__clamp_range r).2
  have h2 := render_d_length _ (uc__clamp_range g).1 (uc__clamp_range g).2
  have h3 := render_d_length _ (uc__clamp_range b).1 (uc__clamp_range b).2
  rw [render_fg_length, render_bg_length]
  omega

/-- C12, counterexample: the sequence written for `(255,255,255)` is
`ESC[48;2;255;255;255m` and has 19 characters, not 20. -/
theorem C12_longest_is_19_not_20 :
    (uc_bg_rgb xBuf 255 255 255).cstr UC_SEQ_MAX = ESC :: "[48;2;255;255;255m".toList ∧
    ((uc_bg_rgb xBuf 255 255 255).cstr UC_SEQ_MAX).length = 19 ∧
    ((uc_bg_rgb xBuf 255 255 255).cstr UC_SEQ_MAX).length ≠ 20 := by
  decide

/-- C12, amended: no sequence written by one of the four RGB emitters is
longer than the one for `(255,255,255)`, whose length is 19 characters, not
counting the terminator. -/
theorem C12_longest_sequence (buf : Buf) (r g b : Int) :
    (((uc_fg_rgb buf r g b).cstr UC_SEQ_MAX).length ≤
        ((uc_fg_rgb buf 255 255 255).cstr UC_SEQ_MAX).length ∧
      ((uc_fg_rgb buf 255 255 255).cstr UC_SEQ_MAX).length = 19) ∧
    (((uc_bg_rgb buf r g b).cstr UC_SEQ_MAX).length ≤
        ((uc_bg_rgb buf 255 255 255).cstr UC_SEQ_MAX).length ∧
      ((uc_bg_rgb buf 255 255 255).cstr UC_SEQ_MAX).length = 19) ∧
    (((uc_wfg_rgb buf r g b).cstr UC_SEQ_MAX).length ≤
        ((uc_wfg_rgb buf 255 255 255).cstr UC_SEQ_MAX).length ∧
      ((uc_wfg_rgb buf 255 255 255).cstr UC_SEQ_MAX).length = 19) ∧
    (((uc_wbg_rgb buf r g b).cstr UC_SEQ_MAX).length ≤
        ((uc_wbg_rgb buf 255 255 255).cstr UC_SEQ_MAX).length ∧
      ((uc_wbg_rgb buf 255 255 255).cstr UC_SEQ_MAX).length = 19) := by
  have hf : ∀ x y z : Int, (uc_fg_rgb buf x y z).cstr UC_SEQ_MAX =
      render fgFormat (rgbArgs x y z) := by
    intro x y z
    rw [uc_fg_rgb_store]
    exact (c99_store_cstr buf _ _ (render_fg_props x y z).1 (render_fg_props x y z).2).1
  have hb : ∀ x y z : Int, (uc_bg_rgb buf x y z).cstr UC_SEQ_MAX =
      render bgFormat (rgbArgs x y z) := by
    intro x y z
    rw [uc_bg_rgb_store]
    exact (c99_store_cstr buf _ _ (render_bg_props x y z).1 (render_bg_props x y z).2).1
  have hwf : ∀ x y z : Int, (uc_wfg_rgb buf x y z).cstr UC_SEQ_MAX =
      render fgFormat (rgbArgs x y z) := by
    intro x y z
    rw [uc_wfg_rgb_store]
    exact (c99_store_cstr buf _ _ (render_fg_props x y z).1 (render_fg_props x y z).2).1
  have hwb : ∀ x y z : Int, (uc_wbg_rgb buf x y z).cstr UC_SEQ_MAX =
      render bgFormat (rgbArgs x y z) := by
    intro x y z
    rw [uc_wbg_rgb_store]
    exact (c99_store_cstr buf _ _ (render_bg_props x y z).1 (render_bg_props x y z).2).1
  have e1 : (render fgFormat (rgbArgs 255 255 255)).length = 19 := by decide
  have e2 : (render bgFormat (rgbArgs 255 255 255)).length = 19 := by decide
  have l := render_length_le_19 r g b
  rw [hf, hf, hb, hb, hwf, hwf, hwb, hwb, e1, e2]
  exact ⟨⟨l.1, rfl⟩, ⟨l.2, rfl⟩, ⟨l.1, rfl⟩, ⟨l.2, rfl⟩⟩

theorem widen_eq (c : Char) : widen c = c := by
  unfold widen
  exact Char.ofNat_toNat c

/-- C13 (wide and narrow emitters agree): for all integers `r`, `g`, `b` the
units written by `uc_wfg_rgb` (`uc_wbg_rgb`) are, unit for unit, the bytes
written by `uc_fg_rgb` (`uc_bg_rgb`) widened to `wchar_t`, terminator included. -/
theorem C13_wide_equals_narrow (nbuf wbuf : Buf) (r g b : Int) :
    ((uc_wfg_rgb wbuf r g b).cstr UC_SEQ_MAX =
        ((uc_fg_rgb nbuf r g b).cstr UC_SEQ_MAX).map widen ∧
      (uc_wfg_rgb wbuf r g b).read (((uc_fg_rgb nbuf r g b).cstr UC_SEQ_MAX).length + 1) =
        ((uc_fg_rgb nbuf r g b).read
          (((uc_fg_rgb nbuf r g b).cstr UC_SEQ_MAX).length + 1)).map widen) ∧
    ((uc_wbg_rgb wbuf r g b).cstr UC_SEQ_MAX =
        ((uc_bg_rgb nbuf r g b).cstr UC_SEQ_MAX).map widen ∧
      (uc_wbg_rgb wbuf r g b).read (((uc_bg_rgb nbuf r g b).cstr UC_SEQ_MAX).length + 1) =
        ((uc_bg_rgb nbuf r g b).read
          (((uc_bg_rgb nbuf r g b).cstr UC_SEQ_MAX).length + 1)).map widen) := by
  have hw : ∀ l : List Char, l.map widen = l := by
    intro l
    induction l with
    | nil => rfl
    | cons c l ih => rw [List.map_cons, widen_eq, ih]
  have hf := render_fg_props r g b
  have hb := render_bg_props r g b
  simp only [hw]
  rw [uc_fg_rgb_store, uc_bg_rgb_store, uc_wfg_rgb_store, uc_wbg_rgb_store,
    (c99_store_cstr nbuf _ _ hf.1 hf.2).1, (c99_store_cstr nbuf _ _ hb.1 hb.2).1,
    (c99_store_cstr wbuf _ _ hf.1 hf.2).1, (c99_store_cstr wbuf _ _ hb.1 hb.2).1,
    (c99_store_fits nbuf _ _ hf.1).1, (c99_store_fits nbuf _ _ hb.1).1,
    (c99_store_fits wbuf _ _ hf.1).1, (c99_store_fits wbuf _ _ hb.1).1]
  exact ⟨⟨rfl, rfl⟩, ⟨rfl, rfl⟩⟩

/-- C14 (clamp): `uc__clamp v` is 0 for `v < 0`, 255 for `v > 255` and `v`
for `0 <= v <= 255`; its result lies in `[0,255]`, and `uc__clamp` is
idempotent and monotone. -/
theorem C14_clamp (v w : Int) :
    (v < 0 → uc__clamp v = 0) ∧
    (v > 255 → uc__clamp v = 255) ∧
    (0 ≤ v → v ≤ 255 → uc__clamp v = v) ∧
    (0 ≤ uc__clamp v ∧ uc__clamp v ≤ 255) ∧
    uc__clamp (uc__clamp v) = uc__clamp v ∧
    (v ≤ w → uc__clamp v ≤ uc__clamp w) := by
  unfold uc__clamp
  refine ⟨?_, ?_, ?_, ?_, ?_, ?_⟩
  · intro h; rw [if_pos h]
  · intro h; rw [if_neg (by omega), if_pos h]
  · intro h1 h2; rw [if_neg (by omega), if_neg (by omega)]
  · split
    · omega
    · split <;> omega
  · split
    · rfl
    · split
      · rfl
      · rfl
  · intro h
    split <;> split <;> try split
    all_goals (try split)
    all_goals omega

/-! ## Claims on hex colours -/

theorem hexChar_spec : ∀ u : Bool, ∀ d, d < 16 →
    uc__hex_digit (hexChar u d) = (d : Int) ∧ hexChar u d ≠ NUL ∧ hexChar u d ≠ '#' := by
  decide

theorem hex_pair_value (u1 u2 : Bool) (v : Nat) (hv : v ≤ 255) :
    uc__hex_digit (hexChar u1 (v / 16)) * 16 + uc__hex_digit (hexChar u2 (v % 16)) =
      (v : Int) := by
  rw [(hexChar_spec u1 (v / 16) (by omega)).1, (hexChar_spec u2 (v % 16) (by omega)).1]
  omega

theorem strlen_six (c0 c1 c2 c3 c4 c5 : Char) (h0 : c0 ≠ NUL) (h1 : c1 ≠ NUL)
    (h2 : c2 ≠ NUL) (h3 : c3 ≠ NUL) (h4 : c4 ≠ NUL) (h5 : c5 ≠ NUL) :
    strlen [c0, c1, c2, c3, c4, c5] = 6 := by
  simp [strlen, h0, h1, h2, h3, h4, h5]

/-- C15 (hex round trip): for all `r`, `g`, `b` in `[0,255]`, parsing the
six-digit hexadecimal rendering of `(r,g,b)`, each digit in lower or upper
case, with or without a leading `#`, yields exactly `(r,g,b)`. -/
theorem C15_hex_round_trip (up : Nat → Bool) (hash : Bool) (r g b : Nat)
    (hr : r ≤ 255) (hg : g ≤ 255) (hb : b ≤ 255) :
    uc__parse_hex (some (hexRender up hash r g b)) = ((r : Int), (g : Int), (b : Int)) := by
  have n0 := (hexChar_spec (up 0) (r / 16) (by omega)).2
  have n1 := (hexChar_spec (up 1) (r % 16) (by omega)).2
  have n2 := (hexChar_spec (up 2) (g / 16) (by omega)).2
  have n3 := (hexChar_spec (up 3) (g % 16) (by omega)).2
  have n4 := (hexChar_spec (up 4) (b / 16) (by omega)).2
  have n5 := (hexChar_spec (up 5) (b % 16) (by omega)).2
  have hlen := strlen_six _ _ _ _ _ _ n0.1 n1.1 n2.1 n3.1 n4.1 n5.1
  have hbody : (if peek (hexRender up hash r g b) = '#' then (hexRender up hash r g b).tail
      else hexRender up hash r g b) =
      [hexChar (up 0) (r / 16), hexChar (up 1) (r % 16), hexChar (up 2) (g / 16),
       hexChar (up 3) (g % 16), hexChar (up 4) (b / 16), hexChar (up 5) (b % 16)] := by
    cases hash
    · simp only [hexRender, Bool.false_eq_true, if_false, List.nil_append, peek_cons]
      rw [if_neg n0.2]
    · simp only [hexRender, if_true, List.singleton_append, peek_cons, List.tail_cons]
  simp only [uc__parse_hex]
  rw [hbody, hlen, if_neg (by omega)]
  simp only [List.getD_cons_zero, List.getD_cons_succ]
  rw [hex_pair_value _ _ r hr, hex_pair_value _ _ g hg, hex_pair_value _ _ b hb]

/-- Witness of C15: tomato `(255,99,71)` rendered as `#FF6347` and as `ff6347`. -/
theorem C15_hex_round_trip_witness :
    hexRender (fun _ => true) true 255 99 71 = "#FF6347".toList ∧
    hexRender (fun _ => false) false 255 99 71 = "ff6347".toList ∧
    uc__parse_hex (some (hexRender (fun _ => true) true 255 99 71)) = (255, 99, 71) ∧
    uc__parse_hex (some (hexRender (fun _ => false) false 255 99 71)) = (255, 99, 71) :=
  ⟨by decide, by decide,
   C15_hex_round_trip (fun _ => true) true 255 99 71 (by decide) (by decide) (by decide),
   C15_hex_round_trip (fun _ => false) false 255 99 71 (by decide) (by decide) (by decide)⟩

theorem fg_black_cstr (buf : Buf) :
    (uc_fg_rgb buf 0 0 0).cstr UC_SEQ_MAX = ESC :: "[38;2;0;0;0m".toList := by
  have e : render fgFormat (rgbArgs 0 0 0) = ESC :: "[38;2;0;0;0m".toList := by decide
  rw [uc_fg_rgb_store, e]
  exact (c99_store_cstr buf _ _ (by decide) (by decide)).1

/-- C16 (null and short hex strings are black): for the null pointer and for
every string with fewer than six characters behind the optional leading `#`,
`uc__parse_hex` yields `(0,0,0)` and `uc_fg_hex` writes `ESC[38;2;0;0;0m`. -/
theorem C16_short_hex_black (buf : Buf) (s : List Char) (hs : strlen (hexBody s) < 6) :
    uc__parse_hex none = (0, 0, 0) ∧
    uc__parse_hex (some s) = (0, 0, 0) ∧
    (uc_fg_hex buf none).cstr UC_SEQ_MAX = ESC :: "[38;2;0;0;0m".toList ∧
    (uc_fg_hex buf (some s)).cstr UC_SEQ_MAX = ESC :: "[38;2;0;0;0m".toList := by
  have h1 : uc__parse_hex none = (0, 0, 0) := rfl
  have h2 : uc__parse_hex (some s) = (0, 0, 0) := by
    unfold hexBody at hs
    simp only [uc__parse_hex]
    rw [if_pos hs]
  refine ⟨h1, h2, ?_, ?_⟩
  · unfold uc_fg_hex
    rw [h1]
    exact fg_black_cstr buf
  · unfold uc_fg_hex
    rw [h2]
    exact fg_black_cstr buf

/-- Witness of C16: the too short `#fff` of the test-suite. -/
theorem C16_short_hex_black_witness :
    strlen (hexBody "#fff".toList) < 6 ∧
    uc__parse_hex (some "#fff".toList) = (0, 0, 0) ∧
    (uc_fg_hex xBuf (some "#fff".toList)).cstr UC_SEQ_MAX = ESC :: "[38;2;0;0;0m".toList :=
  ⟨by decide, (C16_short_hex_black xBuf "#fff".toList (by decide)).2.1,
    (C16_short_hex_black xBuf "#fff".toList (by decide)).2.2.2⟩

/-- C17, counterexample: `ffzz00` has six characters, its third and fourth
are not hexadecimal digits, and `uc__parse_hex` yields `(255,0,0)`, not black. -/
theorem C17_malformed_hex_not_black :
    6 ≤ strlen (hexBody "ffzz00".toList) ∧
    ¬ isHexDigit ((hexBody "ffzz00".toList).getD 2 NUL) ∧
    uc__parse_hex (some "ffzz00".toList) = (255, 0, 0) ∧
    uc__parse_hex (some "ffzz00".toList) ≠ (0, 0, 0) := by
  decide

theorem hex_digit_of_not_hex (c : Char) (h : ¬ isHexDigit c) : uc__hex_digit c = 0 := by
  unfold uc__hex_digit
  rw [if_neg (fun h1 => h (Or.inl h1)), if_neg (fun h1 => h (Or.inr (Or.inl h1))),
    if_neg (fun h1 => h (Or.inr (Or.inr h1)))]

/-- C17, amended: in a string of at least six characters (behind the optional
leading `#`) a character that is not a hexadecimal digit is read as the digit
0; a channel whose two characters are both not hexadecimal digits is 0, and
`uc__parse_hex` yields `(0,0,0)` when none of the first six characters is a
hexadecimal digit. -/
theorem C17_non_hex_reads_as_zero (s : List Char) (h6 : 6 ≤ strlen (hexBody s)) :
    (∀ c, ¬ isHexDigit c → uc__hex_digit c = 0) ∧
    (¬ isHexDigit ((hexBody s).getD 0 NUL) → ¬ isHexDigit ((hexBody s).getD 1 NUL) →
      (uc__parse_hex (some s)).1 = 0) ∧
    (¬ isHexDigit ((hexBody s).getD 2 NUL) → ¬ isHexDigit ((hexBody s).getD 3 NUL) →
      (uc__parse_hex (some s)).2.1 = 0) ∧
    (¬ isHexDigit ((hexBody s).getD 4 NUL) → ¬ isHexDigit ((hexBody s).getD 5 NUL) →
      (uc__parse_hex (some s)).2.2 = 0) ∧
    ((∀ i, i < 6 → ¬ isHexDigit ((hexBody s).getD i NUL)) →
      uc__parse_hex (some s) = (0, 0, 0)) := by
  have hp : uc__parse_hex (some s) =
      (uc__hex_digit ((hexBody s).getD 0 NUL) * 16 + uc__hex_digit ((hexBody s).getD 1 NUL),
       uc__hex_digit ((hexBody s).getD 2 NUL) * 16 + uc__hex_digit ((hexBody s).getD 3 NUL),
       uc__hex_digit ((hexBody s).getD 4 NUL) * 16 + uc__hex_digit ((hexBody s).getD 5 NUL)) := by
    unfold hexBody at h6 ⊢
    simp only [uc__parse_hex]
    rw [if_neg (by omega)]
  refine ⟨hex_digit_of_not_hex, ?_, ?_, ?_, ?_⟩
  · intro a b
    rw [hp]
    simp only [hex_digit_of_not_hex _ a, hex_digit_of_not_hex _ b]
    rfl
  · intro a b
    rw [hp]
    simp only [hex_digit_of_not_hex _ a, hex_digit_of_not_hex _ b]
    rfl
  · intro a b
    rw [hp]
    simp only [hex_digit_of_not_hex _ a, hex_digit_of_not_hex _ b]
    rfl
  · intro h
    rw [hp, hex_digit_of_not_hex _ (h 0 (by omega)), hex_digit_of_not_hex _ (h 1 (by omega)),
      hex_digit_of_not_hex _ (h 2 (by omega)), hex_digit_of_not_hex _ (h 3 (by omega)),
      hex_digit_of_not_hex _ (h 4 (by omega)), hex_digit_of_not_hex _ (h 5 (by omega))]
    rfl

/-- Witness of C17 as amended: `#xyzxyz` has no hexadecimal digit and is
black; in `ffzz00` the channel `zz` is 0 and the channel `ff` keeps its value. -/
theorem C17_non_hex_reads_as_zero_witness :
    6 ≤ strlen (hexBody "#xyzxyz".toList) ∧
    uc__parse_hex (some "#xyzxyz".toList) = (0, 0, 0) ∧
    6 ≤ strlen (hexBody "ffzz00".toList) ∧
    (uc__parse_hex (some "ffzz00".toList)).2.1 = 0 ∧
    (uc__parse_hex (some "ffzz00".toList)).1 = 255 :=
  ⟨by decide, (C17_non_hex_reads_as_zero "#xyzxyz".toList (by decide)).2.2.2.2 (by decide),
   by decide,
   (C17_non_hex_reads_as_zero "ffzz00".toList (by decide)).2.2.1 (by decide) (by decide),
   by decide⟩

/-! ## Lemmas on the case-insensitive comparator -/

theorem char_eq_of_toNat {c d : Char} (h : c.toNat = d.toNat) : c = d := by
  rw [← Char.ofNat_toNat c, ← Char.ofNat_toNat d, h]

theorem toNat_eq_zero {c : Char} (h : c.toNat = 0) : c = NUL :=
  char_eq_of_toNat h

theorem ucharVal_nul : ucharVal NUL = 0 := rfl

theorem ucharVal_pos {c : Char} (h : c ≠ NUL) : 0 < ucharVal c := by
  unfold ucharVal
  have : c.toNat ≠ 0 := fun h0 => h (toNat_eq_zero h0)
  omega

theorem ucharVal_eq_zero {c : Char} (h : ucharVal c = 0) : c = NUL := by
  unfold ucharVal at h
  exact toNat_eq_zero (by omega)

theorem charVal_inj (sc : Bool) {c d : Char} (h : charVal sc c = charVal sc d) : c = d := by
  unfold charVal at h
  apply char_eq_of_toNat
  split at h <;> split at h <;> omega

theorem foldChar_eq_toLower (c : Char) : foldChar c = c.toLower := by
  unfold foldChar Char.toLower
  simp only [Char.le_def, ge_iff_le]
  rfl

set_option maxRecDepth 100000 in
theorem upper_shift_ne_nul : ∀ n, n < 91 → 65 ≤ n → Char.ofNat (n + 32) ≠ NUL := by
  decide

theorem foldChar_eq_nul (c : Char) : foldChar c = NUL ↔ c = NUL := by
  unfold foldChar
  by_cases h : 'A' ≤ c ∧ c ≤ 'Z'
  · have hb : 65 ≤ c.toNat ∧ c.toNat ≤ 90 := h
    rw [if_pos h]
    constructor
    · intro h1
      exact absurd h1 (upper_shift_ne_nul c.toNat (by omega) hb.1)
    · intro h1
      rw [h1] at hb
      exact absurd hb.1 (by decide)
  · rw [if_neg h]

theorem strcasecmp_cons_cons (sc : Bool) (ca cb : Char) (a b : List Char) :
    uc__strcasecmp sc (ca :: a) (cb :: b) =
      if ca ≠ NUL ∧ cb ≠ NUL then
        if foldChar ca ≠ foldChar cb then charVal sc (foldChar ca) - charVal sc (foldChar cb)
        else uc__strcasecmp sc a b
      else ucharVal ca - ucharVal cb := by
  rw [uc__strcasecmp]

theorem strcasecmp_nil_left (sc : Bool) (b : List Char) :
    uc__strcasecmp sc [] b = ucharVal NUL - ucharVal (peek b) := by
  cases b <;> rfl

theorem strcasecmp_nil_right (sc : Bool) (a : List Char) :
    uc__strcasecmp sc a [] = ucharVal (peek a) - ucharVal NUL := by
  cases a <;> rfl

/-- The sign of the comparison depends on the first string only through its
case folding. -/
theorem strcasecmp_congr (sc : Bool) : ∀ (a a2 b : List Char),
    a.map foldChar = a2.map foldChar →
    (uc__strcasecmp sc a b = 0 ↔ uc__strcasecmp sc a2 b = 0) ∧
    (uc__strcasecmp sc a b < 0 ↔ uc__strcasecmp sc a2 b < 0) := by
  intro a
  induction a with
  | nil =>
    intro a2 b h
    have : a2 = [] := by
      cases a2 with
      | nil => rfl
      | cons c l => simp at h
    subst this
    exact ⟨Iff.rfl, Iff.rfl⟩
  | cons ca a ih =>
    intro a2 b h
    cases a2 with
    | nil => simp at h
    | cons ca2 a2 =>
      simp only [List.map_cons, List.cons.injEq] at h
      obtain ⟨hc, ht⟩ := h
      have hnul : ca = NUL ↔ ca2 = NUL := by
        rw [← foldChar_eq_nul ca, ← foldChar_eq_nul ca2, hc]
      cases b with
      | nil =>
        rw [strcasecmp_nil_right, strcasecmp_nil_right, peek_cons, peek_cons, ucharVal_nul]
        by_cases h1 : ca = NUL
        · have h2 := hnul.mp h1
          rw [h1, h2]
          exact ⟨Iff.rfl, Iff.rfl⟩
        · have h2 : ca2 ≠ NUL := fun h => h1 (hnul.mpr h)
          have p1 := ucharVal_pos h1
          have p2 := ucharVal_pos h2
          constructor <;> constructor <;> intro <;> omega
      | cons cb b =>
        rw [strcasecmp_cons_cons, strcasecmp_cons_cons]
        by_cases h1 : ca = NUL
        · have h2 := hnul.mp h1
          rw [h1, h2]
          exact ⟨Iff.rfl, Iff.rfl⟩
        · have h2 : ca2 ≠ NUL := fun h => h1 (hnul.mpr h)
          by_cases h3 : cb = NUL
          · rw [if_neg (fun h => h.2 h3), if_neg (fun h => h.2 h3), h3, ucharVal_nul]
            have p1 := ucharVal_pos h1
            have p2 := ucharVal_pos h2
            constructor <;> constructor <;> intro <;> omega
          · rw [if_pos (show ca ≠ NUL ∧ cb ≠ NUL from ⟨h1, h3⟩),
              if_pos (show ca2 ≠ NUL ∧ cb ≠ NUL from ⟨h2, h3⟩), ← hc]
            by_cases h4 : foldChar ca = foldChar cb
            · rw [if_neg (not_not.mpr h4), if_neg (not_not.mpr h4)]
              exact ih a2 b ht
            · rw [if_pos h4, if_pos h4]
              exact ⟨Iff.rfl, Iff.rfl⟩

theorem cstrOf_nil : cstrOf [] = [] := rfl

theorem cstrOf_cons_nul (s : List Char) : cstrOf (NUL :: s) = [] := by
  simp [cstrOf]

theorem cstrOf_cons (c : Char) (s : List Char) (h : c ≠ NUL) :
    cstrOf (c :: s) = c :: cstrOf s := by
  simp [cstrOf, h]

theorem cstrOf_of_peek_nul (s : List Char) (h : peek s = NUL) : cstrOf s = [] := by
  cases s with
  | nil => rfl
  | cons c s =>
    rw [peek_cons] at h
    rw [h]
    exact cstrOf_cons_nul s

/-- A comparison result of 0 means that the two C strings are equal after
case folding. -/
theorem strcasecmp_zero (sc : Bool) : ∀ (a b : List Char),
    uc__strcasecmp sc a b = 0 → (cstrOf a).map foldChar = (cstrOf b).map foldChar := by
  intro a
  induction a with
  | nil =>
    intro b h
    rw [strcasecmp_nil_left, ucharVal_nul] at h
    have : peek b = NUL := ucharVal_eq_zero (by omega)
    rw [cstrOf_of_peek_nul b this, cstrOf_nil]
  | cons ca a ih =>
    intro b h
    cases b with
    | nil =>
      rw [strcasecmp_nil_right, peek_cons, ucharVal_nul] at h
      have : ca = NUL := ucharVal_eq_zero (by omega)
      rw [this, cstrOf_cons_nul, cstrOf_nil]
    | cons cb b =>
      rw [strcasecmp_cons_cons] at h
      by_cases h1 : ca ≠ NUL ∧ cb ≠ NUL
      · rw [if_pos h1] at h
        by_cases h4 : foldChar ca = foldChar cb
        · rw [if_neg (not_not.mpr h4)] at h
          rw [cstrOf_cons _ _ h1.1, cstrOf_cons _ _ h1.2, List.map_cons, List.map_cons, h4,
            ih b h]
        · rw [if_pos h4] at h
          exact absurd (charVal_inj sc (by omega)) h4
      · rw [if_neg h1] at h
        have he : ca = cb := by
          unfold ucharVal at h
          exact char_eq_of_toNat (by omega)
        subst he
        have hn : ca = NUL := by
          by_contra hne
          exact h1 ⟨hne, hne⟩
        rw [hn, cstrOf_cons_nul, cstrOf_cons_nul]

/-! ## Lemmas on the named-colour table and the binary search -/

set_option maxRecDepth 1000000 in
theorem css_count : UC__CSS_COLOR_COUNT = 148 := by
  decide

set_option maxRecDepth 1000000 in
theorem css_lookup_table : ∀ sc : Bool, ∀ e ∈ uc__css_colors,
    uc__css_lookup sc e.name = (0, e.r, e.g, e.b) := by
  decide

set_option maxRecDepth 1000000 in
theorem css_names_folded : ∀ e ∈ uc__css_colors,
    e.name.map foldChar = e.name ∧ (cstrOf e.name).map foldChar = e.name := by
  decide

theorem css_entry_mem (i : Int) (h0 : 0 ≤ i) (h1 : i < 148) : css_entry i ∈ uc__css_colors := by
  unfold css_entry
  have hlt : i.toNat < uc__css_colors.length := by
    have := css_count
    unfold UC__CSS_COLOR_COUNT at this
    omega
  rw [List.getD_eq_getElem _ _ hlt]
  exact List.getElem_mem _

/-- Any two amounts of fuel that cover the width of the interval give the
same result: the search never runs out of fuel. -/
theorem css_search_fuel (sc : Bool) (name : List Char) : ∀ (f g : Nat) (lo hi : Int),
    hi - lo + 1 ≤ (f : Int) → hi - lo + 1 ≤ (g : Int) →
    css_search sc name f lo hi = css_search sc name g lo hi := by
  intro f
  induction f with
  | zero =>
    intro g lo hi hf _
    cases g with
    | zero => rfl
    | succ g =>
      simp only [css_search]
      rw [if_neg (by omega)]
  | succ f ih =>
    intro g lo hi hf hg
    cases g with
    | zero =>
      simp only [css_search]
      rw [if_neg (by omega)]
    | succ g =>
      simp only [css_search]
      by_cases h : lo ≤ hi
      · rw [if_pos h, if_pos h]
        split
        · rfl
        · split
          · exact ih g _ _ (by omega) (by omega)
          · exact ih g _ _ (by omega) (by omega)
      · rw [if_neg h, if_neg h]

/-- Two names that compare alike against every string are searched alike. -/
theorem css_search_congr (sc : Bool) (s t : List Char)
    (h : ∀ b, (uc__strcasecmp sc s b = 0 ↔ uc__strcasecmp sc t b = 0) ∧
      (uc__strcasecmp sc s b < 0 ↔ uc__strcasecmp sc t b < 0)) :
    ∀ (f : Nat) (lo hi : Int), css_search sc s f lo hi = css_search sc t f lo hi := by
  intro f
  induction f with
  | zero => intro lo hi; rfl
  | succ f ih =>
    intro lo hi
    simp only [css_search]
    by_cases hle : lo ≤ hi
    · rw [if_pos hle, if_pos hle]
      have hm := h (css_entry (lo + (hi - lo) / 2)).name
      by_cases h0 : uc__strcasecmp sc s (css_entry (lo + (hi - lo) / 2)).name = 0
      · rw [if_pos h0, if_pos (hm.1.mp h0)]
      · rw [if_neg h0, if_neg (fun h1 => h0 (hm.1.mpr h1))]
        by_cases h2 : uc__strcasecmp sc s (css_entry (lo + (hi - lo) / 2)).name < 0
        · rw [if_pos h2, if_pos (hm.2.mp h2)]
          exact ih _ _
        · rw [if_neg h2, if_neg (fun h1 => h2 (hm.2.mpr h1))]
          exact ih _ _
    · rw [if_neg hle, if_neg hle]

/-- A name that compares unequal to every entry is not found. -/
theorem css_search_not_found (sc : Bool) (name : List Char)
    (h : ∀ e ∈ uc__css_colors, uc__strcasecmp sc name e.name ≠ 0) :
    ∀ (f : Nat) (lo hi : Int), 0 ≤ lo → hi < 148 →
      css_search sc name f lo hi = (-1, 0, 0, 0) := by
  intro f
  induction f with
  | zero => intro lo hi _ _; rfl
  | succ f ih =>
    intro lo hi hlo hhi
    simp only [css_search]
    by_cases hle : lo ≤ hi
    · rw [if_pos hle]
      have hmem := css_entry_mem (lo + (hi - lo) / 2) (by omega) (by omega)
      rw [if_neg (h _ hmem)]
      split
      · exact ih _ _ hlo (by omega)
      · exact ih _ _ (by omega) hhi
    · rw [if_neg hle]

theorem asciiLower_eq_map (s : List Char) : asciiLower s = s.map foldChar := by
  unfold asciiLower
  apply List.map_congr_left
  intro c _
  exact (foldChar_eq_toLower c).symm

set_option maxRecDepth 1000000 in
theorem css_lookup_examples : ∀ sc : Bool,
    uc__css_lookup sc "GOLD".toList = (0, 255, 215, 0) ∧
    uc__css_lookup sc "gold".toList = (0, 255, 215, 0) ∧
    uc__css_lookup sc "DarkSlateGray".toList = (0, 47, 79, 79) := by
  decide

set_option maxRecDepth 1000000 in
theorem css_entry_gold :
    51 < UC__CSS_COLOR_COUNT ∧
    asciiLower "GoLd".toList = (css_entry ((51 : Nat) : Int)).name ∧
    (css_entry ((51 : Nat) : Int)).name = "gold".toList ∧
    ((css_entry ((51 : Nat) : Int)).r, (css_entry ((51 : Nat) : Int)).g,
      (css_entry ((51 : Nat) : Int)).b) = (255, 215, 0) := by
  decide

set_option maxRecDepth 1000000 in
theorem css_notacolor :
    ∀ e ∈ uc__css_colors, asciiLower (cstrOf "notacolor".toList) ≠ e.name := by
  decide

set_option maxRecDepth 1000000 in
theorem css_sorted : ∀ sc : Bool, ∀ i : Nat, i < 147 →
    uc__strcasecmp sc (css_entry (i : Int)).name (css_entry ((i : Int) + 1)).name < 0 := by
  decide

set_option maxRecDepth 1000000 in
theorem css_length : uc__css_colors.length = 148 := by
  decide

/-! ## Claims on named colours -/

/-- C18 (case-insensitive lookup): for every index `i` into the table and
every string `s` that equals the `i`-th name after mapping `A`-`Z` to `a`-`z`,
`uc__css_lookup` returns 0 with the `i`-th entry's colour; `GOLD` and `gold`
give `(255,215,0)` and `DarkSlateGray` gives `(47,79,79)`. -/
theorem C18_lookup_case_insensitive (sc : Bool) (i : Nat) (s : List Char)
    (hi : i < UC__CSS_COLOR_COUNT) (hs : asciiLower s = (css_entry (i : Int)).name) :
    uc__css_lookup sc s =
      (0, (css_entry (i : Int)).r, (css_entry (i : Int)).g, (css_entry (i : Int)).b) ∧
    uc__css_lookup sc "GOLD".toList = (0, 255, 215, 0) ∧
    uc__css_lookup sc "gold".toList = (0, 255, 215, 0) ∧
    uc__css_lookup sc "DarkSlateGray".toList = (0, 47, 79, 79) := by
  refine ⟨?_, css_lookup_examples sc⟩
  have hmem : css_entry (i : Int) ∈ uc__css_colors :=
    css_entry_mem (i : Int) (by omega) (by have := css_count; omega)
  have hfold : s.map foldChar = (css_entry (i : Int)).name.map foldChar := by
    rw [(css_names_folded _ hmem).1, ← asciiLower_eq_map, hs]
  have hcongr : uc__css_lookup sc s = uc__css_lookup sc (css_entry (i : Int)).name :=
    css_search_congr sc s _ (fun b => strcasecmp_congr sc s _ b hfold) _ _ _
  rw [hcongr]
  exact css_lookup_table sc _ hmem

/-- Witness of C18: entry 51 of the table is `gold`, and `GoLd` folds to it. -/
theorem C18_lookup_case_insensitive_witness :
    51 < UC__CSS_COLOR_COUNT ∧
    asciiLower "GoLd".toList = (css_entry ((51 : Nat) : Int)).name ∧
    (css_entry ((51 : Nat) : Int)).name = "gold".toList ∧
    uc__css_lookup true "GoLd".toList =
      (0, (css_entry ((51 : Nat) : Int)).r, (css_entry ((51 : Nat) : Int)).g,
        (css_entry ((51 : Nat) : Int)).b) ∧
    ((css_entry ((51 : Nat) : Int)).r, (css_entry ((51 : Nat) : Int)).g,
      (css_entry ((51 : Nat) : Int)).b) = (255, 215, 0) :=
  ⟨css_entry_gold.1, css_entry_gold.2.1, css_entry_gold.2.2.1,
    (C18_lookup_case_insensitive true 51 "GoLd".toList css_entry_gold.1 css_entry_gold.2.1).1,
    css_entry_gold.2.2.2⟩

/-- C19 (unknown names): for every non-null name whose C string is not equal,
after ASCII case folding, to the name of any table entry, `uc__css_lookup`
returns `-1` with `(r,g,b) = (0,0,0)`, and `uc_fg_css` writes the black
sequence `ESC[38;2;0;0;0m`. -/
theorem C19_unknown_name_black (sc : Bool) (buf : Buf) (name : List Char)
    (h : ∀ e ∈ uc__css_colors, asciiLower (cstrOf name) ≠ e.name) :
    uc__css_lookup sc name = (-1, 0, 0, 0) ∧
    (uc_fg_css sc buf name).cstr UC_SEQ_MAX = ESC :: "[38;2;0;0;0m".toList := by
  have hne : ∀ e ∈ uc__css_colors, uc__strcasecmp sc name e.name ≠ 0 := by
    intro e he h0
    have := strcasecmp_zero sc name e.name h0
    rw [(css_names_folded e he).2, ← asciiLower_eq_map] at this
    exact h e he this
  have hl : uc__css_lookup sc name = (-1, 0, 0, 0) := by
    unfold uc__css_lookup
    exact css_search_not_found sc name hne _ 0 _ (Int.le_refl 0)
      (by have := css_count; omega)
  refine ⟨hl, ?_⟩
  unfold uc_fg_css
  rw [hl]
  exact fg_black_cstr buf

/-- Witness of C19: the name `notacolor` of the test-suite. -/
theorem C19_unknown_name_black_witness :
    (∀ e ∈ uc__css_colors, asciiLower (cstrOf "notacolor".toList) ≠ e.name) ∧
    uc__css_lookup true "notacolor".toList = (-1, 0, 0, 0) ∧
    (uc_fg_css true xBuf "notacolor".toList).cstr UC_SEQ_MAX =
      ESC :: "[38;2;0;0;0m".toList :=
  ⟨css_notacolor, (C19_unknown_name_black true xBuf "notacolor".toList css_notacolor).1,
    (C19_unknown_name_black true xBuf "notacolor".toList css_notacolor).2⟩

/-- C20 (table invariant): `uc__css_colors` has exactly 148 entries, and for
every adjacent pair `uc__strcasecmp(name[i], name[i+1]) < 0`, whether plain
`char` is signed or not. -/
theorem C20_table_sorted :
    uc__css_colors.length = 148 ∧ UC__CSS_COLOR_COUNT = 148 ∧
    ∀ sc : Bool, ∀ i : Nat, i + 1 < UC__CSS_COLOR_COUNT →
      uc__strcasecmp sc (css_entry (i : Int)).name (css_entry ((i : Int) + 1)).name < 0 := by
  refine ⟨css_length, css_count, ?_⟩
  intro sc i hi
  rw [css_count] at hi
  exact css_sorted sc i (by omega)

/-! ## Lemmas on exact `double` arithmetic -/

theorem to_int_of_nonneg {α : Type} [LinearOrderedField α] [FloorRing α] (x : α)
    (h : 0 ≤ x) : to_int x = Int.floor x := by
  unfold to_int
  rw [if_pos h]

theorem to_int_eq {α : Type} [LinearOrderedField α] [FloorRing α] (x : α) (n : Int)
    (h0 : 0 ≤ x) (h1 : (n : α) ≤ x) (h2 : x < (n : α) + 1) : to_int x = n := by
  rw [to_int_of_nonneg x h0]
  exact Int.floor_eq_iff.mpr ⟨h1, h2⟩

theorem fabs_eq_abs {α : Type} [LinearOrderedField α] (x : α) : fabs x = |x| := by
  unfold fabs
  split
  · rename_i h; exact (abs_of_neg h).symm
  · rename_i h; exact (abs_of_nonneg (not_lt.mp h)).symm

theorem clampf_unit {α : Type} [LinearOrderedField α] (v : α) :
    0 ≤ uc__clampf v 0 1 ∧ uc__clampf v 0 1 ≤ 1 := by
  unfold uc__clampf
  split
  · exact ⟨le_refl _, zero_le_one⟩
  · split
    · exact ⟨zero_le_one, le_refl _⟩
    · rename_i h1 h2; exact ⟨not_lt.mp h1, not_lt.mp h2⟩

/-- For a non-negative quotient, `fmod` is the divisor times the fractional
part of the quotient. -/
theorem fmod_of_nonneg {α : Type} [LinearOrderedField α] [FloorRing α] (x y : α)
    (hy : y ≠ 0) (h : 0 ≤ x / y) : fmod x y = y * Int.fract (x / y) := by
  unfold fmod
  rw [to_int_of_nonneg _ h, Int.fract]
  field_simp

theorem fmod_range {α : Type} [LinearOrderedField α] [FloorRing α] (x y : α)
    (hx : 0 ≤ x) (hy : 0 < y) : 0 ≤ fmod x y ∧ fmod x y < y := by
  rw [fmod_of_nonneg x y (ne_of_gt hy) (div_nonneg hx (le_of_lt hy))]
  constructor
  · exact mul_nonneg (le_of_lt hy) (Int.fract_nonneg _)
  · calc y * Int.fract (x / y) < y * 1 :=
          mul_lt_mul_of_pos_left (Int.fract_lt_one _) hy
      _ = y := mul_one y

/-- The normalised hue is `360` times the fractional part of `h / 360`. -/
theorem hsl_hue_eq_fract {α : Type} [LinearOrderedField α] [FloorRing α] (h : α) :
    hsl_hue h = 360 * Int.fract (h / 360) := by
  have h360 : (360 : α) ≠ 0 := by norm_num
  unfold hsl_hue
  by_cases hq : 0 ≤ h / 360
  · rw [fmod_of_nonneg h 360 h360 hq]
    have : ¬ (360 * Int.fract (h / 360) < 0) :=
      not_lt.mpr (mul_nonneg (by norm_num) (Int.fract_nonneg _))
    rw [if_neg this]
  · have hneg : h / 360 < 0 := not_le.mp hq
    have hfm : fmod h 360 = h - 360 * ((Int.ceil (h / 360) : Int) : α) := by
      unfold fmod to_int
      rw [if_neg hq]
    rw [hfm]
    by_cases hint : Int.fract (h / 360) = 0
    · have hfl : ((Int.floor (h / 360) : Int) : α) = h / 360 := by
        have := Int.self_sub_floor (h / 360)
        rw [hint] at this
        linarith
      have hce : Int.ceil (h / 360) = Int.floor (h / 360) := by
        rw [Int.ceil_eq_iff, hfl]
        constructor <;> linarith
      rw [hce, hfl, hint]
      have : h - 360 * (h / 360) = 0 := by field_simp
      rw [this]
      simp
    · have hpos : 0 < Int.fract (h / 360) :=
        lt_of_le_of_ne (Int.fract_nonneg _) (Ne.symm hint)
      have hlt1 := Int.fract_lt_one (h / 360)
      have hfr : Int.fract (h / 360) = h / 360 - ((Int.floor (h / 360) : Int) : α) := rfl
      have hce : Int.ceil (h / 360) = Int.floor (h / 360) + 1 := by
        rw [Int.ceil_eq_iff]
        push_cast
        constructor <;> linarith
      rw [hce]
      push_cast
      have hval : h - 360 * (((Int.floor (h / 360) : Int) : α) + 1) =
          360 * Int.fract (h / 360) - 360 := by
        rw [hfr]; field_simp; ring
      rw [hval, if_pos (by linarith)]
      ring

theorem hsl_hue_range {α : Type} [LinearOrderedField α] [FloorRing α] (h : α) :
    0 ≤ hsl_hue h ∧ hsl_hue h < 360 := by
  rw [hsl_hue_eq_fract]
  constructor
  · exact mul_nonneg (by norm_num) (Int.fract_nonneg _)
  · have := Int.fract_lt_one (h / 360)
    linarith

theorem hsl_hue_of_range {α : Type} [LinearOrderedField α] [FloorRing α] (h : α)
    (h0 : 0 ≤ h) (h1 : h < 360) : hsl_hue h = h := by
  rw [hsl_hue_eq_fract]
  have hfl : Int.floor (h / 360) = 0 := by
    rw [Int.floor_eq_iff]
    constructor
    · simpa using div_nonneg h0 (by norm_num : (0 : α) ≤ 360)
    · rw [div_lt_iff₀ (by norm_num : (0 : α) < 360)]
      simpa using h1
  rw [Int.fract, hfl]
  field_simp

theorem fmod_eq_sub {α : Type} [LinearOrderedField α] [FloorRing α] (x y : α) (n : Int)
    (h0 : 0 ≤ x / y) (h1 : (n : α) ≤ x / y) (h2 : x / y < (n : α) + 1) :
    fmod x y = x - y * (n : α) := by
  unfold fmod
  rw [to_int_eq _ n h0 h1 h2]

/-- A channel whose value before scaling is 1 is 255, and one whose value is 0 is 0. -/
theorem channel_of_sum {α : Type} [LinearOrderedField α] [FloorRing α] (p m : α) :
    (p + m = 1 → to_int ((p + m) * 255 + 0.5) = 255) ∧
    (p + m = 0 → to_int ((p + m) * 255 + 0.5) = 0) := by
  constructor
  · intro h
    rw [h]
    exact to_int_eq _ 255 (by norm_num) (by norm_num) (by norm_num)
  · intro h
    rw [h]
    exact to_int_eq _ 0 (by norm_num) (by norm_num) (by norm_num)

theorem hsl_chroma_full {α : Type} [LinearOrderedField α] :
    hsl_chroma (1 : α) 0.5 = 1 ∧ hsl_match (1 : α) 0.5 = 0 := by
  have h : hsl_chroma (1 : α) 0.5 = 1 := by
    norm_num [hsl_chroma, uc__clampf, fabs]
  refine ⟨h, ?_⟩
  unfold hsl_match
  rw [h]
  norm_num [uc__clampf]

theorem hsl_second_full {α : Type} [LinearOrderedField α] [FloorRing α] (h f : α)
    (h0 : 0 ≤ h) (h1 : h < 360) (hf : fmod (h / 60) 2 = f) :
    hsl_second h 1 0.5 = 1 - fabs (f - 1) := by
  unfold hsl_second
  rw [hsl_chroma_full.1, hsl_hue_of_range h h0 h1, hf, one_mul]

theorem hsl_rgb_of {α : Type} [LinearOrderedField α] [FloorRing α] (h s l : α)
    (p1 p2 p3 : α)
    (hp : hsl_primaries (hsl_hue h) (hsl_chroma s l) (hsl_second h s l) = (p1, p2, p3)) :
    uc__hsl_to_rgb h s l =
      (to_int ((p1 + hsl_match s l) * 255 + 0.5),
       to_int ((p2 + hsl_match s l) * 255 + 0.5),
       to_int ((p3 + hsl_match s l) * 255 + 0.5)) := by
  unfold uc__hsl_to_rgb
  rw [hp]

/-- Evaluation at full saturation and lightness one half: `c = 1`, `m = 0`. -/
theorem hsl_full_eval {α : Type} [LinearOrderedField α] [FloorRing α] (h f p1 p2 p3 : α)
    (h0 : 0 ≤ h) (h1 : h < 360) (hf : fmod (h / 60) 2 = f)
    (hp : hsl_primaries h 1 (1 - fabs (f - 1)) = (p1, p2, p3)) :
    uc__hsl_to_rgb h 1 0.5 =
      (to_int ((p1 + 0) * 255 + 0.5), to_int ((p2 + 0) * 255 + 0.5),
       to_int ((p3 + 0) * 255 + 0.5)) := by
  have hp2 : hsl_primaries (hsl_hue h) (hsl_chroma 1 0.5) (hsl_second h 1 0.5) =
      (p1, p2, p3) := by
    rw [hsl_second_full h f h0 h1 hf, hsl_chroma_full.1, hsl_hue_of_range h h0 h1, hp]
  rw [hsl_rgb_of _ _ _ _ _ _ hp2, hsl_chroma_full.2]

theorem hsl_fixed_colours {α : Type} [LinearOrderedField α] [FloorRing α] :
    uc__hsl_to_rgb (0 : α) 1 0.5 = (255, 0, 0) ∧
    uc__hsl_to_rgb (60 : α) 1 0.5 = (255, 255, 0) ∧
    uc__hsl_to_rgb (120 : α) 1 0.5 = (0, 255, 0) ∧
    uc__hsl_to_rgb (180 : α) 1 0.5 = (0, 255, 255) ∧
    uc__hsl_to_rgb (240 : α) 1 0.5 = (0, 0, 255) := by
  have one := (channel_of_sum (1 : α) 0).1 (by norm_num)
  have zero := (channel_of_sum (0 : α) 0).2 (by norm_num)
  have f0 : fmod ((0 : α) / 60) 2 = 0 := by
    rw [fmod_eq_sub _ _ 0 (by norm_num) (by norm_num) (by norm_num)]; norm_num
  have f1 : fmod ((60 : α) / 60) 2 = 1 := by
    rw [fmod_eq_sub _ _ 0 (by norm_num) (by norm_num) (by norm_num)]; norm_num
  have f2 : fmod ((120 : α) / 60) 2 = 0 := by
    rw [fmod_eq_sub _ _ 1 (by norm_num) (by norm_num) (by norm_num)]; norm_num
  have f3 : fmod ((180 : α) / 60) 2 = 1 := by
    rw [fmod_eq_sub _ _ 1 (by norm_num) (by norm_num) (by norm_num)]; norm_num
  have f4 : fmod ((240 : α) / 60) 2 = 0 := by
    rw [fmod_eq_sub _ _ 2 (by norm_num) (by norm_num) (by norm_num)]; norm_num
  refine ⟨?_, ?_, ?_, ?_, ?_⟩
  · rw [hsl_full_eval (0 : α) 0 1 0 0 (by norm_num) (by norm_num) f0
      (by norm_num [hsl_primaries, fabs]), one, zero]
  · rw [hsl_full_eval (60 : α) 1 1 1 0 (by norm_num) (by norm_num) f1
      (by norm_num [hsl_primaries, fabs]), one, zero]
  · rw [hsl_full_eval (120 : α) 0 0 1 0 (by norm_num) (by norm_num) f2
      (by norm_num [hsl_primaries, fabs]), one, zero]
  · rw [hsl_full_eval (180 : α) 1 0 1 1 (by norm_num) (by norm_num) f3
      (by norm_num [hsl_primaries, fabs]), one, zero]
  · rw [hsl_full_eval (240 : α) 0 0 0 1 (by norm_num) (by norm_num) f4
      (by norm_num [hsl_primaries, fabs]), one, zero]

theorem clampf_of_nonpos {α : Type} [LinearOrderedField α] (s : α) (hs : s ≤ 0) :
    uc__clampf s 0 1 = 0 := by
  unfold uc__clampf
  split
  · rfl
  · rename_i h1
    have h0 : s = 0 := le_antisymm hs (not_lt.mp h1)
    rw [if_neg (by rw [h0]; norm_num), h0]

theorem hsl_primaries_zero {α : Type} [LinearOrderedField α] (h : α) :
    hsl_primaries h 0 0 = (0, 0, 0) := by
  unfold hsl_primaries
  split_ifs <;> rfl

/-- With saturation at most 0 the three channels are the rounded lightness. -/
theorem hsl_gray {α : Type} [LinearOrderedField α] [FloorRing α] (h s l : α) (hs : s ≤ 0) :
    uc__hsl_to_rgb h s l =
      (to_int (uc__clampf l 0 1 * 255 + 0.5), to_int (uc__clampf l 0 1 * 255 + 0.5),
       to_int (uc__clampf l 0 1 * 255 + 0.5)) := by
  have hc : hsl_chroma s l = 0 := by
    unfold hsl_chroma
    rw [clampf_of_nonpos s hs, mul_zero]
  have hx : hsl_second h s l = 0 := by
    unfold hsl_second
    rw [hc, zero_mul]
  have hm : hsl_match s l = uc__clampf l 0 1 := by
    unfold hsl_match
    rw [hc, zero_div, sub_zero]
  have hp : hsl_primaries (hsl_hue h) (hsl_chroma s l) (hsl_second h s l) = (0, 0, 0) := by
    rw [hc, hx, hsl_primaries_zero]
  rw [hsl_rgb_of _ _ _ _ _ _ hp, hm, zero_add]

theorem channel_range {α : Type} [LinearOrderedField α] [FloorRing α] (v : α)
    (h0 : 0 ≤ v) (h1 : v ≤ 1) :
    0 ≤ to_int (v * 255 + 0.5) ∧ to_int (v * 255 + 0.5) ≤ 255 := by
  have ha : (0 : α) ≤ v * 255 + 0.5 := by
    have : (0:α) ≤ v * 255 := mul_nonneg h0 (by norm_num)
    have h5 : (0:α) ≤ 0.5 := by norm_num
    linarith
  rw [to_int_of_nonneg _ ha]
  constructor
  · exact Int.floor_nonneg.mpr ha
  · have hlt : Int.floor (v * 255 + 0.5) < 256 := by
      rw [Int.floor_lt]
      have h5 : (0.5:α) < 1 := by norm_num
      push_cast
      nlinarith
    omega

theorem hsl_chroma_match {α : Type} [LinearOrderedField α] (s l : α) :
    0 ≤ hsl_chroma s l ∧ 0 ≤ hsl_match s l ∧ hsl_chroma s l + hsl_match s l ≤ 1 := by
  have hl := clampf_unit l
  have hs := clampf_unit s
  have hab : |2 * uc__clampf l 0 1 - 1| ≤ 1 := by
    rw [abs_le]; constructor <;> linarith [hl.1, hl.2]
  have hab1 : 2 * uc__clampf l 0 1 - 1 ≤ |2 * uc__clampf l 0 1 - 1| := le_abs_self _
  have hab2 : -(2 * uc__clampf l 0 1 - 1) ≤ |2 * uc__clampf l 0 1 - 1| := neg_le_abs _
  have hc0 : 0 ≤ hsl_chroma s l := by
    unfold hsl_chroma
    rw [fabs_eq_abs]
    exact mul_nonneg (by linarith) hs.1
  have hc1 : hsl_chroma s l ≤ 1 - |2 * uc__clampf l 0 1 - 1| := by
    unfold hsl_chroma
    rw [fabs_eq_abs]
    calc (1 - |2 * uc__clampf l 0 1 - 1|) * uc__clampf s 0 1
        ≤ (1 - |2 * uc__clampf l 0 1 - 1|) * 1 :=
          mul_le_mul_of_nonneg_left hs.2 (by linarith)
      _ = 1 - |2 * uc__clampf l 0 1 - 1| := mul_one _
  refine ⟨hc0, ?_, ?_⟩
  · unfold hsl_match; linarith
  · unfold hsl_match; linarith

theorem hsl_second_range {α : Type} [LinearOrderedField α] [FloorRing α] (h s l : α) :
    0 ≤ hsl_second h s l ∧ hsl_second h s l ≤ hsl_chroma s l := by
  have hc := (hsl_chroma_match s l).1
  have hh := hsl_hue_range h
  have hf := fmod_range (hsl_hue h / 60) 2 (div_nonneg hh.1 (by norm_num)) (by norm_num)
  have ht : |fmod (hsl_hue h / 60) 2 - 1| ≤ 1 := by
    rw [abs_le]; constructor <;> linarith [hf.1, hf.2]
  have ht0 : 0 ≤ |fmod (hsl_hue h / 60) 2 - 1| := abs_nonneg _
  unfold hsl_second
  rw [fabs_eq_abs]
  constructor
  · exact mul_nonneg hc (by linarith)
  · calc hsl_chroma s l * (1 - |fmod (hsl_hue h / 60) 2 - 1|)
        ≤ hsl_chroma s l * 1 := mul_le_mul_of_nonneg_left (by linarith) hc
      _ = hsl_chroma s l := mul_one _

theorem hsl_primaries_range {α : Type} [LinearOrderedField α] (h c x : α)
    (hc : 0 ≤ c) (hx0 : 0 ≤ x) (hxc : x ≤ c) :
    (0 ≤ (hsl_primaries h c x).1 ∧ (hsl_primaries h c x).1 ≤ c) ∧
    (0 ≤ (hsl_primaries h c x).2.1 ∧ (hsl_primaries h c x).2.1 ≤ c) ∧
    (0 ≤ (hsl_primaries h c x).2.2 ∧ (hsl_primaries h c x).2.2 ≤ c) := by
  unfold hsl_primaries
  split_ifs <;> refine ⟨⟨?_, ?_⟩, ⟨?_, ?_⟩, ⟨?_, ?_⟩⟩ <;>
    first | exact hc | exact hx0 | exact hxc | exact le_refl _

/-! ## Claims on the HSL conversion -/

/-- C23 (HSL fixed points): in exact arithmetic `uc__hsl_to_rgb` maps
`(0,1,0.5)` to `(255,0,0)`, `(60,1,0.5)` to `(255,255,0)`, `(120,1,0.5)` to
`(0,255,0)`, `(180,1,0.5)` to `(0,255,255)`, `(240,1,0.5)` to `(0,0,255)`,
`(0,0,1)` to `(255,255,255)` and `(0,0,0)` to `(0,0,0)`; at the hues 60, 120,
180, 240 and 300 the sector chain takes the branch of the upper sector. -/
theorem C23_hsl_fixed_points {α : Type} [LinearOrderedField α] [FloorRing α] (c x : α) :
    (uc__hsl_to_rgb (0 : α) 1 0.5 = (255, 0, 0) ∧
     uc__hsl_to_rgb (60 : α) 1 0.5 = (255, 255, 0) ∧
     uc__hsl_to_rgb (120 : α) 1 0.5 = (0, 255, 0) ∧
     uc__hsl_to_rgb (180 : α) 1 0.5 = (0, 255, 255) ∧
     uc__hsl_to_rgb (240 : α) 1 0.5 = (0, 0, 255)) ∧
    uc__hsl_to_rgb (0 : α) 0 1 = (255, 255, 255) ∧
    uc__hsl_to_rgb (0 : α) 0 0 = (0, 0, 0) ∧
    (hsl_primaries 60 c x = (x, c, 0) ∧ hsl_primaries 120 c x = (0, c, x) ∧
     hsl_primaries 180 c x = (0, x, c) ∧ hsl_primaries 240 c x = (x, 0, c) ∧
     hsl_primaries 300 c x = (c, 0, x)) := by
  refine ⟨hsl_fixed_colours, ?_, ?_, ?_⟩
  · rw [hsl_gray (0 : α) 0 1 (le_refl 0)]
    have h1 : uc__clampf (1 : α) 0 1 = 1 := by norm_num [uc__clampf]
    have h2 : to_int ((1 : α) * 255 + 0.5) = 255 :=
      to_int_eq _ 255 (by norm_num) (by norm_num) (by norm_num)
    rw [h1, h2]
  · rw [hsl_gray (0 : α) 0 0 (le_refl 0)]
    have h1 : uc__clampf (0 : α) 0 1 = 0 := by norm_num [uc__clampf]
    have h2 : to_int ((0 : α) * 255 + 0.5) = 0 :=
      to_int_eq _ 0 (by norm_num) (by norm_num) (by norm_num)
    rw [h1, h2]
  · refine ⟨?_, ?_, ?_, ?_, ?_⟩ <;> norm_num [hsl_primaries]

/-- C26 (HSL channels stay in range): in exact arithmetic, for every hue,
saturation and lightness, chroma `c` and match `m` satisfy `0 <= c`, `0 <= m`
and `c + m <= 1`, and each channel returned by `uc__hsl_to_rgb` is an integer
in `[0,255]`. -/
theorem C26_hsl_channels_in_range {α : Type} [LinearOrderedField α] [FloorRing α]
    (h s l : α) :
    (0 ≤ hsl_chroma s l ∧ 0 ≤ hsl_match s l ∧ hsl_chroma s l + hsl_match s l ≤ 1) ∧
    (0 ≤ (uc__hsl_to_rgb h s l).1 ∧ (uc__hsl_to_rgb h s l).1 ≤ 255) ∧
    (0 ≤ (uc__hsl_to_rgb h s l).2.1 ∧ (uc__hsl_to_rgb h s l).2.1 ≤ 255) ∧
    (0 ≤ (uc__hsl_to_rgb h s l).2.2 ∧ (uc__hsl_to_rgb h s l).2.2 ≤ 255) := by
  have hcm := hsl_chroma_match s l
  have hx := hsl_second_range h s l
  have hp := hsl_primaries_range (hsl_hue h) (hsl_chroma s l) (hsl_second h s l)
    hcm.1 hx.1 hx.2
  refine ⟨hcm, ?_, ?_, ?_⟩
  · exact channel_range _ (by linarith [hp.1.1, hcm.2.1]) (by linarith [hp.1.2, hcm.2.2])
  · exact channel_range _ (by linarith [hp.2.1.1, hcm.2.1])
      (by linarith [hp.2.1.2, hcm.2.2])
  · exact channel_range _ (by linarith [hp.2.2.1, hcm.2.1])
      (by linarith [hp.2.2.2, hcm.2.2])

/-! ## Claims on the OKLCH conversion -/

theorem oklch_channel_range {α : Type} [LinearOrderedField α] [FloorRing α] (M : Libm α)
    (v : α) : 0 ≤ oklch_channel M v ∧ oklch_channel M v ≤ 255 := by
  unfold oklch_channel
  have e0 : (0.0 : α) = 0 := by norm_num
  have e1 : (1.0 : α) = 1 := by norm_num
  have e2 : (255.0 : α) = 255 := by norm_num
  rw [e0, e1, e2]
  have hc := clampf_unit (uc__srgb_transfer M v)
  exact channel_range _ hc.1 hc.2

/-- A channel in the linear part of the transfer function. -/
theorem oklch_channel_linear {α : Type} [LinearOrderedField α] [FloorRing α] (M : Libm α)
    (v : α) (n : Int) (h0 : 0 ≤ v) (h1 : v ≤ 0.0031308)
    (h2 : (n : α) ≤ 12.92 * v * 255 + 0.5) (h3 : 12.92 * v * 255 + 0.5 < (n : α) + 1) :
    oklch_channel M v = n := by
  unfold oklch_channel uc__srgb_transfer
  rw [if_pos h1]
  have e0 : (0.0 : α) = 0 := by norm_num
  have e1 : (1.0 : α) = 1 := by norm_num
  have e2 : (255.0 : α) = 255 := by norm_num
  rw [e0, e1, e2]
  have hv0 : (0 : α) ≤ 12.92 * v := mul_nonneg (by norm_num) h0
  have hv1 : 12.92 * v ≤ 1 := by
    have : (12.92 : α) * v ≤ 12.92 * 0.0031308 :=
      mul_le_mul_of_nonneg_left h1 (by norm_num)
    have e : (12.92 : α) * 0.0031308 ≤ 1 := by norm_num
    linarith
  have hcl : uc__clampf (12.92 * v) 0 1 = 12.92 * v := by
    unfold uc__clampf
    rw [if_neg (not_lt.mpr hv0), if_neg (not_lt.mpr hv1)]
  rw [hcl]
  have h5 : (0 : α) ≤ 0.5 := by norm_num
  exact to_int_eq _ n (by nlinarith) h2 h3

/-- A channel whose linear value is close to 1, with an accurate `pow`. -/
theorem oklch_channel_255 {α : Type} [LinearOrderedField α] [FloorRing α] (M : Libm α)
    (x : α) (hx : 0.0031308 < x) (hacc : PowAccurate M x)
    (hlow : (0.9982 : α) ^ 12 + 1 / 1000000 < x ^ 5) :
    oklch_channel M x = 255 := by
  obtain ⟨hpos, habs⟩ := hacc
  have hlo : x ^ 5 - 1 / 1000000 ≤ M.pow x (1.0 / 2.4) ^ 12 := by
    have := (abs_le.mp habs).1
    linarith
  have hp : (0.9982 : α) < M.pow x (1.0 / 2.4) :=
    lt_of_pow_lt_pow_left₀ 12 (le_of_lt hpos) (by linarith)
  unfold oklch_channel uc__srgb_transfer
  rw [if_neg (not_le.mpr hx)]
  have e0 : (0.0 : α) = 0 := by norm_num
  have e1 : (1.0 : α) = 1 := by norm_num
  have e2 : (255.0 : α) = 255 := by norm_num
  rw [e0, e2]
  have hc := clampf_unit (1.055 * M.pow x (1.0 / 2.4) - 0.055)
  have hcl : (0.9981 : α) ≤ uc__clampf (1.055 * M.pow x (1.0 / 2.4) - 0.055) 0 1 := by
    have ht : (0.9981 : α) ≤ 1.055 * M.pow x (1.0 / 2.4) - 0.055 := by
      have e : (0.9981 : α) ≤ 1.055 * 0.9982 - 0.055 := by norm_num
      have : (1.055 : α) * 0.9982 ≤ 1.055 * M.pow x (1.0 / 2.4) :=
        mul_le_mul_of_nonneg_left (le_of_lt hp) (by norm_num)
      linarith
    unfold uc__clampf
    split
    · linarith
    · split
      · norm_num
      · exact ht
  rw [e1] at hc hcl ⊢
  have u1 : (0.9981 : α) * 255 ≤
      uc__clampf (1.055 * M.pow x (1 / 2.4) - 0.055) 0 1 * 255 :=
    mul_le_mul_of_nonneg_right hcl (by norm_num)
  have u2 : uc__clampf (1.055 * M.pow x (1 / 2.4) - 0.055) 0 1 * 255 ≤ 1 * 255 :=
    mul_le_mul_of_nonneg_right hc.2 (by norm_num)
  have k1 : (255 : α) ≤ 0.9981 * 255 + 0.5 := by norm_num
  have k2 : (1 : α) * 255 + 0.5 < 255 + 1 := by norm_num
  have k3 : ((255 : Int) : α) = 255 := by norm_num
  exact to_int_eq _ 255 (by linarith) (by rw [k3]; linarith) (by rw [k3]; linarith)

theorem oklch_linear_zero_chroma {α : Type} [LinearOrderedField α] (M : Libm α) (L H : α) :
    oklch_linear M L 0 H = (L * L * L, L * L * L, 0.9976314795 * (L * L * L)) := by
  unfold oklch_linear
  simp only [zero_mul, mul_zero, add_zero, sub_zero, Prod.mk.injEq]
  refine ⟨?_, ?_, ?_⟩ <;> ring_nf

/-- C27 (OKLCH fixed points): `uc__oklch_to_rgb(0,0,0) = (0,0,0)` whatever the
math library returns, and `uc__oklch_to_rgb(1,0,0) = (255,255,255)` with a
`pow` that is accurate at the two bases the call uses, 1 and 0.9976314795. -/
theorem C27_oklch_fixed_points {α : Type} [LinearOrderedField α] [FloorRing α]
    (M : Libm α) (h1 : PowAccurate M 1) (h2 : PowAccurate M 0.9976314795) :
    uc__oklch_to_rgb M 0 0 0 = (0, 0, 0) ∧
    uc__oklch_to_rgb M 1 0 0 = (255, 255, 255) := by
  constructor
  · unfold uc__oklch_to_rgb
    rw [oklch_linear_zero_chroma]
    have z : oklch_channel M (0 : α) = 0 :=
      oklch_channel_linear M 0 0 (le_refl 0) (by norm_num) (by norm_num) (by norm_num)
    have e1 : (0 : α) * 0 * 0 = 0 := by norm_num
    have e2 : (0.9976314795 : α) * 0 = 0 := by norm_num
    simp only [e1, e2, z]
  · unfold uc__oklch_to_rgb
    rw [oklch_linear_zero_chroma]
    have e1 : (1 : α) * 1 * 1 = 1 := by norm_num
    have e2 : (0.9976314795 : α) * 1 = 0.9976314795 := by norm_num
    have a := oklch_channel_255 M 1 (by norm_num) h1 (by norm_num)
    have b := oklch_channel_255 M 0.9976314795 (by norm_num) h2 (by norm_num)
    simp only [e1, e2, a, b]

theorem refLibm_accurate : PowAccurate refLibm 1 ∧ PowAccurate refLibm 0.9976314795 := by
  constructor
  · constructor
    · norm_num [refLibm]
    · norm_num [refLibm]
  · constructor
    · norm_num [refLibm]
    · rw [abs_le]
      constructor <;> norm_num [refLibm]

/-- Witness of C27: the stand-in math library over the rationals. -/
theorem C27_oklch_fixed_points_witness :
    PowAccurate refLibm 1 ∧ PowAccurate refLibm 0.9976314795 ∧
    uc__oklch_to_rgb refLibm 0 0 0 = (0, 0, 0) ∧
    uc__oklch_to_rgb refLibm 1 0 0 = (255, 255, 255) :=
  ⟨refLibm_accurate.1, refLibm_accurate.2,
    (C27_oklch_fixed_points refLibm refLibm_accurate.1 refLibm_accurate.2).1,
    (C27_oklch_fixed_points refLibm refLibm_accurate.1 refLibm_accurate.2).2⟩

/-- C28, the code at a failing input: with chroma 0 and lightness 0.111 the
channels are `(5,5,4)` for every hue and every math library, not a gray; red
and green agree for every lightness. -/
theorem C28_zero_chroma_not_gray {α : Type} [LinearOrderedField α] [FloorRing α]
    (M : Libm α) (L H : α) :
    uc__oklch_to_rgb M 0.111 0 H = (5, 5, 4) ∧
    (uc__oklch_to_rgb M L 0 H).1 = (uc__oklch_to_rgb M L 0 H).2.1 := by
  constructor
  · unfold uc__oklch_to_rgb
    rw [oklch_linear_zero_chroma]
    have a : oklch_channel M ((0.111 : α) * 0.111 * 0.111) = 5 :=
      oklch_channel_linear M _ 5 (by norm_num) (by norm_num) (by norm_num) (by norm_num)
    have b : oklch_channel M ((0.9976314795 : α) * (0.111 * 0.111 * 0.111)) = 4 :=
      oklch_channel_linear M _ 4 (by norm_num) (by norm_num) (by norm_num) (by norm_num)
    simp only [a, b]
  · unfold uc__oklch_to_rgb
    rw [oklch_linear_zero_chroma]

/-- In the exact model, where no intermediate leaves the finite range, each
channel returned by `uc__oklch_to_rgb` is an integer in `[0,255]`, whatever
`cos`, `sin` and `pow` return: the clamp does its work on every number. -/
theorem oklch_channels_exact_range {α : Type} [LinearOrderedField α] [FloorRing α]
    (M : Libm α) (L C H : α) :
    (0 ≤ (uc__oklch_to_rgb M L C H).1 ∧ (uc__oklch_to_rgb M L C H).1 ≤ 255) ∧
    (0 ≤ (uc__oklch_to_rgb M L C H).2.1 ∧ (uc__oklch_to_rgb M L C H).2.1 ≤ 255) ∧
    (0 ≤ (uc__oklch_to_rgb M L C H).2.2 ∧ (uc__oklch_to_rgb M L C H).2.2 ≤ 255) := by
  unfold uc__oklch_to_rgb
  exact ⟨oklch_channel_range M _, oklch_channel_range M _, oklch_channel_range M _⟩

/-! ## Claims on the comparator: sign and non-ASCII bytes -/

set_option maxRecDepth 100000 in
theorem upper_shift_toNat : ∀ n, n < 91 → 65 ≤ n → (Char.ofNat (n + 32)).toNat = n + 32 := by
  decide

theorem foldChar_ascii {c : Char} (h : c.toNat < 128) : (foldChar c).toNat < 128 := by
  unfold foldChar
  by_cases hu : 'A' ≤ c ∧ c ≤ 'Z'
  · have hb : 65 ≤ c.toNat ∧ c.toNat ≤ 90 := hu
    rw [if_pos hu, upper_shift_toNat c.toNat (by omega) hb.1]
    omega
  · rw [if_neg hu]
    exact h

theorem charVal_ascii (sc : Bool) {c : Char} (h : c.toNat < 128) :
    charVal sc c = (c.toNat : Int) := by
  unfold charVal
  rw [if_neg (by omega)]

theorem lexSign_cons (x y : Char) (xs ys : List Char) :
    lexSign (x :: xs) (y :: ys) =
      if x.toNat < y.toNat then -1
      else if y.toNat < x.toNat then 1
      else lexSign xs ys := by
  rw [lexSign]

theorem lexSign_nil_cons (y : Char) (ys : List Char) : lexSign [] (y :: ys) = -1 := by
  rw [lexSign]

theorem lexSign_cons_nil (x : Char) (xs : List Char) : lexSign (x :: xs) [] = 1 := by
  rw [lexSign]

theorem lexSign_nil_nil : lexSign [] [] = 0 := by
  rw [lexSign]

/-- On ASCII strings the sign of the comparator is the lexicographic sign of
the folded C strings. -/
theorem strcasecmp_sign (sc : Bool) : ∀ (a b : List Char), IsAscii a → IsAscii b →
    Int.sign (uc__strcasecmp sc a b) =
      lexSign ((cstrOf a).map foldChar) ((cstrOf b).map foldChar) := by
  intro a
  induction a with
  | nil =>
    intro b _ _
    rw [strcasecmp_nil_left, ucharVal_nul, cstrOf_nil, List.map_nil]
    cases b with
    | nil => rw [cstrOf_nil, List.map_nil, lexSign_nil_nil]; rfl
    | cons cb b =>
      rw [peek_cons]
      by_cases h : cb = NUL
      · rw [h, cstrOf_cons_nul, List.map_nil, lexSign_nil_nil, ucharVal_nul]; rfl
      · rw [cstrOf_cons _ _ h, List.map_cons, lexSign_nil_cons]
        exact Int.sign_eq_neg_one_of_neg (by have := ucharVal_pos h; omega)
  | cons ca a ih =>
    intro b ha hb
    have hca : ca.toNat < 128 := ha ca (List.mem_cons_self _ _)
    have ha2 : IsAscii a := fun c hc => ha c (List.mem_cons_of_mem _ hc)
    cases b with
    | nil =>
      rw [strcasecmp_nil_right, peek_cons, ucharVal_nul, cstrOf_nil, List.map_nil]
      by_cases h : ca = NUL
      · rw [h, cstrOf_cons_nul, List.map_nil, lexSign_nil_nil, ucharVal_nul]; rfl
      · rw [cstrOf_cons _ _ h, List.map_cons, lexSign_cons_nil]
        exact Int.sign_eq_one_of_pos (by have := ucharVal_pos h; omega)
    | cons cb b =>
      have hcb : cb.toNat < 128 := hb cb (List.mem_cons_self _ _)
      have hb2 : IsAscii b := fun c hc => hb c (List.mem_cons_of_mem _ hc)
      rw [strcasecmp_cons_cons]
      by_cases h1 : ca = NUL
      · rw [if_neg (fun h => h.1 h1), h1, cstrOf_cons_nul, List.map_nil, ucharVal_nul]
        by_cases h2 : cb = NUL
        · rw [h2, cstrOf_cons_nul, List.map_nil, lexSign_nil_nil, ucharVal_nul]; rfl
        · rw [cstrOf_cons _ _ h2, List.map_cons, lexSign_nil_cons]
          exact Int.sign_eq_neg_one_of_neg (by have := ucharVal_pos h2; omega)
      · by_cases h2 : cb = NUL
        · rw [if_neg (fun h => h.2 h2), h2, cstrOf_cons_nul, List.map_nil, ucharVal_nul,
            cstrOf_cons _ _ h1, List.map_cons, lexSign_cons_nil]
          exact Int.sign_eq_one_of_pos (by have := ucharVal_pos h1; omega)
        · rw [if_pos (show ca ≠ NUL ∧ cb ≠ NUL from ⟨h1, h2⟩), cstrOf_cons _ _ h1,
            cstrOf_cons _ _ h2, List.map_cons, List.map_cons, lexSign_cons,
            charVal_ascii sc (foldChar_ascii hca), charVal_ascii sc (foldChar_ascii hcb)]
          by_cases h3 : foldChar ca = foldChar cb
          · rw [if_neg (not_not.mpr h3), h3, if_neg (Nat.lt_irrefl _),
              if_neg (Nat.lt_irrefl _)]
            exact ih b ha2 hb2
          · rw [if_pos h3]
            have hne : (foldChar ca).toNat ≠ (foldChar cb).toNat :=
              fun h => h3 (char_eq_of_toNat h)
            by_cases h4 : (foldChar ca).toNat < (foldChar cb).toNat
            · rw [if_pos h4]
              exact Int.sign_eq_neg_one_of_neg (by omega)
            · rw [if_neg h4, if_pos (by omega)]
              exact Int.sign_eq_one_of_pos (by omega)

theorem lexSign_eq_zero : ∀ (x y : List Char), lexSign x y = 0 ↔ x = y := by
  intro x
  induction x with
  | nil =>
    intro y
    cases y with
    | nil => rw [lexSign_nil_nil]; simp
    | cons c y => rw [lexSign_nil_cons]; simp
  | cons c x ih =>
    intro y
    cases y with
    | nil => rw [lexSign_cons_nil]; simp
    | cons d y =>
      rw [lexSign_cons]
      by_cases h1 : c.toNat < d.toNat
      · rw [if_pos h1]
        constructor
        · intro h; omega
        · intro h
          have : c = d := (List.cons.inj h).1
          rw [this] at h1
          exact absurd h1 (Nat.lt_irrefl _)
      · rw [if_neg h1]
        by_cases h2 : d.toNat < c.toNat
        · rw [if_pos h2]
          constructor
          · intro h; omega
          · intro h
            have : c = d := (List.cons.inj h).1
            rw [this] at h2
            exact absurd h2 (Nat.lt_irrefl _)
        · rw [if_neg h2, ih y]
          have hcd : c = d := char_eq_of_toNat (by omega)
          constructor
          · intro h; rw [hcd, h]
          · intro h; exact (List.cons.inj h).2

theorem lexSign_antisymm : ∀ (x y : List Char), lexSign x y = - lexSign y x := by
  intro x
  induction x with
  | nil =>
    intro y
    cases y with
    | nil => rw [lexSign_nil_nil]; rfl
    | cons c y => rw [lexSign_nil_cons, lexSign_cons_nil]
  | cons c x ih =>
    intro y
    cases y with
    | nil => rw [lexSign_nil_cons, lexSign_cons_nil]; rfl
    | cons d y =>
      rw [lexSign_cons, lexSign_cons]
      by_cases h1 : c.toNat < d.toNat
      · rw [if_pos h1, if_neg (by omega), if_pos h1]
      · rw [if_neg h1]
        by_cases h2 : d.toNat < c.toNat
        · rw [if_pos h2, if_pos h2]; rfl
        · rw [if_neg h2, if_neg h2, if_neg h1]
          exact ih y

/-- C21 (sign of the comparator): for ASCII strings `a` and `b` the sign of
`uc__strcasecmp(a, b)` is the sign of the lexicographic comparison of the two
strings after mapping `A`-`Z` to `a`-`z`, a proper prefix ordering first; the
result is 0 exactly when the folded strings are equal, and the sign changes
with the order of the arguments. -/
theorem C21_strcasecmp_sign (sc : Bool) (a b : List Char) (ha : IsAscii a) (hb : IsAscii b) :
    Int.sign (uc__strcasecmp sc a b) =
      lexSign (asciiLower (cstrOf a)) (asciiLower (cstrOf b)) ∧
    (uc__strcasecmp sc a b = 0 ↔ asciiLower (cstrOf a) = asciiLower (cstrOf b)) ∧
    Int.sign (uc__strcasecmp sc a b) = - Int.sign (uc__strcasecmp sc b a) := by
  have h1 := strcasecmp_sign sc a b ha hb
  have h2 := strcasecmp_sign sc b a hb ha
  rw [← asciiLower_eq_map, ← asciiLower_eq_map] at h1 h2
  refine ⟨h1, ?_, ?_⟩
  · rw [← lexSign_eq_zero, ← h1]
    exact Int.sign_eq_zero_iff_zero.symm
  · rw [h1, h2]
    exact lexSign_antisymm _ _

/-- Witness of C21: `Gold` against `GOLDen` (a proper prefix), against `gOLD`
(equal after folding) and against `Blue`. -/
theorem C21_strcasecmp_sign_witness :
    IsAscii "Gold".toList ∧ IsAscii "GOLDen".toList ∧
    Int.sign (uc__strcasecmp true "Gold".toList "GOLDen".toList) =
      lexSign (asciiLower (cstrOf "Gold".toList)) (asciiLower (cstrOf "GOLDen".toList)) ∧
    lexSign (asciiLower (cstrOf "Gold".toList)) (asciiLower (cstrOf "GOLDen".toList)) = -1 ∧
    uc__strcasecmp true "Gold".toList "gOLD".toList = 0 ∧
    0 < uc__strcasecmp true "Gold".toList "Blue".toList :=
  have h1 : IsAscii "Gold".toList := by unfold IsAscii; decide
  have h2 : IsAscii "GOLDen".toList := by unfold IsAscii; decide
  ⟨h1, h2, (C21_strcasecmp_sign true _ _ h1 h2).1, by decide, by decide, by decide⟩

/-- C22, the code at a failing input: where plain `char` is signed, the byte
`0xE9` against `a` gives the negative result `-120`, although the difference
of the two bytes taken as unsigned values is `233 - 97 = 136`; where plain
`char` is unsigned the result is `136`. -/
theorem C22_signed_char_compares_less :
    128 ≤ (Char.ofNat 0xE9).toNat ∧ (Char.ofNat 0xE9).toNat ≤ 255 ∧
    ucharVal (Char.ofNat 0xE9) - ucharVal 'a' = 136 ∧
    uc__strcasecmp true [Char.ofNat 0xE9] "a".toList = -120 ∧
    uc__strcasecmp true [Char.ofNat 0xE9] "a".toList < 0 ∧
    uc__strcasecmp false [Char.ofNat 0xE9] "a".toList = 136 := by
  decide

/-! ## Claim on positional write-back directives -/

/-- C30, the code on positional directives: for every non-empty run of digits
`d` the scanner returns 0 on `%` `d` `$n`: the digits are skipped as a width,
`$` is taken for the conversion character, and `n` is then literal text. -/
theorem C30_positional_n_reported_safe (d : List Char) (_hne : d ≠ [])
    (hd : ∀ c ∈ d, isDigit c) :
    uprintf_has_percent_n_narrow (some (['%'] ++ d ++ ['$', 'n'])) = 0 := by
  have hm : IsMods d :=
    ⟨[], d, [], [], (fun c h => absurd h (List.not_mem_nil c)), Or.inr hd, Or.inl rfl,
      (fun c h => absurd h (List.not_mem_nil c)), (by simp)⟩
  have hshape : ['%'] ++ d ++ ['$', 'n'] = '%' :: (d ++ '$' :: ['n']) := by simp
  rw [hshape, scan_directive d ['n'] '$' hm (by decide) (by decide) (by decide) (by decide),
    scan_literal 'n' [] (by decide) (by decide), scan_nil]

/-- Witness of C30: `%1$n` is reported safe, is not rejected in the default
configuration, and `usnprintf_narrow` hands it to the host primitive. -/
theorem C30_positional_n_reported_safe_witness :
    "1".toList ≠ [] ∧ (∀ c ∈ "1".toList, isDigit c) ∧
    uprintf_has_percent_n_narrow (some (['%'] ++ "1".toList ++ ['$', 'n'])) = 0 ∧
    ['%'] ++ "1".toList ++ ['$', 'n'] = "%1$n".toList ∧
    rejects_narrow defaultConfig "%1$n".toList = false ∧
    (usnprintf_narrow defaultConfig refHost (some xBuf) 256 (some "%1$n".toList)
      [Arg.ptr none]).hostCalls = 1 :=
  ⟨by decide, by decide,
    C30_positional_n_reported_safe "1".toList (by decide) (by decide),
    by decide, by decide, by decide⟩

/-! ## Claims on the scan position, the wide scanner and appended text -/

theorem advance_cons (c : Char) (p : List Char) (h : c ≠ NUL) :
    advance (c :: p) = some p := by
  simp only [advance]; rw [if_neg h]

theorem advance_of_peek (p : List Char) (h : peek p ≠ NUL) : advance p = some p.tail := by
  cases p with
  | nil => exact absurd rfl h
  | cons c p => exact advance_cons c p h

theorem isFlag_ne_nul {c : Char} (h : isFlag c) : c ≠ NUL := by
  rintro rfl; revert h; decide

theorem isDigit_ne_nul {c : Char} (h : isDigit c) : c ≠ NUL := by
  rintro rfl; revert h; decide

theorem isLen_ne_nul {c : Char} (h : isLen c) : c ≠ NUL := by
  rintro rfl; revert h; decide

theorem skipFlagsC_eq (p : List Char) : skipFlagsC p = some (skipFlags p) := by
  induction p with
  | nil => rfl
  | cons c p ih =>
    simp only [skipFlagsC, skipFlags]
    by_cases h : isFlag c
    · rw [if_pos h, if_pos h, if_neg (isFlag_ne_nul h)]; exact ih
    · rw [if_neg h, if_neg h]

theorem skipDigitsC_eq (p : List Char) : skipDigitsC p = some (skipDigits p) := by
  induction p with
  | nil => rfl
  | cons c p ih =>
    simp only [skipDigitsC, skipDigits]
    by_cases h : isDigit c
    · rw [if_pos h, if_pos h, if_neg (isDigit_ne_nul h)]; exact ih
    · rw [if_neg h, if_neg h]

theorem skipLengthC_eq (p : List Char) : skipLengthC p = some (skipLength p) := by
  induction p with
  | nil => rfl
  | cons c p ih =>
    simp only [skipLengthC, skipLength]
    by_cases h : isLen c
    · rw [if_pos h, if_pos h, if_neg (isLen_ne_nul h)]; exact ih
    · rw [if_neg h, if_neg h]

theorem skipWidthC_eq (p : List Char) : skipWidthC p = some (skipWidth p) := by
  cases p with
  | nil =>
    simp only [skipWidthC, peek]
    rw [if_neg (by decide)]; rfl
  | cons c p =>
    simp only [skipWidthC, skipWidth, peek]
    by_cases h : c = '*'
    · rw [if_pos h, if_pos h]; subst h; exact advance_cons _ _ (by decide)
    · rw [if_neg h, if_neg h]; exact skipDigitsC_eq _

theorem skipPrecisionC_eq (p : List Char) : skipPrecisionC p = some (skipPrecision p) := by
  cases p with
  | nil =>
    simp only [skipPrecisionC, peek]
    rw [if_neg (by decide)]; rfl
  | cons c p =>
    simp only [skipPrecisionC, skipPrecision, peek]
    by_cases h : c = '.'
    · rw [if_pos h, if_pos h]; subst h
      rw [advance_cons _ _ (by decide)]; exact skipWidthC_eq p
    · rw [if_neg h, if_neg h]

theorem skipDirectiveC_eq (p : List Char) : skipDirectiveC p = some (skipDirective p) := by
  simp only [skipDirectiveC, skipDirective, skipFlagsC_eq, Option.some_bind, skipWidthC_eq,
    skipPrecisionC_eq, skipLengthC_eq]

/-- The checked loop always ends with a value, the one of the unchecked loop. -/
theorem scanNarrowC_eq : ∀ (f : Nat) (p : List Char),
    p.length ≤ f → scanNarrowC f p = some (scanNarrow f p) := by
  intro f
  induction f with
  | zero =>
    intro p hf
    have : p = [] := List.length_eq_zero.mp (Nat.le_zero.mp hf)
    subst this
    rfl
  | succ f ih =>
    intro p hf
    cases p with
    | nil => rfl
    | cons c p =>
      have hp : p.length ≤ f := Nat.le_of_succ_le_succ hf
      simp only [scanNarrowC, scanNarrow, peek_cons]
      by_cases h0 : c = NUL
      · rw [if_pos h0, if_pos h0]
      · rw [if_neg h0, if_neg h0, advance_cons c p h0]
        simp only [Option.some_bind]
        by_cases h1 : c = '%'
        · rw [if_pos h1, if_pos h1]
          by_cases h2 : peek p = '%'
          · rw [if_pos h2, if_pos h2,
              advance_of_peek p (by rw [h2]; decide)]
            exact ih _ (Nat.le_trans (tail_length_le p) hp)
          · rw [if_neg h2, if_neg h2, skipDirectiveC_eq]
            simp only [Option.some_bind]
            by_cases h3 : peek (skipDirective p) = 'n'
            · rw [if_pos h3, if_pos h3]
            · rw [if_neg h3, if_neg h3]
              by_cases h4 : peek (skipDirective p) = NUL
              · rw [if_pos h4, if_pos h4]
              · rw [if_neg h4, if_neg h4, advance_of_peek _ h4]
                exact ih _ (Nat.le_trans (tail_length_le _)
                  (Nat.le_trans (skipDirective_length p) hp))
        · rw [if_neg h1, if_neg h1]
          exact ih _ hp

theorem terminal_nul : Terminal NUL := by decide

/-- A string that ends inside a directive, behind a literal prefix, scans as safe. -/
theorem scan_unfinished (pre m : List Char) (hpre : IsLiteral pre) (hm : IsMods m) :
    uprintf_has_percent_n_narrow (some (pre ++ '%' :: m)) = 0 := by
  rw [ scan_prefix pre _ hpre, scan_percent]
  have hp : peek m ≠ '%' := by
    have := peek_append_of (fun d => d ≠ '%') m []
      (fun d hd => isModChar_ne_percent (isMods_modChars hm d hd)) (by decide)
    simpa using this
  have hs : skipDirective m = [] := by
    have := skipDirective_mods m [] hm terminal_nul
    simpa using this
  rw [if_neg hp, hs]
  rfl

/-- C31 (the scan stays inside the string): for every format string the scanner
with checked pointer steps ends with a value, the one of
`uprintf_has_percent_n_narrow`, so the scan position never moves past the
terminator; a string that ends in a lone `%` or inside a directive, behind a
literal prefix, gives 0, as do `"abc%"`, `"%-10."`, `"%*"` and `"%ll"`. -/
theorem C31_scan_stays_in_bounds (s pre m : List Char) (hpre : IsLiteral pre)
    (hm : IsMods m) :
    uprintf_has_percent_n_narrow_checked (some s) =
      some (uprintf_has_percent_n_narrow (some s)) ∧
    uprintf_has_percent_n_narrow_checked (some (pre ++ '%' :: m)) = some 0 ∧
    uprintf_has_percent_n_narrow_checked (some "abc%".toList) = some 0 ∧
    uprintf_has_percent_n_narrow_checked (some "%-10.".toList) = some 0 ∧
    uprintf_has_percent_n_narrow_checked (some "%*".toList) = some 0 ∧
    uprintf_has_percent_n_narrow_checked (some "%ll".toList) = some 0 := by
  have key : ∀ t : List Char, uprintf_has_percent_n_narrow_checked (some t) =
      some (uprintf_has_percent_n_narrow (some t)) :=
    fun t => scanNarrowC_eq t.length t (Nat.le_refl _)
  refine ⟨key s, ?_, by decide, by decide, by decide, by decide⟩
  rw [key, scan_unfinished pre m hpre hm]

theorem C31_scan_stays_in_bounds_witness :
    uprintf_has_percent_n_narrow_checked (some "ab%-10.l".toList) = some 0 :=
  (C31_scan_stays_in_bounds [] "ab".toList "-10.l".toList (by unfold IsLiteral; decide)
    ⟨['-'], ['1', '0'], ['.'], ['l'], by decide, Or.inr (by decide),
      Or.inr ⟨[], Or.inr (by decide), rfl⟩, by decide, rfl⟩).2.1

theorem wskipFlags_eq (p : List Char) : wskipFlags p = skipFlags p := by
  induction p with
  | nil => rfl
  | cons c p ih => simp only [wskipFlags, skipFlags, ih]

theorem wskipDigits_eq (p : List Char) : wskipDigits p = skipDigits p := by
  induction p with
  | nil => rfl
  | cons c p ih => simp only [wskipDigits, skipDigits, ih]

theorem wskipLength_eq (p : List Char) : wskipLength p = skipLength p := by
  induction p with
  | nil => rfl
  | cons c p ih => simp only [wskipLength, skipLength, ih]

theorem wskipWidth_eq (p : List Char) : wskipWidth p = skipWidth p := by
  cases p with
  | nil => rfl
  | cons c p => simp only [wskipWidth, skipWidth, wskipDigits_eq]

theorem wskipPrecision_eq (p : List Char) : wskipPrecision p = skipPrecision p := by
  cases p with
  | nil => rfl
  | cons c p => simp only [wskipPrecision, skipPrecision, wskipWidth_eq]

theorem scanWide_eq : ∀ (f : Nat) (p : List Char), scanWide f p = scanNarrow f p := by
  intro f
  induction f with
  | zero => intro p; rfl
  | succ f ih =>
    intro p
    cases p with
    | nil => rfl
    | cons c p =>
      simp only [scanWide, scanNarrow, skipDirective, wskipFlags_eq, wskipWidth_eq,
        wskipPrecision_eq, wskipLength_eq, ih]

theorem map_widen (s : List Char) : s.map widen = s := by
  induction s with
  | nil => rfl
  | cons c s ih => rw [List.map_cons, widen_eq, ih]

/-- C32 (the narrow and wide scanners agree): for every string `s`, and for the
null pointer, `uprintf_has_percent_n_wide` applied to `s` widened unit by unit
returns the value of `uprintf_has_percent_n_narrow` on `s`. -/
theorem C32_wide_scanner_agrees (fmt : Option (List Char)) :
    uprintf_has_percent_n_wide (fmt.map (List.map widen)) =
      uprintf_has_percent_n_narrow fmt := by
  cases fmt with
  | none => rfl
  | some s =>
    simp only [Option.map_some', map_widen, uprintf_has_percent_n_wide,
      uprintf_has_percent_n_narrow]
    exact scanWide_eq _ _

theorem skipFlags_app (p t : List Char) (h : skipFlags p ≠ []) :
    skipFlags (p ++ t) = skipFlags p ++ t := by
  induction p with
  | nil => exact absurd rfl h
  | cons c p ih =>
    have hs : ∀ r : List Char, skipFlags (c :: r) =
        if isFlag c then skipFlags r else c :: r := fun r => rfl
    rw [List.cons_append, hs, hs]
    rw [hs] at h
    by_cases hc : isFlag c
    · rw [if_pos hc, if_pos hc]; rw [if_pos hc] at h; exact ih h
    · rw [if_neg hc, if_neg hc]; rfl

theorem skipDigits_app (p t : List Char) (h : skipDigits p ≠ []) :
    skipDigits (p ++ t) = skipDigits p ++ t := by
  induction p with
  | nil => exact absurd rfl h
  | cons c p ih =>
    have hs : ∀ r : List Char, skipDigits (c :: r) =
        if isDigit c then skipDigits r else c :: r := fun r => rfl
    rw [List.cons_append, hs, hs]
    rw [hs] at h
    by_cases hc : isDigit c
    · rw [if_pos hc, if_pos hc]; rw [if_pos hc] at h; exact ih h
    · rw [if_neg hc, if_neg hc]; rfl

theorem skipLength_app (p t : List Char) (h : skipLength p ≠ []) :
    skipLength (p ++ t) = skipLength p ++ t := by
  induction p with
  | nil => exact absurd rfl h
  | cons c p ih =>
    have hs : ∀ r : List Char, skipLength (c :: r) =
        if isLen c then skipLength r else c :: r := fun r => rfl
    rw [List.cons_append, hs, hs]
    rw [hs] at h
    by_cases hc : isLen c
    · rw [if_pos hc, if_pos hc]; rw [if_pos hc] at h; exact ih h
    · rw [if_neg hc, if_neg hc]; rfl

theorem skipWidth_app (p t : List Char) (h : skipWidth p ≠ []) :
    skipWidth (p ++ t) = skipWidth p ++ t := by
  cases p with
  | nil => exact absurd rfl h
  | cons c p =>
    have hs : ∀ r : List Char, skipWidth (c :: r) =
        if c = '*' then r else skipDigits (c :: r) := fun r => rfl
    rw [List.cons_append, hs, hs]
    rw [hs] at h
    by_cases hc : c = '*'
    · rw [if_pos hc, if_pos hc]
    · rw [if_neg hc, if_neg hc]; rw [if_neg hc] at h
      exact skipDigits_app (c :: p) t h

theorem skipPrecision_app (p t : List Char) (h : skipPrecision p ≠ []) :
    skipPrecision (p ++ t) = skipPrecision p ++ t := by
  cases p with
  | nil => exact absurd rfl h
  | cons c p =>
    have hs : ∀ r : List Char, skipPrecision (c :: r) =
        if c = '.' then skipWidth r else c :: r := fun r => rfl
    rw [List.cons_append, hs, hs]
    rw [hs] at h
    by_cases hc : c = '.'
    · rw [if_pos hc, if_pos hc]; rw [if_pos hc] at h
      exact skipWidth_app p t h
    · rw [if_neg hc, if_neg hc]; rfl

/-- When the skipping steps stop inside the string, text appended behind the
string does not change where they stop. -/
theorem skipDirective_app (p t : List Char) (h : skipDirective p ≠ []) :
    skipDirective (p ++ t) = skipDirective p ++ t := by
  unfold skipDirective at h ⊢
  have h3 : skipPrecision (skipWidth (skipFlags p)) ≠ [] := by
    intro e; rw [e] at h; exact h rfl
  have h2 : skipWidth (skipFlags p) ≠ [] := by
    intro e; rw [e] at h3; exact h3 rfl
  have h1 : skipFlags p ≠ [] := by
    intro e; rw [e] at h2; exact h2 rfl
  rw [skipFlags_app p t h1, skipWidth_app _ t h2, skipPrecision_app _ t h3,
    skipLength_app _ t h]

theorem scan_nul (p : List Char) : uprintf_has_percent_n_narrow (some (NUL :: p)) = 0 := by
  simp only [uprintf_has_percent_n_narrow, List.length_cons, scanNarrow]
  rw [if_pos trivial]

theorem peek_ne_nil {p : List Char} (h : peek p ≠ NUL) : p ≠ [] := by
  intro e; rw [e] at h; exact h rfl

theorem scan_append_aux (t : List Char) : ∀ (n : Nat) (p : List Char), p.length ≤ n →
    uprintf_has_percent_n_narrow (some p) = 1 →
    uprintf_has_percent_n_narrow (some (p ++ t)) = 1 := by
  intro n
  induction n with
  | zero =>
    intro p hn h
    have : p = [] := List.length_eq_zero.mp (Nat.le_zero.mp hn)
    subst this
    rw [scan_nil] at h
    exact absurd h (by decide)
  | succ n ih =>
    intro p hn h
    cases p with
    | nil => rw [scan_nil] at h; exact absurd h (by decide)
    | cons c p =>
      have hp : p.length ≤ n := Nat.le_of_succ_le_succ hn
      by_cases h0 : c = NUL
      · subst h0; rw [scan_nul] at h; exact absurd h (by decide)
      by_cases h1 : c = '%'
      · subst h1
        rw [scan_percent] at h
        rw [List.cons_append, scan_percent]
        by_cases h2 : peek p = '%'
        · rw [if_pos h2] at h
          obtain ⟨d, q, rfl⟩ := List.exists_cons_of_ne_nil
            (peek_ne_nil (p := p) (by rw [h2]; decide))
          have h2d : d = '%' := h2
          rw [List.cons_append, peek_cons, if_pos h2d, List.tail_cons]
          rw [List.tail_cons] at h
          exact ih q (Nat.le_trans (Nat.le_succ _) hp) h
        · rw [if_neg h2] at h
          by_cases h4 : peek (skipDirective p) = NUL
          · rw [h4, if_neg (by decide), if_pos rfl] at h
            exact absurd h (by decide)
          have hq : skipDirective p ≠ [] := peek_ne_nil h4
          have hpne : p ≠ [] := by
            intro e; rw [e] at hq; exact hq rfl
          obtain ⟨d, p', rfl⟩ := List.exists_cons_of_ne_nil hpne
          rw [skipDirective_app _ t hq]
          obtain ⟨e, q, hqe⟩ := List.exists_cons_of_ne_nil hq
          rw [hqe] at h h4 ⊢
          simp only [List.cons_append, peek_cons, List.tail_cons] at h h2 h4 ⊢
          rw [if_neg h2]
          by_cases h3 : e = 'n'
          · rw [if_pos h3]
          · rw [if_neg h3, if_neg h4] at h ⊢
            have hl : q.length ≤ n := by
              have := skipDirective_length (d :: p')
              rw [hqe] at this
              simp only [List.length_cons] at this hp
              omega
            exact ih q hl h
      · rw [scan_literal c p h1 h0] at h
        rw [List.cons_append, scan_literal c _ h1 h0]
        exact ih p hp h

/-- C33 (appended text cannot hide an unsafe directive): for all strings `s`
and `t`, if `uprintf_has_percent_n_narrow` returns 1 on `s` then it returns 1
on `s ++ t`. -/
theorem C33_append_keeps_unsafe (s t : List Char)
    (h : uprintf_has_percent_n_narrow (some s) = 1) :
    uprintf_has_percent_n_narrow (some (s ++ t)) = 1 :=
  scan_append_aux t s.length s (Nat.le_refl _) h

theorem C33_append_keeps_unsafe_witness :
    uprintf_has_percent_n_narrow (some ("a%-5ln".toList ++ "%%d".toList)) = 1 :=
  C33_append_keeps_unsafe "a%-5ln".toList "%%d".toList (by decide)

/-! ## Claims on the cost of the lookup, on aliases and on a null name -/

/-- An interval of fewer than `2 ^ k` entries is searched with at most `k`
comparisons, and the counted loop returns what `css_search` returns. -/
theorem css_search_steps_bound (sc : Bool) (name : List Char) :
    ∀ (k f : Nat) (lo hi : Int), hi - lo + 1 < (2 : Int) ^ k → k ≤ f →
      ∃ j, j ≤ k ∧
        css_search_steps sc name f lo hi = some (css_search sc name f lo hi, j) := by
  intro k
  induction k with
  | zero =>
    intro f lo hi hw _
    have hn : ¬ lo ≤ hi := by
      simp only [pow_zero] at hw
      omega
    refine ⟨0, Nat.le_refl _, ?_⟩
    cases f with
    | zero => simp only [css_search_steps, css_search]; rw [if_neg hn]
    | succ f => simp only [css_search_steps, css_search]; rw [if_neg hn, if_neg hn]
  | succ k ih =>
    intro f lo hi hw hf
    have hw2 : hi - lo + 1 < 2 * (2 : Int) ^ k := by
      rw [pow_succ] at hw; omega
    by_cases hle : lo ≤ hi
    · cases f with
      | zero => exact absurd hf (by omega)
      | succ f =>
        have hkf : k ≤ f := Nat.le_of_succ_le_succ hf
        simp only [css_search_steps, css_search]
        rw [if_pos hle, if_pos hle]
        by_cases h0 : uc__strcasecmp sc name (css_entry (lo + (hi - lo) / 2)).name = 0
        · rw [if_pos h0, if_pos h0]
          exact ⟨1, by omega, rfl⟩
        · rw [if_neg h0, if_neg h0]
          by_cases h1 : uc__strcasecmp sc name (css_entry (lo + (hi - lo) / 2)).name < 0
          · rw [if_pos h1, if_pos h1]
            obtain ⟨j, hj, e⟩ := ih f lo (lo + (hi - lo) / 2 - 1) (by omega) hkf
            rw [e]
            exact ⟨j + 1, by omega, rfl⟩
          · rw [if_neg h1, if_neg h1]
            obtain ⟨j, hj, e⟩ := ih f (lo + (hi - lo) / 2 + 1) hi (by omega) hkf
            rw [e]
            exact ⟨j + 1, by omega, rfl⟩
    · refine ⟨0, Nat.zero_le _, ?_⟩
      cases f with
      | zero => simp only [css_search_steps, css_search]; rw [if_neg hle]
      | succ f => simp only [css_search_steps, css_search]; rw [if_neg hle, if_neg hle]

/-- C34 (the lookup terminates within 8 comparisons): for every name the
binary-search loop of `uc__css_lookup`, run on the 148-entry table with its
comparisons counted, ends with the result of `uc__css_lookup` after at most 8
calls of `uc__strcasecmp`; on every iteration that continues, the searched
interval `hi - lo + 1` shrinks to at most half of its width. -/
theorem C34_lookup_within_eight (sc : Bool) (name : List Char) :
    (∃ k, k ≤ 8 ∧
      css_search_steps sc name UC__CSS_COLOR_COUNT 0 ((UC__CSS_COLOR_COUNT : Int) - 1) =
        some (uc__css_lookup sc name, k)) ∧
    UC__CSS_COLOR_COUNT = 148 ∧
    (∀ lo hi : Int, lo ≤ hi →
      ((lo + (hi - lo) / 2 - 1) - lo + 1 ≤ (hi - lo + 1) / 2 ∧
       hi - (lo + (hi - lo) / 2 + 1) + 1 ≤ (hi - lo + 1) / 2)) := by
  refine ⟨?_, css_count, ?_⟩
  · unfold uc__css_lookup
    rw [css_count]
    exact css_search_steps_bound sc name 8 148 0 (((148 : Nat) : Int) - 1)
      (by norm_num) (by norm_num)
  · intro lo hi h
    constructor <;> omega

theorem C34_lookup_within_eight_witness :
    (0 + (147 - 0) / 2 - 1) - 0 + 1 ≤ ((147 : Int) - 0 + 1) / 2 :=
  ((C34_lookup_within_eight true "gold".toList).2.2 0 147 (by decide)).1

set_option maxRecDepth 1000000 in
theorem css_alias_table : ∀ sc : Bool, ∀ a ∈ css_aliases,
    uc__css_lookup sc a.1 = (0, a.2.2) ∧ uc__css_lookup sc a.2.1 = (0, a.2.2) ∧
    a.1 ≠ a.2.1 ∧
    a.1 ∈ uc__css_colors.map uc__css_color.name ∧
    a.2.1 ∈ uc__css_colors.map uc__css_color.name := by
  decide

/-- C37 (alias names resolve to identical colours): for each of the nine alias
pairs (`aqua`/`cyan` with `(0,255,255)`, `fuchsia`/`magenta` with
`(255,0,255)`, and the seven `gray`/`grey` spellings) `uc__css_lookup` finds
both names with the same RGB triple, and the two names are different names of
the table. -/
theorem C37_aliases_same_colour (sc : Bool) (a : List Char × List Char × Int × Int × Int)
    (ha : a ∈ css_aliases) :
    uc__css_lookup sc a.1 = (0, a.2.2) ∧ uc__css_lookup sc a.2.1 = (0, a.2.2) ∧
    a.1 ≠ a.2.1 ∧
    a.1 ∈ uc__css_colors.map uc__css_color.name ∧
    a.2.1 ∈ uc__css_colors.map uc__css_color.name :=
  css_alias_table sc a ha

theorem C37_aliases_same_colour_witness :
    uc__css_lookup true "aqua".toList = (0, 0, 255, 255) ∧
    uc__css_lookup true "cyan".toList = (0, 0, 255, 255) :=
  ⟨(C37_aliases_same_colour true ("aqua".toList, "cyan".toList, 0, 255, 255)
      (by simp [css_aliases])).1,
   (C37_aliases_same_colour true ("aqua".toList, "cyan".toList, 0, 255, 255)
      (by simp [css_aliases])).2.1⟩

theorem css_search_ptr_some (sc : Bool) (name : List Char) : ∀ (f : Nat) (lo hi : Int),
    css_search_ptr sc (some name) f lo hi = some (css_search sc name f lo hi) := by
  intro f
  induction f with
  | zero => intro lo hi; rfl
  | succ f ih =>
    intro lo hi
    simp only [css_search_ptr, css_search, uc__strcasecmp_ptr, Option.some_bind, ih]
    split_ifs <;> rfl

/-- C38 (a null name is dereferenced): on the null pointer `uc__css_lookup`
reaches `uc__strcasecmp` in its first iteration and reads `*a`, so neither
`uc__css_lookup` nor `uc_fg_css` returns, whereas `uc__parse_hex` tests its
argument and answers black; on a non-null name the pointer-level lookup is
`uc__css_lookup`. -/
theorem C38_null_name_dereferenced (sc : Bool) (buf : Buf) :
    uc__css_lookup_ptr sc none = none ∧
    uc_fg_css_ptr sc buf none = none ∧
    uc__parse_hex none = (0, 0, 0) ∧
    (∀ name : List Char, uc__css_lookup_ptr sc (some name) = some (uc__css_lookup sc name)) := by
  have h : uc__css_lookup_ptr sc none = none := by
    unfold uc__css_lookup_ptr
    rw [css_count]
    simp [css_search_ptr, uc__strcasecmp_ptr]
  refine ⟨h, ?_, rfl, fun name => css_search_ptr_some sc name _ _ _⟩
  unfold uc_fg_css_ptr
  rw [h]
  rfl

/-! ## Claims on the matrix rows, the emitted text, long hex strings and the MSVC wrapper -/

/-- C35, the code at chroma 0: for every `L` and `H` the intermediates are
`lr = lg = L * L * L` but `lb = 0.9976314795 * (L * L * L)`, because the third
row of the matrix in the code sums to 0.9976314795 and not to 1; at `L = 1`
the third intermediate is not `1`. -/
theorem C35_third_row_sum {α : Type} [LinearOrderedField α] (M : Libm α) (L H : α) :
    (oklch_linear M L 0 H).1 = L * L * L ∧
    (oklch_linear M L 0 H).2.1 = L * L * L ∧
    (oklch_linear M L 0 H).2.2 = 0.9976314795 * (L * L * L) ∧
    (oklch_linear M 1 0 H).2.2 ≠ 1 * 1 * 1 ∧
    (4.0767416621 - 3.3077115913 + 0.2309699292 : α) = 1 ∧
    (-1.2684380046 + 2.6097574011 - 0.3413193965 : α) = 1 ∧
    (-0.0041960863 + 0.7341731176 + 0.2676544482 : α) = 0.9976314795 := by
  rw [oklch_linear_zero_chroma, oklch_linear_zero_chroma]
  refine ⟨rfl, rfl, rfl, ?_, ?_, ?_, ?_⟩ <;> norm_num

set_option maxRecDepth 1000000 in
theorem toDigits_fields : ∀ n, n < 256 →
    (∀ c ∈ Nat.toDigits 10 n, isDigit c) ∧ (takeNum 0 (Nat.toDigits 10 n)).1 = n ∧
    1 ≤ (Nat.toDigits 10 n).length := by
  decide

theorem takeNum_append (rest : List Char) (hr : ¬ isDigit (peek rest)) :
    ∀ (ds : List Char) (acc : Nat), (∀ c ∈ ds, isDigit c) →
      takeNum acc (ds ++ rest) = ((takeNum acc ds).1, rest) := by
  intro ds
  induction ds with
  | nil =>
    intro acc _
    cases rest with
    | nil => rfl
    | cons c r =>
      have hs : takeNum acc (c :: r) =
          if isDigit c then takeNum (acc * 10 + (c.toNat - '0'.toNat)) r else (acc, c :: r) := rfl
      have hc : ¬ isDigit c := hr
      rw [List.nil_append, hs, if_neg hc]
      rfl
  | cons d ds ih =>
    intro acc h
    have hd : isDigit d := h d (List.mem_cons_self _ _)
    have hs : ∀ r : List Char, takeNum acc (d :: r) =
        if isDigit d then takeNum (acc * 10 + (d.toNat - '0'.toNat)) r else (acc, d :: r) :=
      fun r => rfl
    rw [List.cons_append, hs, hs, if_pos hd, if_pos hd]
    exact ih _ (fun c hc => h c (List.mem_cons_of_mem _ hc))

/-- A rendered channel followed by a separator reads back as the channel. -/
theorem takeNum_render_d (v : Int) (h0 : 0 ≤ v) (h1 : v ≤ 255) (rest : List Char)
    (hr : ¬ isDigit (peek rest)) :
    takeNum 0 (render_d v ++ rest) = (v.toNat, rest) := by
  have hv : v.toNat < 256 := by omega
  have e : render_d v = Nat.toDigits 10 v.toNat := by
    unfold render_d
    rw [if_neg (by omega)]
  obtain ⟨a, b, _⟩ := toDigits_fields v.toNat hv
  rw [e, takeNum_append rest hr _ 0 a, b]

theorem render_d_length_pos (v : Int) (h0 : 0 ≤ v) (h1 : v ≤ 255) :
    1 ≤ (render_d v).length := by
  have hv : v.toNat < 256 := by omega
  unfold render_d
  rw [if_neg (by omega)]
  exact (toDigits_fields v.toNat hv).2.2

theorem parseFields_seq (x y : Char) (r g b : Int) (hr : 0 ≤ r ∧ r ≤ 255)
    (hg : 0 ≤ g ∧ g ≤ 255) (hb : 0 ≤ b ∧ b ≤ 255) :
    parseFields (ESC :: '[' :: x :: y :: ';' :: '2' :: ';' ::
        (render_d r ++ ';' :: (render_d g ++ ';' :: (render_d b ++ ['m'])))) = (r, g, b) := by
  unfold parseFields
  simp only [List.drop_succ_cons, List.drop_zero]
  have hsep : ¬ isDigit ';' := by decide
  have hm : ¬ isDigit 'm' := by decide
  rw [takeNum_render_d r hr.1 hr.2 (';' :: (render_d g ++ ';' :: (render_d b ++ ['m']))) hsep]
  simp only [List.drop_succ_cons, List.drop_zero]
  rw [takeNum_render_d g hg.1 hg.2 (';' :: (render_d b ++ ['m'])) hsep]
  simp only [List.drop_succ_cons, List.drop_zero]
  rw [takeNum_render_d b hb.1 hb.2 ['m'] hm]
  simp only [Int.toNat_of_nonneg hr.1, Int.toNat_of_nonneg hg.1, Int.toNat_of_nonneg hb.1]

theorem fg_cstr (buf : Buf) (r g b : Int) :
    (uc_fg_rgb buf r g b).cstr UC_SEQ_MAX =
      ESC :: '[' :: '3' :: '8' :: ';' :: '2' :: ';' ::
        (render_d (uc__clamp r) ++ ';' :: (render_d (uc__clamp g) ++ ';' ::
          (render_d (uc__clamp b) ++ ['m']))) := by
  rw [uc_fg_rgb_store, (c99_store_cstr buf _ _ (render_fg_props r g b).1
    (render_fg_props r g b).2).1]
  unfold fgFormat rgbArgs
  rw [render_fg]

theorem bg_cstr (buf : Buf) (r g b : Int) :
    (uc_bg_rgb buf r g b).cstr UC_SEQ_MAX =
      ESC :: '[' :: '4' :: '8' :: ';' :: '2' :: ';' ::
        (render_d (uc__clamp r) ++ ';' :: (render_d (uc__clamp g) ++ ';' ::
          (render_d (uc__clamp b) ++ ['m']))) := by
  rw [uc_bg_rgb_store, (c99_store_cstr buf _ _ (render_bg_props r g b).1
    (render_bg_props r g b).2).1]
  unfold bgFormat rgbArgs
  rw [render_bg]

theorem seq_length_bounds (x y : Char) (r g b : Int) :
    13 ≤ (ESC :: '[' :: x :: y :: ';' :: '2' :: ';' ::
        (render_d (uc__clamp r) ++ ';' :: (render_d (uc__clamp g) ++ ';' ::
          (render_d (uc__clamp b) ++ ['m'])))).length ∧
    (ESC :: '[' :: x :: y :: ';' :: '2' :: ';' ::
        (render_d (uc__clamp r) ++ ';' :: (render_d (uc__clamp g) ++ ';' ::
          (render_d (uc__clamp b) ++ ['m'])))).length ≤ 19 := by
  have a1 := render_d_length_pos _ (uc__clamp_range r).1 (uc__clamp_range r).2
  have a2 := render_d_length_pos _ (uc__clamp_range g).1 (uc__clamp_range g).2
  have a3 := render_d_length_pos _ (uc__clamp_range b).1 (uc__clamp_range b).2
  have b1 := render_d_length _ (uc__clamp_range r).1 (uc__clamp_range r).2
  have b2 := render_d_length _ (uc__clamp_range g).1 (uc__clamp_range g).2
  have b3 := render_d_length _ (uc__clamp_range b).1 (uc__clamp_range b).2
  simp only [List.length_cons, List.length_append, List.length_nil]
  constructor <;> omega

theorem clamp_of_range (v : Int) (h : 0 ≤ v ∧ v ≤ 255) : uc__clamp v = v := by
  unfold uc__clamp
  rw [if_neg (by omega), if_neg (by omega)]

/-- C36 (the escape sequence determines the colour): for all integers `r`,
`g`, `b` the three decimal fields of the string written by `uc_fg_rgb` (and by
`uc_bg_rgb`) read back as `(clamp r, clamp g, clamp b)`; the string has between
13 and 19 characters; the foreground and the background string are
`ESC [ 3 rest` and `ESC [ 4 rest` with the same `rest`; and two triples in
`[0,255]` with the same foreground string are the same triple. -/
theorem C36_sequence_determines_colour (buf : Buf) (r g b r2 g2 b2 : Int)
    (h : (0 ≤ r ∧ r ≤ 255) ∧ (0 ≤ g ∧ g ≤ 255) ∧ (0 ≤ b ∧ b ≤ 255))
    (h2 : (0 ≤ r2 ∧ r2 ≤ 255) ∧ (0 ≤ g2 ∧ g2 ≤ 255) ∧ (0 ≤ b2 ∧ b2 ≤ 255)) :
    (∀ x y z : Int,
      parseFields ((uc_fg_rgb buf x y z).cstr UC_SEQ_MAX) =
        (uc__clamp x, uc__clamp y, uc__clamp z) ∧
      parseFields ((uc_bg_rgb buf x y z).cstr UC_SEQ_MAX) =
        (uc__clamp x, uc__clamp y, uc__clamp z) ∧
      13 ≤ ((uc_fg_rgb buf x y z).cstr UC_SEQ_MAX).length ∧
      ((uc_fg_rgb buf x y z).cstr UC_SEQ_MAX).length ≤ 19 ∧
      13 ≤ ((uc_bg_rgb buf x y z).cstr UC_SEQ_MAX).length ∧
      ((uc_bg_rgb buf x y z).cstr UC_SEQ_MAX).length ≤ 19 ∧
      ∃ rest, (uc_fg_rgb buf x y z).cstr UC_SEQ_MAX = ESC :: '[' :: '3' :: rest ∧
        (uc_bg_rgb buf x y z).cstr UC_SEQ_MAX = ESC :: '[' :: '4' :: rest) ∧
    ((uc_fg_rgb buf r g b).cstr UC_SEQ_MAX = (uc_fg_rgb buf r2 g2 b2).cstr UC_SEQ_MAX →
      (r, g, b) = (r2, g2, b2)) := by
  have pf : ∀ x y z : Int, parseFields ((uc_fg_rgb buf x y z).cstr UC_SEQ_MAX) =
      (uc__clamp x, uc__clamp y, uc__clamp z) := by
    intro x y z
    rw [fg_cstr]
    exact parseFields_seq _ _ _ _ _ (uc__clamp_range x) (uc__clamp_range y) (uc__clamp_range z)
  constructor
  · intro x y z
    refine ⟨pf x y z, ?_, ?_, ?_, ?_, ?_, ?_⟩
    · rw [bg_cstr]
      exact parseFields_seq _ _ _ _ _ (uc__clamp_range x) (uc__clamp_range y)
        (uc__clamp_range z)
    · rw [fg_cstr]; exact (seq_length_bounds '3' '8' x y z).1
    · rw [fg_cstr]; exact (seq_length_bounds '3' '8' x y z).2
    · rw [bg_cstr]; exact (seq_length_bounds '4' '8' x y z).1
    · rw [bg_cstr]; exact (seq_length_bounds '4' '8' x y z).2
    · exact ⟨_, fg_cstr buf x y z, bg_cstr buf x y z⟩
  · intro e
    have e1 := pf r g b
    rw [e, pf r2 g2 b2, clamp_of_range r h.1, clamp_of_range g h.2.1, clamp_of_range b h.2.2,
      clamp_of_range r2 h2.1, clamp_of_range g2 h2.2.1, clamp_of_range b2 h2.2.2] at e1
    exact e1.symm

theorem C36_sequence_determines_colour_witness :
    parseFields ((uc_fg_rgb xBuf 300 128 (-4)).cstr UC_SEQ_MAX) = (255, 128, 0) ∧
    ((uc_fg_rgb xBuf 255 128 0).cstr UC_SEQ_MAX ≠ (uc_fg_rgb xBuf 255 128 1).cstr UC_SEQ_MAX) :=
  ⟨((C36_sequence_determines_colour xBuf 255 128 0 255 128 1 (by decide) (by decide)).1
      300 128 (-4)).1,
   fun e => absurd ((C36_sequence_determines_colour xBuf 255 128 0 255 128 1 (by decide)
      (by decide)).2 e) (by decide)⟩

theorem strlen_le_length (p : List Char) : strlen p ≤ p.length := by
  induction p with
  | nil => exact Nat.le_refl _
  | cons c p ih =>
    simp only [strlen, List.length_cons]
    split <;> omega

theorem strlen_append_ge (p t : List Char) : strlen p ≤ strlen (p ++ t) := by
  induction p with
  | nil => exact Nat.zero_le _
  | cons c p ih =>
    have hs : ∀ r : List Char, strlen (c :: r) = if c = NUL then 0 else strlen r + 1 :=
      fun r => rfl
    rw [List.cons_append, hs, hs]
    split <;> omega

theorem hexBody_append (s t : List Char) (h : s ≠ []) :
    hexBody (s ++ t) = hexBody s ++ t := by
  cases s with
  | nil => exact absurd rfl h
  | cons c s =>
    unfold hexBody
    simp only [List.cons_append, peek_cons, List.tail_cons]
    split <;> rfl

theorem hex_digit_range (c : Char) : 0 ≤ uc__hex_digit c ∧ uc__hex_digit c ≤ 15 := by
  unfold uc__hex_digit
  simp only [Char.le_def, UInt32.le_def, BitVec.le_def]
  have e0 : ('0' : Char).val.toBitVec.toNat = 48 := rfl
  have e9 : ('9' : Char).val.toBitVec.toNat = 57 := rfl
  have ea : ('a' : Char).val.toBitVec.toNat = 97 := rfl
  have ef : ('f' : Char).val.toBitVec.toNat = 102 := rfl
  have eA : ('A' : Char).val.toBitVec.toNat = 65 := rfl
  have eF : ('F' : Char).val.toBitVec.toNat = 70 := rfl
  have t0 : ('0' : Char).toNat = 48 := rfl
  have ta : ('a' : Char).toNat = 97 := rfl
  have tA : ('A' : Char).toNat = 65 := rfl
  have tc : c.toNat = c.val.toBitVec.toNat := rfl
  rw [e0, e9, ea, ef, eA, eF, t0, ta, tA, tc]
  split_ifs <;> omega

theorem parse_hex_body (s : List Char) :
    uc__parse_hex (some s) =
      if strlen (hexBody s) < 6 then (0, 0, 0)
      else
        (uc__hex_digit ((hexBody s).getD 0 NUL) * 16 + uc__hex_digit ((hexBody s).getD 1 NUL),
         uc__hex_digit ((hexBody s).getD 2 NUL) * 16 + uc__hex_digit ((hexBody s).getD 3 NUL),
         uc__hex_digit ((hexBody s).getD 4 NUL) * 16 + uc__hex_digit ((hexBody s).getD 5 NUL)) :=
  rfl

theorem parse_hex_range (x : Option (List Char)) :
    (0 ≤ (uc__parse_hex x).1 ∧ (uc__parse_hex x).1 ≤ 255) ∧
    (0 ≤ (uc__parse_hex x).2.1 ∧ (uc__parse_hex x).2.1 ≤ 255) ∧
    (0 ≤ (uc__parse_hex x).2.2 ∧ (uc__parse_hex x).2.2 ≤ 255) := by
  cases x with
  | none => exact ⟨by decide, by decide, by decide⟩
  | some s =>
    rw [parse_hex_body]
    split
    · exact ⟨by decide, by decide, by decide⟩
    · have a0 := hex_digit_range ((hexBody s).getD 0 NUL)
      have a1 := hex_digit_range ((hexBody s).getD 1 NUL)
      have a2 := hex_digit_range ((hexBody s).getD 2 NUL)
      have a3 := hex_digit_range ((hexBody s).getD 3 NUL)
      have a4 := hex_digit_range ((hexBody s).getD 4 NUL)
      have a5 := hex_digit_range ((hexBody s).getD 5 NUL)
      refine ⟨⟨?_, ?_⟩, ⟨?_, ?_⟩, ⟨?_, ?_⟩⟩ <;> simp only <;> omega

/-- C39 (only the first six characters count): for every string `s` with at
least six characters behind the optional leading `#` and every string `t`,
`uc__parse_hex` yields on `s ++ t` the triple it yields on `s`; so
`"#ff000080"` resolves as `"#ff0000"`, to `(255,0,0)`; and for every argument
each returned channel lies in `[0,255]`. -/
theorem C39_hex_reads_six (s t : List Char) (x : Option (List Char))
    (h : 6 ≤ strlen (hexBody s)) :
    uc__parse_hex (some (s ++ t)) = uc__parse_hex (some s) ∧
    uc__parse_hex (some "#ff000080".toList) = uc__parse_hex (some "#ff0000".toList) ∧
    uc__parse_hex (some "#ff0000".toList) = (255, 0, 0) ∧
    (0 ≤ (uc__parse_hex x).1 ∧ (uc__parse_hex x).1 ≤ 255) ∧
    (0 ≤ (uc__parse_hex x).2.1 ∧ (uc__parse_hex x).2.1 ≤ 255) ∧
    (0 ≤ (uc__parse_hex x).2.2 ∧ (uc__parse_hex x).2.2 ≤ 255) := by
  refine ⟨?_, by decide, by decide, parse_hex_range x⟩
  have hs : s ≠ [] := by
    intro e; rw [e] at h; exact absurd h (by decide)
  have hl : 6 ≤ (hexBody s).length := Nat.le_trans h (strlen_le_length _)
  have h6 : ¬ strlen (hexBody s ++ t) < 6 :=
    Nat.not_lt.mpr (Nat.le_trans h (strlen_append_ge _ t))
  rw [parse_hex_body, parse_hex_body, hexBody_append s t hs, if_neg h6,
    if_neg (Nat.not_lt.mpr h)]
  rw [List.getD_append _ _ _ 0 (by omega), List.getD_append _ _ _ 1 (by omega),
    List.getD_append _ _ _ 2 (by omega), List.getD_append _ _ _ 3 (by omega),
    List.getD_append _ _ _ 4 (by omega), List.getD_append _ _ _ 5 (by omega)]

theorem C39_hex_reads_six_witness :
    uc__parse_hex (some ("#1a2B3c".toList ++ "zz".toList)) =
      uc__parse_hex (some "#1a2B3c".toList) :=
  (C39_hex_reads_six "#1a2B3c".toList "zz".toList none (by decide)).1

theorem dbl_ofExact_fin (q : ℚ) (h1 : q < (2 : ℚ) ^ 1024) (h2 : -(2 : ℚ) ^ 1024 < q) :
    Dbl.ofExact q = Dbl.fin q := by
  unfold Dbl.ofExact
  rw [if_neg (not_le.mpr h1), if_neg (not_le.mpr h2)]

theorem dbl_ofExact_pinf (q : ℚ) (h : (2 : ℚ) ^ 1024 ≤ q) : Dbl.ofExact q = Dbl.pinf := by
  unfold Dbl.ofExact
  rw [if_pos h]

theorem dbl_ofExact_zero : Dbl.ofExact 0 = Dbl.fin 0 :=
  dbl_ofExact_fin 0 (by positivity) (by simp)

theorem dbl_zero_mul (x : Dbl) :
    (Dbl.fin 0).mul x = Dbl.fin 0 ∨ (Dbl.fin 0).mul x = Dbl.nan := by
  cases x with
  | fin q =>
    left
    show Dbl.ofExact (0 * q) = Dbl.fin 0
    rw [zero_mul, dbl_ofExact_zero]
  | pinf => right; simp [Dbl.mul, Dbl.infTimes]
  | ninf => right; simp [Dbl.mul, Dbl.infTimes, Dbl.neg]
  | nan => right; rfl

theorem dbl_mul_zero (k : ℚ) : (Dbl.fin k).mul (Dbl.fin 0) = Dbl.fin 0 := by
  show Dbl.ofExact (k * 0) = Dbl.fin 0
  rw [mul_zero, dbl_ofExact_zero]

theorem dbl_add_zero (q : ℚ) (h1 : q < (2 : ℚ) ^ 1024) (h2 : -(2 : ℚ) ^ 1024 < q) :
    (Dbl.fin q).add (Dbl.fin 0) = Dbl.fin q := by
  show Dbl.ofExact (q + 0) = Dbl.fin q
  rw [add_zero, dbl_ofExact_fin q h1 h2]

theorem dbl_sub_zero (q : ℚ) (h1 : q < (2 : ℚ) ^ 1024) (h2 : -(2 : ℚ) ^ 1024 < q) :
    (Dbl.fin q).sub (Dbl.fin 0) = Dbl.fin q := by
  show Dbl.ofExact (q + -0) = Dbl.fin q
  rw [neg_zero, add_zero, dbl_ofExact_fin q h1 h2]

/-- The cube of a finite value of magnitude at least `2^512` is `+inf`. -/
theorem dbl_cube_overflow (L : ℚ) (hL : (2 : ℚ) ^ 512 ≤ L) :
    ((Dbl.fin L).mul (Dbl.fin L)).mul (Dbl.fin L) = Dbl.pinf := by
  have hpos : (0 : ℚ) < L := lt_of_lt_of_le (by positivity) hL
  have hsq : (2 : ℚ) ^ 1024 ≤ L * L := by
    have e : (2 : ℚ) ^ 1024 = (2 : ℚ) ^ 512 * (2 : ℚ) ^ 512 := by rw [← pow_add]
    rw [e]
    exact mul_le_mul hL hL (by positivity) (le_of_lt hpos)
  have e1 : (Dbl.fin L).mul (Dbl.fin L) = Dbl.pinf := dbl_ofExact_pinf _ hsq
  rw [e1]
  show Dbl.infTimes L = Dbl.pinf
  unfold Dbl.infTimes
  rw [if_neg (ne_of_gt hpos), if_pos hpos]

theorem dbl_const_mul_pinf (k : ℚ) (hk : 0 < k) : (Dbl.fin k).mul Dbl.pinf = Dbl.pinf := by
  show Dbl.infTimes k = Dbl.pinf
  unfold Dbl.infTimes
  rw [if_neg (ne_of_gt hk), if_pos hk]

theorem dbl_neg_const_mul_pinf (k : ℚ) (hk : k < 0) : (Dbl.fin k).mul Dbl.pinf = Dbl.ninf := by
  show Dbl.infTimes k = Dbl.ninf
  unfold Dbl.infTimes
  rw [if_neg (ne_of_lt hk), if_neg (not_lt.mpr (le_of_lt hk))]

/-- With chroma 0 and a lightness of magnitude at least `2^512` the three
linear values are NaN, whatever `cos` and `sin` return. -/
theorem oklch_linear_ieee_overflow (M : Libm Dbl) (L : ℚ) (H : Dbl)
    (hL : (2 : ℚ) ^ 512 ≤ L) (hfin : L < (2 : ℚ) ^ 1024) :
    oklch_linear_ieee M (Dbl.fin L) (Dbl.fin 0) H = (Dbl.nan, Dbl.nan, Dbl.nan) := by
  have hpos : (0 : ℚ) < L := lt_of_lt_of_le (by positivity) hL
  have hlow : -(2 : ℚ) ^ 1024 < L := lt_trans (by simp) hpos
  unfold oklch_linear_ieee
  rcases dbl_zero_mul (M.cos ((H.mul (Dbl.fin UC_PI)).div (Dbl.fin 180.0))) with ha | ha <;>
    rcases dbl_zero_mul (M.sin ((H.mul (Dbl.fin UC_PI)).div (Dbl.fin 180.0))) with hb | hb
  · simp only [ha, hb, dbl_mul_zero, dbl_add_zero L hfin hlow, dbl_sub_zero L hfin hlow,
      dbl_cube_overflow L hL]
    rw [dbl_const_mul_pinf 4.0767416621 (by norm_num),
      dbl_const_mul_pinf 3.3077115913 (by norm_num),
      dbl_const_mul_pinf 0.2309699292 (by norm_num),
      dbl_const_mul_pinf 2.6097574011 (by norm_num),
      dbl_const_mul_pinf 0.3413193965 (by norm_num),
      dbl_const_mul_pinf 0.7341731176 (by norm_num),
      dbl_const_mul_pinf 0.2676544482 (by norm_num),
      dbl_neg_const_mul_pinf (-1.2684380046) (by norm_num),
      dbl_neg_const_mul_pinf (-0.0041960863) (by norm_num)]
    rfl
  · simp only [ha, hb, dbl_mul_zero, dbl_add_zero L hfin hlow, dbl_sub_zero L hfin hlow]
    rfl
  · simp only [ha, hb, dbl_mul_zero]
    rfl
  · simp only [ha, hb]
    rfl

/-- NaN passes `uc__clampf`, and the channel computed from a NaN has no value. -/
theorem oklch_channel_ieee_nan (M : Libm Dbl)
    (hpow : M.pow Dbl.nan ((Dbl.fin 1.0).div (Dbl.fin 2.4)) = Dbl.nan) :
    uc__clampf_ieee Dbl.nan (Dbl.fin 0.0) (Dbl.fin 1.0) = Dbl.nan ∧
    oklch_channel_ieee M Dbl.nan = none := by
  constructor
  · rfl
  · unfold oklch_channel_ieee uc__srgb_transfer_ieee
    have e : Dbl.nan.le (Dbl.fin 0.0031308) = false := rfl
    rw [e, hpow]
    rfl

/-- On an input without overflow the model on `Dbl` returns the triple of the
exact model: black for `(0, 0, 0)`. -/
theorem oklch_ieee_black :
    uc__oklch_to_rgb_ieee refLibmIeee (Dbl.fin 0) (Dbl.fin 0) (Dbl.fin 0) =
      (some 0, some 0, some 0) := by
  have z : ∀ k : ℚ, (Dbl.fin k).mul (Dbl.fin 0) = Dbl.fin 0 := dbl_mul_zero
  have z0 : ∀ k : ℚ, (Dbl.fin 0).mul (Dbl.fin k) = Dbl.fin 0 := by
    intro k
    show Dbl.ofExact (0 * k) = Dbl.fin 0
    rw [zero_mul, dbl_ofExact_zero]
  have a0 : (Dbl.fin 0).add (Dbl.fin 0) = Dbl.fin 0 :=
    dbl_add_zero 0 (by positivity) (by simp)
  have s0 : (Dbl.fin 0).sub (Dbl.fin 0) = Dbl.fin 0 :=
    dbl_sub_zero 0 (by positivity) (by simp)
  have hl : oklch_linear_ieee refLibmIeee (Dbl.fin 0) (Dbl.fin 0) (Dbl.fin 0) =
      (Dbl.fin 0, Dbl.fin 0, Dbl.fin 0) := by
    unfold oklch_linear_ieee
    have hh : (Dbl.fin 0).div (Dbl.fin 180.0) = Dbl.fin 0 := by
      show (if (180.0 : ℚ) = 0 then Dbl.infTimes 0 else Dbl.ofExact (0 / 180.0)) = Dbl.fin 0
      rw [if_neg (by norm_num), zero_div, dbl_ofExact_zero]
    simp only [hh, refLibmIeee, z0, z, a0, s0]
  have hc : oklch_channel_ieee refLibmIeee (Dbl.fin 0) = some 0 := by
    unfold oklch_channel_ieee uc__srgb_transfer_ieee
    have e : (Dbl.fin 0).le (Dbl.fin 0.0031308) = true := by
      show decide ((0 : ℚ) ≤ 0.0031308) = true
      exact decide_eq_true (by norm_num)
    rw [e, if_pos rfl, z]
    have c0 : uc__clampf_ieee (Dbl.fin 0) (Dbl.fin 0.0) (Dbl.fin 1.0) = Dbl.fin 0 := by
      unfold uc__clampf_ieee
      have e1 : (Dbl.fin 0).lt (Dbl.fin 0.0) = false := by
        show decide ((0 : ℚ) < 0.0) = false
        exact decide_eq_false (by norm_num)
      have e2 : (Dbl.fin 1.0).lt (Dbl.fin 0) = false := by
        show decide ((1.0 : ℚ) < 0) = false
        exact decide_eq_false (by norm_num)
      rw [e1, e2]
      rfl
    rw [c0, z0]
    have e3 : (Dbl.fin 0).add (Dbl.fin 0.5) = Dbl.fin 0.5 := by
      show Dbl.ofExact (0 + 0.5) = Dbl.fin 0.5
      rw [zero_add]
      exact dbl_ofExact_fin _ (by norm_num) (by norm_num)
    rw [e3]
    show (if -(2 : ℚ) ^ 31 - 1 < 0.5 ∧ (0.5 : ℚ) < (2 : ℚ) ^ 31 then some (to_int (0.5 : ℚ))
      else none) = some 0
    rw [if_pos (by norm_num)]
    exact congrArg some (to_int_eq _ 0 (by norm_num) (by norm_num) (by norm_num))
  unfold uc__oklch_to_rgb_ieee
  rw [hl]
  simp only [hc]

/-- C29, the code on a lightness that overflows: for chroma 0, every hue and
every finite lightness `L` with `2^512 <= L` (so for `L = 1e200`), the cubes
are `+inf`, the three linear values are `inf - inf`, that is NaN, NaN passes
`uc__clampf(..., 0.0, 1.0)` unchanged, and the conversion `(int)NaN` of each
channel is undefined: no channel is an integer of `[0,255]`.  `cos` and `sin`
are arbitrary; `pow` is assumed to return NaN on a NaN base. -/
theorem C29_overflow_passes_clamp (M : Libm Dbl) (L : ℚ) (H : Dbl)
    (hL : (2 : ℚ) ^ 512 ≤ L) (hfin : L < (2 : ℚ) ^ 1024)
    (hpow : M.pow Dbl.nan ((Dbl.fin 1.0).div (Dbl.fin 2.4)) = Dbl.nan) :
    oklch_linear_ieee M (Dbl.fin L) (Dbl.fin 0) H = (Dbl.nan, Dbl.nan, Dbl.nan) ∧
    uc__clampf_ieee Dbl.nan (Dbl.fin 0.0) (Dbl.fin 1.0) = Dbl.nan ∧
    uc__oklch_to_rgb_ieee M (Dbl.fin L) (Dbl.fin 0) H = (none, none, none) := by
  refine ⟨oklch_linear_ieee_overflow M L H hL hfin, (oklch_channel_ieee_nan M hpow).1, ?_⟩
  unfold uc__oklch_to_rgb_ieee
  rw [oklch_linear_ieee_overflow M L H hL hfin]
  simp only [(oklch_channel_ieee_nan M hpow).2]

/-- Witness of C29: `uc__oklch_to_rgb(1e200, 0, 0)` with the stand-in math
library. -/
theorem C29_overflow_passes_clamp_witness :
    uc__oklch_to_rgb_ieee refLibmIeee (Dbl.fin (10 ^ 200)) (Dbl.fin 0) (Dbl.fin 0) =
      (none, none, none) :=
  (C29_overflow_passes_clamp refLibmIeee (10 ^ 200) (Dbl.fin 0) (by norm_num) (by norm_num)
    rfl).2.2

end Uprintf
